import Mathlib

/-!
SVG path-data interpreter of thorvg (`src/loaders/svg/tvgSvgPath.cpp`).

A shallow embedding of `svgPathToTvgPath` and of the static functions it is
built from, followed by theorems about them.

Modelling conventions.

* A `const char*` cursor is the list of characters from the cursor up to (and
  without) the terminating NUL; `NULL` is `none`.
* `float` is an arbitrary linearly ordered field `F` with a floor function
  (exact arithmetic, no rounding, no NaN/Inf); concrete evaluations are done
  over `ℚ`.  Where the rounding decides a property (the normalization of the
  sweep of an arc), the lines are repeated with round-to-nearest-even to 24
  and 53 binary digits (`toFloat`, `toDouble`, `deltaThetaBinary32`).
* The C library is not part of the repository.  `isspace`, `isalpha`,
  `strtof` and `strtol` are modelled for the "C"/"POSIX" locale (`strtof` for
  decimal literals with an optional exponent; hexadecimal, `inf` and `nan`
  literals have no value in exact arithmetic and are outside the model).  The
  transcendental functions and the constant `M_PI` are a parameter `Libm F`.
* `vector::push_back` appends at the end of a list.
* The `while` loop of `svgPathToTvgPath` need not terminate, so it is run
  with a bound on the number of iterations (`none` = bound exhausted).
-/

namespace TvgSvgPath

/-! ## Data model -/

/-- Drawing command tags of the output path (`tvg::PathCommand`). -/
inductive PathCommand where
  | Close
  | MoveTo
  | LineTo
  | CubicTo
  deriving DecidableEq, Repr

/-- A point of the output path (`tvg::Point`). -/
structure Point (F : Type) where
  x : F
  y : F
  deriving DecidableEq

/-- The functions of `math.h` used by the arc conversion, and `M_PI`. -/
structure Libm (F : Type) where
  M_PI : F
  cos : F → F
  sin : F → F
  sqrt : F → F
  atan2 : F → F → F

/-- The output vectors and the three pieces of state that `_processCommand`
and `_pathAppendArcTo` receive by address. -/
structure PathState (F : Type) where
  cmds : List PathCommand
  pts : List (Point F)
  cur : Point F
  curCtl : Point F
  isQuadratic : Bool
  deriving DecidableEq

/-- The local variables of `svgPathToTvgPath` that live across loop iterations. -/
structure LoopState (F : Type) where
  out : PathState F
  numberArray : List F
  numberCount : Nat
  cmd : Char
  path : List Char
  deriving DecidableEq

/-! ## C library: character classes and number scanning -/

/-- The `isspace` of the C locale. -/
def isspace (c : Char) : Bool :=
  c == ' ' || c == '\t' || c == '\n' || c == '\x0b' || c == '\x0c' || c == '\r'

/-- The `isalpha` of the C locale. -/
def isalpha (c : Char) : Bool :=
  ('a' ≤ c && c ≤ 'z') || ('A' ≤ c && c ≤ 'Z')

/-- The `isdigit` of the C locale. -/
def isdigit (c : Char) : Bool :=
  '0' ≤ c && c ≤ '9'

/-- Value of a string of decimal digits. -/
def decimalValue (ds : List Char) : Nat :=
  ds.foldl (fun a c => 10 * a + (c.toNat - '0'.toNat)) 0

/-- An optional sign in front of a number: whether it is a minus, and the rest. -/
def scanSign (s : List Char) : Bool × List Char :=
  match s with
  | '-' :: t => (true, t)
  | '+' :: t => (false, t)
  | _ => (false, s)

/-- The fraction part of a decimal literal: its digits and the rest. A point
that is followed by no digit is consumed as well (as in "5."). -/
def scanFraction (s : List Char) : List Char × List Char :=
  match s with
  | '.' :: t => (t.takeWhile isdigit, t.dropWhile isdigit)
  | _ => ([], s)

/-- The exponent part of a decimal literal: its value and the rest. An "e"
that is not followed by an (optionally signed) digit is not consumed. -/
def scanExponent (s : List Char) : Int × List Char :=
  match s with
  | c :: r =>
    if c = 'e' ∨ c = 'E' then
      let sg := scanSign r
      let ds := sg.2.takeWhile isdigit
      if ds = [] then (0, s)
      else ((if sg.1 then -(decimalValue ds : Int) else (decimalValue ds : Int)),
            sg.2.dropWhile isdigit)
    else (0, s)
  | [] => (0, s)

/-- The C function `strtof` on decimal input: `none` when no conversion is
performed (the end pointer equals the start), else the value and the end
pointer. -/
def strtof {F : Type} [LinearOrderedField F] (s : List Char) : Option (F × List Char) :=
  let sg := scanSign (s.dropWhile isspace)
  let ip := sg.2.takeWhile isdigit
  let fr := scanFraction (sg.2.dropWhile isdigit)
  if ip = [] ∧ fr.1 = [] then none
  else
    let ex := scanExponent fr.2
    let v : F := (decimalValue (ip ++ fr.1) : F) / 10 ^ fr.1.length * 10 ^ ex.1
    some (if sg.1 then -v else v, ex.2)

/-- The C function `strtol` in base 10: `none` when no conversion is performed. -/
def strtol (s : List Char) : Option (Int × List Char) :=
  let sg := scanSign (s.dropWhile isspace)
  let ds := sg.2.takeWhile isdigit
  if ds = [] then none
  else some ((if sg.1 then -(decimalValue ds : Int) else (decimalValue ds : Int)),
             sg.2.dropWhile isdigit)

/-! ## Tokenizer -/

/-- The function `_skipComma`: skip white space, then at most one comma. -/
def _skipComma (content : List Char) : List Char :=
  match content.dropWhile isspace with
  | ',' :: rest => rest
  | rest => rest

/-- The function `_parseNumber`: the number and the advanced cursor, or
`none` for `false` (cursor and number are then left as they were). -/
def _parseNumber {F : Type} [LinearOrderedField F] (content : List Char) :
    Option (F × List Char) :=
  match strtof content with
  | none => none
  | some (number, e) => some (number, _skipComma e)

/-- The function `_parseLong`: the flag (0 or 1) and the advanced cursor. -/
def _parseLong (content : List Char) : Option (Int × List Char) :=
  match strtol content with
  | none => none
  | some (number, e) => some ((if number ≠ 0 then 1 else 0), _skipComma e)

/-- The function `_numberCount`: arity of a command letter. -/
def _numberCount (cmd : Char) : Nat :=
  if cmd = 'M' ∨ cmd = 'm' ∨ cmd = 'L' ∨ cmd = 'l' ∨ cmd = 'T' ∨ cmd = 't' then 2
  else if cmd = 'C' ∨ cmd = 'c' ∨ cmd = 'E' ∨ cmd = 'e' then 6
  else if cmd = 'H' ∨ cmd = 'h' ∨ cmd = 'V' ∨ cmd = 'v' then 1
  else if cmd = 'S' ∨ cmd = 's' ∨ cmd = 'Q' ∨ cmd = 'q' then 4
  else if cmd = 'A' ∨ cmd = 'a' then 7
  else 0

/-- The first part of `_nextCommand`: skip separators, then either read a
command letter and its arity, or repeat the previous command (with `m`, `M`
turned into `l`, `L`). Gives the cursor, the command and the count. -/
def commandLetter (path : List Char) (cmd : Char) (count : Nat) : List Char × Char × Nat :=
  match _skipComma path with
  | c :: rest =>
    if isalpha c then (rest, c, _numberCount c)
    else (c :: rest, (if cmd = 'm' then 'l' else if cmd = 'M' then 'L' else cmd), count)
  | [] => ([], (if cmd = 'm' then 'l' else if cmd = 'M' then 'L' else cmd), count)

/-- The `for` loop of `_nextCommand`, with `n` iterations left and loop
variable `i`: parse a number into `arr[i]`, then skip a separator. -/
def parseArgs {F : Type} [LinearOrderedField F] :
    Nat → Nat → List Char → List F → Option (List Char × List F)
  | 0, _, path, arr => some (path, arr)
  | n + 1, i, path, arr =>
    match _parseNumber path with
    | none => none
    | some (v, p) => parseArgs n (i + 1) (_skipComma p) (arr.set i v)

/-- The arc branch of `_nextCommand` (taken when the count is 7). -/
def parseArcArgs {F : Type} [LinearOrderedField F] (path : List Char) (arr : List F) :
    Option (List Char × List F) :=
  match _parseNumber path with
  | none => none
  | some (a0, p0) =>
  match _parseNumber p0 with
  | none => none
  | some (a1, p1) =>
  match _parseNumber p1 with
  | none => none
  | some (a2, p2) =>
  match _parseLong p2 with
  | none => none
  | some (large, p3) =>
  match _parseLong p3 with
  | none => none
  | some (sweep, p4) =>
  match _parseNumber p4 with
  | none => none
  | some (a5, p5) =>
  match _parseNumber p5 with
  | none => none
  | some (a6, p6) =>
    some (p6, (((((((arr.set 0 a0).set 1 a1).set 2 a2).set 5 a5).set 6 a6).set 3
      (large : F)).set 4 (sweep : F)))

/-- The function `_nextCommand`: `none` for a `NULL` result (the out
parameters are then dead, the caller leaves its loop), else the advanced
cursor, the command, the argument array and the count. -/
def _nextCommand {F : Type} [LinearOrderedField F] (path : List Char) (cmd : Char)
    (arr : List F) (count : Nat) : Option (List Char × Char × List F × Nat) :=
  let h := commandLetter path cmd count
  if h.2.2 = 7 then
    match parseArcArgs h.1 arr with
    | none => none
    | some (p, a) => some (p, h.2.1, a, 7)
  else
    match parseArgs h.2.2 0 h.1 arr with
    | none => none
    | some (p, a) => some (p, h.2.1, a, h.2.2)

/-! ## Arc conversion -/

/-- The constant `M_PI_2` of `math.h` (as a double it is exactly `M_PI / 2`). -/
def M_PI_2 {F : Type} [LinearOrderedField F] (m : Libm F) : F := m.M_PI / 2

/-- The `for` loop of `_pathAppendArcTo` with `n` iterations left: each
iteration appends one `CubicTo` with its three points and moves the running
start point and angle to the end of the segment. -/
def arcLoop {F : Type} [LinearOrderedField F] (m : Libm F)
    (bcp cosPhiRx cosPhiRy sinPhiRx sinPhiRy cx cy delta : F) :
    Nat → F → F → F → F → F → PathState F → PathState F
  | 0, _, _, _, _, _, st => st
  | n + 1, sx, sy, theta1, cosTheta1, sinTheta1, st =>
    let theta2 := theta1 + delta
    let cosTheta2 := m.cos theta2
    let sinTheta2 := m.sin theta2
    let c1x := sx - bcp * (cosPhiRx * sinTheta1 + sinPhiRy * cosTheta1)
    let c1y := sy + bcp * (cosPhiRy * cosTheta1 - sinPhiRx * sinTheta1)
    let ex := cx + (cosPhiRx * cosTheta2 - sinPhiRy * sinTheta2)
    let ey := cy + (sinPhiRx * cosTheta2 + cosPhiRy * sinTheta2)
    let c2x := ex + bcp * (cosPhiRx * sinTheta2 + sinPhiRy * cosTheta2)
    let c2y := ey + bcp * (sinPhiRx * sinTheta2 - cosPhiRy * cosTheta2)
    arcLoop m bcp cosPhiRx cosPhiRy sinPhiRx sinPhiRy cx cy delta n ex ey theta2
      cosTheta2 sinTheta2
      { st with
        cmds := st.cmds ++ [PathCommand.CubicTo]
        pts := st.pts ++ [⟨c1x, c1y⟩, ⟨c2x, c2y⟩, ⟨ex, ey⟩]
        curCtl := ⟨c2x, c2y⟩
        cur := ⟨ex, ey⟩ }

/-- The part of `_pathAppendArcTo` after the two early returns (radii
already in absolute value): endpoint-to-center conversion and the segment loop. -/
def arcToCubics {F : Type} [LinearOrderedField F] [FloorRing F] (m : Libm F)
    (st : PathState F) (x y rx ry angle : F) (largeArc sweep : Bool) : PathState F :=
  let sx := st.cur.x
  let sy := st.cur.y
  let angle := angle * m.M_PI / 180
  let cosPhi := m.cos angle
  let sinPhi := m.sin angle
  let dx2 := (sx - x) / 2
  let dy2 := (sy - y) / 2
  let x1p := cosPhi * dx2 + sinPhi * dy2
  let y1p := cosPhi * dy2 - sinPhi * dx2
  let x1p2 := x1p * x1p
  let y1p2 := y1p * y1p
  let lambda := (x1p2 / (rx * rx)) + (y1p2 / (ry * ry))
  let rx := if lambda > 1 then rx * m.sqrt lambda else rx
  let ry := if lambda > 1 then ry * m.sqrt lambda else ry
  let rx2 := rx * rx
  let ry2 := ry * ry
  let c := (rx2 * ry2) - (rx2 * y1p2) - (ry2 * x1p2)
  let scale := m.sqrt (1 - c / (rx2 * ry2))
  let c1 := m.sqrt (c / ((rx2 * y1p2) + (ry2 * x1p2)))
  let c2 := if largeArc = sweep then -c1 else c1
  let cxp := if c < 0 then 0 else c2 * (rx * y1p / ry)
  let cyp := if c < 0 then 0 else c2 * (-ry * x1p / rx)
  let cx := (if c < 0 then 0 else cosPhi * cxp - sinPhi * cyp) + (sx + x) / 2
  let cy := (if c < 0 then 0 else sinPhi * cxp + cosPhi * cyp) + (sy + y) / 2
  let rx := if c < 0 then rx * scale else rx
  let ry := if c < 0 then ry * scale else ry
  let a := m.atan2 ((y1p - cyp) / ry) ((x1p - cxp) / rx)
  let theta1 := if a < 0 then 2 * m.M_PI + a else a
  let nat := m.atan2 ((-y1p - cyp) / ry) ((-x1p - cxp) / rx)
  let deltaTheta0 := if nat < a then 2 * m.M_PI - a + nat else nat - a
  let deltaTheta :=
    if sweep then (if deltaTheta0 < 0 then deltaTheta0 + 2 * m.M_PI else deltaTheta0)
    else (if deltaTheta0 > 0 then deltaTheta0 - 2 * m.M_PI else deltaTheta0)
  let segments := ⌊|deltaTheta / M_PI_2 m|⌋₊ + 1
  let delta := deltaTheta / segments
  let bcp := 4 / 3 * (1 - m.cos (delta / 2)) / m.sin (delta / 2)
  arcLoop m bcp (cosPhi * rx) (cosPhi * ry) (sinPhi * rx) (sinPhi * ry) cx cy delta
    segments sx sy theta1 (m.cos theta1) (m.sin theta1) st

/-- The function `_pathAppendArcTo`. -/
def _pathAppendArcTo {F : Type} [LinearOrderedField F] [FloorRing F] (m : Libm F)
    (st : PathState F) (x y rx ry angle : F) (largeArc sweep : Bool) : PathState F :=
  if |x - st.cur.x| < 1 / 256 ∧ |y - st.cur.y| < 1 / 256 then st
  else if |rx| < 1 / 2 ∨ |ry| < 1 / 2 then
    { st with
      cmds := st.cmds ++ [PathCommand.LineTo]
      pts := st.pts ++ [⟨x, y⟩]
      cur := ⟨x, y⟩ }
  else arcToCubics m st x y |rx| |ry| angle largeArc sweep

/-! ## Command processor -/

/-- The element `arr[i]` of the argument array. -/
def argAt {F : Type} [LinearOrderedField F] (arr : List F) (i : Nat) : F := arr.getD i 0

/-- The `for` loop in the first `switch` of `_processCommand`, with `n`
iterations left and loop variable `i`: while `i < count - 1`, offset the
pair `arr[i]`, `arr[i+1]` by the current point and step `i` by two. -/
def offsetPairs {F : Type} [LinearOrderedField F] (cur : Point F) (count : Nat) :
    Nat → Nat → List F → List F
  | 0, _, arr => arr
  | n + 1, i, arr =>
    if i + 1 < count then
      offsetPairs cur count n (i + 2)
        ((arr.set i (argAt arr i + cur.x)).set (i + 1) (argAt arr (i + 1) + cur.y))
    else arr

/-- The first `switch` of `_processCommand`: relative arguments are made
absolute in place. -/
def makeAbsolute {F : Type} [LinearOrderedField F] (cmd : Char) (arr : List F) (count : Nat)
    (cur : Point F) : List F :=
  if cmd = 'm' ∨ cmd = 'l' ∨ cmd = 'c' ∨ cmd = 's' ∨ cmd = 'q' ∨ cmd = 't' then
    offsetPairs cur count count 0 arr
  else if cmd = 'h' then arr.set 0 (argAt arr 0 + cur.x)
  else if cmd = 'v' then arr.set 0 (argAt arr 0 + cur.y)
  else if cmd = 'a' then
    (arr.set 5 (argAt arr 5 + cur.x)).set 6 (argAt arr 6 + cur.y)
  else arr

/-- The test that `S`/`s` and `T`/`t` make before reflecting the last
control point: at least two commands, the last of them a `CubicTo`. -/
def lastIsCubic {F : Type} (st : PathState F) : Bool :=
  decide (st.cmds.length > 1) && (st.cmds.getLast? == some PathCommand.CubicTo)

/-- Append one `CubicTo` with three points; set the last control point, the
current point and the curve-type flag. -/
def pushCubic {F : Type} (st : PathState F) (p0 p1 p2 ctl : Point F) (quad : Bool) :
    PathState F :=
  { cmds := st.cmds ++ [PathCommand.CubicTo]
    pts := st.pts ++ [p0, p1, p2]
    curCtl := ctl
    cur := p2
    isQuadratic := quad }

/-- The second `switch` of `_processCommand` (arguments already absolute). -/
def emitCommand {F : Type} [LinearOrderedField F] [FloorRing F] (m : Libm F)
    (st : PathState F) (cmd : Char) (arr : List F) : PathState F :=
  if cmd = 'm' ∨ cmd = 'M' then
    { st with
      cmds := st.cmds ++ [PathCommand.MoveTo]
      pts := st.pts ++ [⟨argAt arr 0, argAt arr 1⟩]
      cur := ⟨argAt arr 0, argAt arr 1⟩ }
  else if cmd = 'l' ∨ cmd = 'L' then
    { st with
      cmds := st.cmds ++ [PathCommand.LineTo]
      pts := st.pts ++ [⟨argAt arr 0, argAt arr 1⟩]
      cur := ⟨argAt arr 0, argAt arr 1⟩ }
  else if cmd = 'c' ∨ cmd = 'C' then
    pushCubic st ⟨argAt arr 0, argAt arr 1⟩ ⟨argAt arr 2, argAt arr 3⟩ ⟨argAt arr 4, argAt arr 5⟩
      ⟨argAt arr 2, argAt arr 3⟩ false
  else if cmd = 's' ∨ cmd = 'S' then
    let ctrl : Point F :=
      if lastIsCubic st && !st.isQuadratic then
        ⟨2 * st.cur.x - st.curCtl.x, 2 * st.cur.y - st.curCtl.y⟩
      else st.cur
    pushCubic st ctrl ⟨argAt arr 0, argAt arr 1⟩ ⟨argAt arr 2, argAt arr 3⟩
      ⟨argAt arr 0, argAt arr 1⟩ false
  else if cmd = 'q' ∨ cmd = 'Q' then
    let ctrl_x0 := (st.cur.x + 2 * argAt arr 0) * (1 / 3)
    let ctrl_y0 := (st.cur.y + 2 * argAt arr 1) * (1 / 3)
    let ctrl_x1 := (argAt arr 2 + 2 * argAt arr 0) * (1 / 3)
    let ctrl_y1 := (argAt arr 3 + 2 * argAt arr 1) * (1 / 3)
    pushCubic st ⟨ctrl_x0, ctrl_y0⟩ ⟨ctrl_x1, ctrl_y1⟩ ⟨argAt arr 2, argAt arr 3⟩
      ⟨argAt arr 0, argAt arr 1⟩ true
  else if cmd = 't' ∨ cmd = 'T' then
    let ctrl : Point F :=
      if lastIsCubic st && st.isQuadratic then
        ⟨2 * st.cur.x - st.curCtl.x, 2 * st.cur.y - st.curCtl.y⟩
      else st.cur
    let ctrl_x0 := (st.cur.x + 2 * ctrl.x) * (1 / 3)
    let ctrl_y0 := (st.cur.y + 2 * ctrl.y) * (1 / 3)
    let ctrl_x1 := (argAt arr 0 + 2 * ctrl.x) * (1 / 3)
    let ctrl_y1 := (argAt arr 1 + 2 * ctrl.y) * (1 / 3)
    pushCubic st ⟨ctrl_x0, ctrl_y0⟩ ⟨ctrl_x1, ctrl_y1⟩ ⟨argAt arr 0, argAt arr 1⟩
      ⟨ctrl.x, ctrl.y⟩ true
  else if cmd = 'h' ∨ cmd = 'H' then
    { st with
      cmds := st.cmds ++ [PathCommand.LineTo]
      pts := st.pts ++ [⟨argAt arr 0, st.cur.y⟩]
      cur := ⟨argAt arr 0, st.cur.y⟩ }
  else if cmd = 'v' ∨ cmd = 'V' then
    { st with
      cmds := st.cmds ++ [PathCommand.LineTo]
      pts := st.pts ++ [⟨st.cur.x, argAt arr 0⟩]
      cur := ⟨st.cur.x, argAt arr 0⟩ }
  else if cmd = 'z' ∨ cmd = 'Z' then
    { st with cmds := st.cmds ++ [PathCommand.Close] }
  else if cmd = 'a' ∨ cmd = 'A' then
    { _pathAppendArcTo m st (argAt arr 5) (argAt arr 6) (argAt arr 0) (argAt arr 1)
        (argAt arr 2) (decide (argAt arr 3 ≠ 0)) (decide (argAt arr 4 ≠ 0)) with
      cur := ⟨argAt arr 5, argAt arr 6⟩ }
  else st

/-- The function `_processCommand`: the new output state and the argument
array (which the first `switch` changes in place). -/
def _processCommand {F : Type} [LinearOrderedField F] [FloorRing F] (m : Libm F)
    (st : PathState F) (cmd : Char) (arr : List F) (count : Nat) : PathState F × List F :=
  let arr := makeAbsolute cmd arr count st.cur
  (emitCommand m st cmd arr, arr)

/-! ## Entry point -/

/-- The state of `svgPathToTvgPath` when its loop is entered. The argument
array is uninitialised in the source (no element is read before it is
written); it starts as seven zeros here. -/
def initState {F : Type} [LinearOrderedField F] (svgPath : List Char) : LoopState F :=
  { out := { cmds := [], pts := [], cur := ⟨0, 0⟩, curCtl := ⟨0, 0⟩, isQuadratic := false }
    numberArray := List.replicate 7 0
    numberCount := 0
    cmd := Char.ofNat 0
    path := svgPath }

/-- One iteration of the `while` loop of `svgPathToTvgPath`: `none` when the
loop is left (end of the string, or `_nextCommand` gave `NULL`), else the
state after `_processCommand`. -/
def loopStep {F : Type} [LinearOrderedField F] [FloorRing F] (m : Libm F)
    (st : LoopState F) : Option (LoopState F) :=
  match st.path with
  | [] => none
  | _ :: _ =>
    match _nextCommand st.path st.cmd st.numberArray st.numberCount with
    | none => none
    | some (path, cmd, arr, count) =>
      let r := _processCommand m st.out cmd arr count
      some { out := r.1, numberArray := r.2, numberCount := count, cmd := cmd, path := path }

/-- The `while` loop of `svgPathToTvgPath` run for at most `fuel` iterations:
the returned tuple when the loop is left within the bound, `none` when it is not. -/
def runLoop {F : Type} [LinearOrderedField F] [FloorRing F] (m : Libm F) :
    Nat → LoopState F → Option (List PathCommand × List (Point F))
  | 0, _ => none
  | fuel + 1, st =>
    match loopStep m st with
    | none => some (st.out.cmds, st.out.pts)
    | some st1 => runLoop m fuel st1

/-- The state after `n` iterations of the loop, `none` when the loop was
left before. -/
def stateAfter {F : Type} [LinearOrderedField F] [FloorRing F] (m : Libm F) :
    Nat → LoopState F → Option (LoopState F)
  | 0, st => some st
  | n + 1, st =>
    match loopStep m st with
    | none => none
    | some st1 => stateAfter m n st1

/-- The function `svgPathToTvgPath`, with a bound on the loop iterations. -/
def svgPathToTvgPath {F : Type} [LinearOrderedField F] [FloorRing F] (m : Libm F)
    (fuel : Nat) (svgPath : String) : Option (List PathCommand × List (Point F)) :=
  runLoop m fuel (initState svgPath.toList)

end TvgSvgPath


namespace TvgSvgPath

/-! ## A rational instance of the C library's mathematics

Used only to run the functions above on concrete inputs. Every result is a
truncated series or a Newton iteration, rounded down to a multiple of `2^-30`. -/

/-- Round down to a multiple of `2^-30`. -/
def roundQ (x : ℚ) : ℚ := (⌊x * 2 ^ 30⌋ : ℤ) / 2 ^ 30

/-- The double nearest to pi, the value of `M_PI`. -/
def piQ : ℚ := 884279719003555 / 281474976710656

/-- Partial sum of an alternating Taylor series: `n` terms from `term`, the
next term obtained by multiplying with `-x2 / ((k + 1) * (k + 2))`. -/
def taylorSum (x2 : ℚ) : Nat → Nat → ℚ → ℚ → ℚ
  | 0, _, _, acc => acc
  | n + 1, k, term, acc =>
    taylorSum x2 n (k + 2) (-term * x2 / ((k + 1) * (k + 2))) (acc + term)

/-- Reduce an angle to the interval around zero of length `2 * piQ`. -/
def reduceAngle (x : ℚ) : ℚ := x - 2 * piQ * (⌊x / (2 * piQ) + 1 / 2⌋ : ℤ)

/-- Rational cosine. -/
def cosQ (x : ℚ) : ℚ := roundQ (taylorSum (reduceAngle x * reduceAngle x) 14 0 1 0)

/-- Rational sine. -/
def sinQ (x : ℚ) : ℚ :=
  roundQ (taylorSum (reduceAngle x * reduceAngle x) 14 1 (reduceAngle x) 0)

/-- Newton iteration for the square root, `n` steps from `y`. -/
def newtonSqrt (x : ℚ) : Nat → ℚ → ℚ
  | 0, y => y
  | n + 1, y => newtonSqrt x n (roundQ ((y + x / y) / 2))

/-- Rational square root (0 for a negative argument). -/
def sqrtQ (x : ℚ) : ℚ := if x ≤ 0 then 0 else newtonSqrt x 40 (max x 1)

/-- Partial sum of the arctangent series: `n` terms from `pow / k`. -/
def atanSum (t2 : ℚ) : Nat → Nat → ℚ → ℚ → ℚ
  | 0, _, _, acc => acc
  | n + 1, k, pow, acc => atanSum t2 n (k + 2) (-pow * t2) (acc + pow / k)

/-- Halve the angle of a tangent: `tan (a / 2)` from `tan a`. -/
def halfTan (t : ℚ) : ℚ := t / (1 + sqrtQ (1 + t * t))

/-- Rational arctangent on `[-1, 1]`. -/
def atanSmall (t : ℚ) : ℚ :=
  4 * atanSum (halfTan (halfTan t) * halfTan (halfTan t)) 12 1 (halfTan (halfTan t)) 0

/-- Rational arctangent. -/
def atanQ (t : ℚ) : ℚ :=
  if |t| ≤ 1 then atanSmall t
  else if 0 < t then piQ / 2 - atanSmall (1 / t)
  else -(piQ / 2) - atanSmall (1 / t)

/-- Rational `atan2`. -/
def atan2Q (y x : ℚ) : ℚ :=
  roundQ (if 0 < x then atanQ (y / x)
    else if x < 0 then (if 0 ≤ y then atanQ (y / x) + piQ else atanQ (y / x) - piQ)
    else if 0 < y then piQ / 2 else if y < 0 then -(piQ / 2) else 0)

/-- The rational instance of `Libm`. -/
def libmQ : Libm ℚ :=
  { M_PI := piQ, cos := cosQ, sin := sinQ, sqrt := sqrtQ, atan2 := atan2Q }

/-! ## Specification-side definitions -/

/-- Number of points that a command owns in the point sequence. -/
def pointsOf : PathCommand → Nat
  | PathCommand.Close => 0
  | PathCommand.MoveTo => 1
  | PathCommand.LineTo => 1
  | PathCommand.CubicTo => 3

/-- The point count that a command sequence calls for:
3 per `CubicTo`, 1 per `MoveTo`, 1 per `LineTo`, 0 per `Close`. -/
def expectedPoints (cmds : List PathCommand) : Nat :=
  3 * cmds.count PathCommand.CubicTo + 1 * cmds.count PathCommand.MoveTo
    + 1 * cmds.count PathCommand.LineTo + 0 * cmds.count PathCommand.Close

/-- The point-count invariant of an output state. -/
def PointCountInv {F : Type} (st : PathState F) : Prop :=
  st.pts.length = expectedPoints st.cmds

/-- The cursor after argument `i` of a command with `count` arguments, as
the tokenizer rules describe the grammar: the two flags of an arc (arguments
3 and 4 of 7) are integer tokens, every other argument is a floating-point
token; after the token the separators are skipped that `_nextCommand` skips
there. `none` when the token does not parse. -/
def afterToken (F : Type) [LinearOrderedField F] (count i : Nat) (path : List Char) :
    Option (List Char) :=
  if count = 7 then
    if i = 3 ∨ i = 4 then (_parseLong path).map Prod.snd
    else (_parseNumber (F := F) path).map Prod.snd
  else (_parseNumber (F := F) path).map (fun r => _skipComma r.2)

/-- Index of the first of the `n` arguments from `i` on that fails to parse,
the arguments before it being read one after the other. -/
def firstFailure (F : Type) [LinearOrderedField F] (count : Nat) :
    Nat → Nat → List Char → Option Nat
  | 0, _, _ => none
  | n + 1, i, path =>
    match afterToken F count i path with
    | none => some i
    | some p => firstFailure F count n (i + 1) p

/-- A well-formed number token of the path grammar: an optional minus sign,
digits, and an optional fraction. -/
structure NumLit where
  neg : Bool
  int : List Char
  frac : List Char

/-- Well-formedness of a number token: the integer part is a non-empty string
of digits and the fraction (possibly empty) consists of digits. -/
def NumLit.wf (l : NumLit) : Bool :=
  !l.int.isEmpty && l.int.all isdigit && l.frac.all isdigit

/-- The text of a number token. -/
def NumLit.text (l : NumLit) : List Char :=
  (if l.neg then ['-'] else []) ++ (l.int ++ (if l.frac.isEmpty then [] else '.' :: l.frac))

/-- The number that a token denotes. -/
def NumLit.value (F : Type) [LinearOrderedField F] (l : NumLit) : F :=
  if l.neg then -((decimalValue (l.int ++ l.frac) : F) / 10 ^ l.frac.length)
  else (decimalValue (l.int ++ l.frac) : F) / 10 ^ l.frac.length

/-- What may follow a number token: the end of the string, a comma or a blank. -/
def tokenEnd (rest : List Char) : Bool :=
  match rest with
  | [] => true
  | c :: _ => c == ',' || c == ' '

/-- A two-argument drawing command of a path text: the letter (`L`, `l`, or
none when the previous command is repeated implicitly) and its two tokens. -/
structure PairCmd where
  letter : Option Char
  x : NumLit
  y : NumLit

/-- Well-formedness of a two-argument command: both tokens are well formed
and the letter, when there is one, is `L` or `l`. -/
def PairCmd.wf (c : PairCmd) : Bool :=
  c.x.wf && c.y.wf && (c.letter == none || c.letter == some 'L' || c.letter == some 'l')

/-- The text of a list of two-argument commands: each is written as a blank,
the letter if any, and the two tokens with a comma between them. -/
def pairsText : List PairCmd → List Char
  | [] => []
  | c :: cs =>
    ' ' :: ((match c.letter with
      | some l => [l]
      | none => []) ++ (c.x.text ++ ',' :: (c.y.text ++ pairsText cs)))

/-- Whether a command is relative, given whether the command before it was. -/
def PairCmd.isRel (c : PairCmd) (rel : Bool) : Bool :=
  match c.letter with
  | some l => l == 'l'
  | none => rel

/-- The points that a list of lineto commands is to emit, from the current
point `cur`: the argument pair itself for an absolute command, the argument
pair added to the current point for a relative one; the emitted point is the
next current point. -/
def pairPoints (F : Type) [LinearOrderedField F] : Bool → Point F → List PairCmd → List (Point F)
  | _, _, [] => []
  | rel, cur, c :: cs =>
    (if c.isRel rel then (⟨c.x.value F + cur.x, c.y.value F + cur.y⟩ : Point F)
      else ⟨c.x.value F, c.y.value F⟩)
    :: pairPoints F (c.isRel rel)
        (if c.isRel rel then (⟨c.x.value F + cur.x, c.y.value F + cur.y⟩ : Point F)
          else ⟨c.x.value F, c.y.value F⟩) cs

/-- Point of the quadratic Bezier curve with control points `p0`, `q`, `p3`
at parameter `t`. -/
def bezier2 {F : Type} [LinearOrderedField F] (p0 q p3 : Point F) (t : F) : Point F :=
  ⟨(1 - t) ^ 2 * p0.x + 2 * (1 - t) * t * q.x + t ^ 2 * p3.x,
   (1 - t) ^ 2 * p0.y + 2 * (1 - t) * t * q.y + t ^ 2 * p3.y⟩

/-- Point of the cubic Bezier curve with control points `p0`, `c1`, `c2`,
`p3` at parameter `t`. -/
def bezier3 {F : Type} [LinearOrderedField F] (p0 c1 c2 p3 : Point F) (t : F) : Point F :=
  ⟨(1 - t) ^ 3 * p0.x + 3 * (1 - t) ^ 2 * t * c1.x + 3 * (1 - t) * t ^ 2 * c2.x + t ^ 3 * p3.x,
   (1 - t) ^ 3 * p0.y + 3 * (1 - t) ^ 2 * t * c1.y + 3 * (1 - t) * t ^ 2 * c2.y + t ^ 3 * p3.y⟩

/-- The effective control point of a smooth quadratic as the code takes it:
the last control point reflected through the current point when the output
holds at least two commands, the last of them is a `CubicTo` and the
curve-type flag is set; the current point otherwise. -/
def smoothQuadControl {F : Type} [LinearOrderedField F] (st : PathState F) : Point F :=
  if 1 < st.cmds.length ∧ st.cmds.getLast? = some PathCommand.CubicTo ∧ st.isQuadratic = true
  then ⟨2 * st.cur.x - st.curCtl.x, 2 * st.cur.y - st.curCtl.y⟩
  else st.cur

/-- The command letters that the arity table `_numberCount` or the command
processor knows: the eighteen letters of the path grammar, and `E`/`e`. -/
def knownLetters : List Char :=
  ['M', 'm', 'L', 'l', 'H', 'h', 'V', 'v', 'C', 'c', 'S', 's', 'Q', 'q', 'T', 't', 'A', 'a',
    'Z', 'z', 'E', 'e']

/-! ### The stages of the arc conversion

The same computation as `arcToCubics`, cut into the steps that the source
comments name, so that statements can be made about the intermediate values
(`arcToCubics_staged` shows that the two agree). -/

/-- The rotated half chord `(x1p, y1p)` of `_pathAppendArcTo`. -/
def arcHalfChord {F : Type} [LinearOrderedField F] (m : Libm F) (cur : Point F)
    (x y angle : F) : F × F :=
  (m.cos (angle * m.M_PI / 180) * ((cur.x - x) / 2)
      + m.sin (angle * m.M_PI / 180) * ((cur.y - y) / 2),
   m.cos (angle * m.M_PI / 180) * ((cur.y - y) / 2)
      - m.sin (angle * m.M_PI / 180) * ((cur.x - x) / 2))

/-- The value `lambda` of `_pathAppendArcTo`. -/
def arcLambda {F : Type} [LinearOrderedField F] (x1p y1p rx ry : F) : F :=
  (x1p * x1p / (rx * rx)) + (y1p * y1p / (ry * ry))

/-- The radii after the correction step F6.6.2: both are multiplied by
`sqrt(lambda)` when `lambda > 1`. -/
def arcCorrectedRadii {F : Type} [LinearOrderedField F] (m : Libm F) (x1p y1p rx ry : F) :
    F × F :=
  (if arcLambda x1p y1p rx ry > 1 then rx * m.sqrt (arcLambda x1p y1p rx ry) else rx,
   if arcLambda x1p y1p rx ry > 1 then ry * m.sqrt (arcLambda x1p y1p rx ry) else ry)

/-- The discriminant `c = rx2 * ry2 - rx2 * y1p2 - ry2 * x1p2`. -/
def arcDiscriminant {F : Type} [LinearOrderedField F] (x1p y1p rx ry : F) : F :=
  ((rx * rx) * (ry * ry)) - ((rx * rx) * (y1p * y1p)) - ((ry * ry) * (x1p * x1p))

/-- The divisor `rx2 * y1p2 + ry2 * x1p2` of the center formula. -/
def arcDivisor {F : Type} [LinearOrderedField F] (x1p y1p rx ry : F) : F :=
  ((rx * rx) * (y1p * y1p)) + ((ry * ry) * (x1p * x1p))

/-- The center `(cxp, cyp)` in the frame of the ellipse: the origin when the
discriminant is negative, the closed form otherwise. -/
def arcCenterOffset {F : Type} [LinearOrderedField F] (m : Libm F) (x1p y1p rx ry : F)
    (largeArc sweep : Bool) : F × F :=
  (if arcDiscriminant x1p y1p rx ry < 0 then 0
    else (if largeArc = sweep
        then -m.sqrt (arcDiscriminant x1p y1p rx ry / arcDivisor x1p y1p rx ry)
        else m.sqrt (arcDiscriminant x1p y1p rx ry / arcDivisor x1p y1p rx ry))
      * (rx * y1p / ry),
   if arcDiscriminant x1p y1p rx ry < 0 then 0
    else (if largeArc = sweep
        then -m.sqrt (arcDiscriminant x1p y1p rx ry / arcDivisor x1p y1p rx ry)
        else m.sqrt (arcDiscriminant x1p y1p rx ry / arcDivisor x1p y1p rx ry))
      * (-ry * x1p / rx))

/-- The radii after the rescale of the negative-discriminant branch. -/
def arcFinalRadii {F : Type} [LinearOrderedField F] (m : Libm F) (x1p y1p rx ry : F) :
    F × F :=
  (if arcDiscriminant x1p y1p rx ry < 0
      then rx * m.sqrt (1 - arcDiscriminant x1p y1p rx ry / ((rx * rx) * (ry * ry))) else rx,
   if arcDiscriminant x1p y1p rx ry < 0
      then ry * m.sqrt (1 - arcDiscriminant x1p y1p rx ry / ((rx * rx) * (ry * ry))) else ry)

/-- The start angle `theta1` from the `atan2` result `a` of the start vector,
in exact arithmetic (`theta1Binary32` has the rounding of the C types). -/
def arcTheta1 {F : Type} [LinearOrderedField F] (m : Libm F) (a : F) : F :=
  if a < 0 then 2 * m.M_PI + a else a

/-- The sweep `deltaTheta` from the `atan2` results `a` and `nat` of the
start and end vectors and the sweep flag, in exact arithmetic: the sums are
not rounded, as everywhere in `arcToCubics`. The same lines with the rounding
of the C types (`float` variables, `double` constant `M_PI`) are
`deltaThetaBinary32`. -/
def arcDeltaTheta {F : Type} [LinearOrderedField F] (m : Libm F) (sweep : Bool) (a nat : F) :
    F :=
  if sweep then
    (if (if nat < a then 2 * m.M_PI - a + nat else nat - a) < 0
      then (if nat < a then 2 * m.M_PI - a + nat else nat - a) + 2 * m.M_PI
      else (if nat < a then 2 * m.M_PI - a + nat else nat - a))
  else
    (if (if nat < a then 2 * m.M_PI - a + nat else nat - a) > 0
      then (if nat < a then 2 * m.M_PI - a + nat else nat - a) - 2 * m.M_PI
      else (if nat < a then 2 * m.M_PI - a + nat else nat - a))

/-- The number of segments `(int)(fabs(deltaTheta / M_PI_2)) + 1`, in exact
arithmetic (`segmentsBinary32` has the rounding of the quotient). -/
def arcSegments {F : Type} [LinearOrderedField F] [FloorRing F] (m : Libm F)
    (deltaTheta : F) : Nat :=
  ⌊|deltaTheta / M_PI_2 m|⌋₊ + 1

/-- The two `atan2` results `(at, nat)` that `_pathAppendArcTo` computes for
the arc from `cur` to `(x, y)` with the (absolute) radii `rx`, `ry`. -/
def arcAngles {F : Type} [LinearOrderedField F] (m : Libm F) (cur : Point F)
    (x y rx ry angle : F) (largeArc sweep : Bool) : F × F :=
  let hc := arcHalfChord m cur x y angle
  let r := arcCorrectedRadii m hc.1 hc.2 rx ry
  let cp := arcCenterOffset m hc.1 hc.2 r.1 r.2 largeArc sweep
  let rf := arcFinalRadii m hc.1 hc.2 r.1 r.2
  (m.atan2 ((hc.2 - cp.2) / rf.2) ((hc.1 - cp.1) / rf.1),
   m.atan2 ((-hc.2 - cp.2) / rf.2) ((-hc.1 - cp.1) / rf.1))

/-- The sweep `deltaTheta` that `_pathAppendArcTo` computes. -/
def arcSweep {F : Type} [LinearOrderedField F] (m : Libm F) (cur : Point F)
    (x y rx ry angle : F) (largeArc sweep : Bool) : F :=
  arcDeltaTheta m sweep (arcAngles m cur x y rx ry angle largeArc sweep).1
    (arcAngles m cur x y rx ry angle largeArc sweep).2

/-- The function `arcToCubics` written with the stages above. -/
def arcToCubicsStaged {F : Type} [LinearOrderedField F] [FloorRing F] (m : Libm F)
    (st : PathState F) (x y rx ry angle : F) (largeArc sweep : Bool) : PathState F :=
  let cosPhi := m.cos (angle * m.M_PI / 180)
  let sinPhi := m.sin (angle * m.M_PI / 180)
  let hc := arcHalfChord m st.cur x y angle
  let r := arcCorrectedRadii m hc.1 hc.2 rx ry
  let c := arcDiscriminant hc.1 hc.2 r.1 r.2
  let cp := arcCenterOffset m hc.1 hc.2 r.1 r.2 largeArc sweep
  let rf := arcFinalRadii m hc.1 hc.2 r.1 r.2
  let cx := (if c < 0 then 0 else cosPhi * cp.1 - sinPhi * cp.2) + (st.cur.x + x) / 2
  let cy := (if c < 0 then 0 else sinPhi * cp.1 + cosPhi * cp.2) + (st.cur.y + y) / 2
  let an := arcAngles m st.cur x y rx ry angle largeArc sweep
  let deltaTheta := arcSweep m st.cur x y rx ry angle largeArc sweep
  let segments := arcSegments m deltaTheta
  let delta := deltaTheta / segments
  let bcp := 4 / 3 * (1 - m.cos (delta / 2)) / m.sin (delta / 2)
  arcLoop m bcp (cosPhi * rf.1) (cosPhi * rf.2) (sinPhi * rf.1) (sinPhi * rf.2) cx cy delta
    segments st.cur.x st.cur.y (arcTheta1 m an.1) (m.cos (arcTheta1 m an.1))
    (m.sin (arcTheta1 m an.1)) st

/-! ## Binary floating point

The definitions above compute with exact numbers. The normalization of the
sweep is repeated here with the rounding of the C types: `at`, `nat`,
`theta1` and `deltaTheta` are `float` (binary32), `M_PI` and `M_PI_2` are
`double` (binary64) constants, so a sum with `2.0f * M_PI` is formed in
binary64 and rounded to binary32 when it is stored. -/

/-- The number of binary digits of `n`, counted with at most `fuel` steps. -/
def bitLen : Nat → Nat → Nat
  | 0, _ => 0
  | fuel + 1, n => if n = 0 then 0 else bitLen fuel (n / 2) + 1

/-- The power `2 ^ z` for an integer exponent. -/
def pow2 (z : Int) : ℚ :=
  if 0 ≤ z then ((2 ^ z.toNat : Nat) : ℚ) else 1 / ((2 ^ (-z).toNat : Nat) : ℚ)

/-- The binary exponent of a positive rational `x`: the `e` with
`2 ^ e ≤ x < 2 ^ (e + 1)`. -/
def binaryExponent (x : ℚ) : Int :=
  if pow2 ((bitLen x.num.natAbs x.num.natAbs : Int) - (bitLen x.den x.den : Int)) ≤ x
  then (bitLen x.num.natAbs x.num.natAbs : Int) - (bitLen x.den x.den : Int)
  else (bitLen x.num.natAbs x.num.natAbs : Int) - (bitLen x.den x.den : Int) - 1

/-- Round to the nearest integer, a tie to the even one. -/
def roundHalfEven (q : ℚ) : Int :=
  if q - (⌊q⌋ : Int) < 1 / 2 then ⌊q⌋
  else if 1 / 2 < q - (⌊q⌋ : Int) then ⌊q⌋ + 1
  else if ⌊q⌋ % 2 = 0 then ⌊q⌋ else ⌊q⌋ + 1

/-- Round to the nearest number with `p` significant binary digits, a tie to
the even significand (the IEEE 754 default; the exponent range is not
limited, so overflow and subnormal numbers are not modelled). -/
def roundBinary (p : Nat) (x : ℚ) : ℚ :=
  if x = 0 then 0
  else (roundHalfEven (x / pow2 (binaryExponent |x| - ((p : Int) - 1))) : ℚ)
    * pow2 (binaryExponent |x| - ((p : Int) - 1))

/-- Rounding to `float` (binary32, 24 significant digits). -/
def toFloat (x : ℚ) : ℚ := roundBinary 24 x

/-- Rounding to `double` (binary64, 53 significant digits). -/
def toDouble (x : ℚ) : ℚ := roundBinary 53 x

/-- The start angle as the code computes it:
`theta1 = (at < 0.0f) ? 2.0f * M_PI + at : at`, the sum formed in binary64
and stored in the `float` `theta1`; `piQ` is the binary64 value of `M_PI`. -/
def theta1Binary32 (a : ℚ) : ℚ :=
  if a < 0 then toFloat (toDouble (2 * piQ + a)) else a

/-- The sweep before the flag is looked at:
`deltaTheta = (nat < at) ? 2.0f * M_PI - at + nat : nat - at`. The first
branch is two binary64 operations (`2.0f * M_PI` is the `double` `2 * M_PI`,
exactly) whose result is rounded when it is stored in the `float`
`deltaTheta`; the second is one binary32 subtraction, which the store does
not change. -/
def deltaTheta0Binary32 (a nat : ℚ) : ℚ :=
  if nat < a then toFloat (toDouble (toDouble (2 * piQ - a) + nat)) else toFloat (nat - a)

/-- The sweep as the code computes it from the `float` values `a` (`at`) and
`nat` and the sweep flag: `deltaTheta += 2.0f * M_PI` when the flag is set
and `deltaTheta < 0.0f`, `deltaTheta -= 2.0f * M_PI` when it is clear and
`deltaTheta > 0.0f`, each a binary64 operation stored in binary32. -/
def deltaThetaBinary32 (sweep : Bool) (a nat : ℚ) : ℚ :=
  if sweep then
    (if deltaTheta0Binary32 a nat < 0
      then toFloat (toDouble (deltaTheta0Binary32 a nat + 2 * piQ))
      else deltaTheta0Binary32 a nat)
  else
    (if deltaTheta0Binary32 a nat > 0
      then toFloat (toDouble (deltaTheta0Binary32 a nat - 2 * piQ))
      else deltaTheta0Binary32 a nat)

/-- The number of segments as the code computes it:
`(int)(fabs(deltaTheta / M_PI_2)) + 1.0f`, the quotient formed in binary64. -/
def segmentsBinary32 (d : ℚ) : Nat :=
  ⌊|toDouble (d / (piQ / 2))|⌋₊ + 1

/-! ## Theorems -/

theorem expectedPoints_append (a b : List PathCommand) :
    expectedPoints (a ++ b) = expectedPoints a + expectedPoints b := by
  simp only [expectedPoints, List.count_append]
  ring

theorem arcLoop_inv {F : Type} [LinearOrderedField F] (m : Libm F)
    (bcp cosPhiRx cosPhiRy sinPhiRx sinPhiRy cx cy delta : F) (n : Nat) :
    ∀ (sx sy theta1 cosTheta1 sinTheta1 : F) (st : PathState F), PointCountInv st →
      PointCountInv (arcLoop m bcp cosPhiRx cosPhiRy sinPhiRx sinPhiRy cx cy delta n sx sy
        theta1 cosTheta1 sinTheta1 st) := by
  induction n with
  | zero => intro sx sy theta1 cosTheta1 sinTheta1 st h; exact h
  | succ n ih =>
    intro sx sy theta1 cosTheta1 sinTheta1 st h
    simp only [arcLoop]
    apply ih
    simp only [PointCountInv, List.length_append, expectedPoints_append] at h ⊢
    rw [h]
    rfl

theorem pathAppendArcTo_inv {F : Type} [LinearOrderedField F] [FloorRing F] (m : Libm F)
    (st : PathState F) (x y rx ry angle : F) (largeArc sweep : Bool)
    (h : PointCountInv st) :
    PointCountInv (_pathAppendArcTo m st x y rx ry angle largeArc sweep) := by
  unfold _pathAppendArcTo
  split
  · exact h
  · split
    · simp only [PointCountInv, List.length_append, expectedPoints_append] at h ⊢
      rw [h]
      rfl
    · exact arcLoop_inv m _ _ _ _ _ _ _ _ _ _ _ _ _ _ st h

theorem pushCubic_inv {F : Type} (st : PathState F) (p0 p1 p2 ctl : Point F) (quad : Bool)
    (h : PointCountInv st) : PointCountInv (pushCubic st p0 p1 p2 ctl quad) := by
  simp only [pushCubic, PointCountInv, List.length_append, expectedPoints_append] at h ⊢
  rw [h]
  rfl

theorem pushLine_inv {F : Type} (st : PathState F) (c : PathCommand) (p q : Point F)
    (hc : pointsOf c = 1) (h : PointCountInv st) :
    PointCountInv ({ st with cmds := st.cmds ++ [c], pts := st.pts ++ [p], cur := q } :
      PathState F) := by
  simp only [PointCountInv, List.length_append, expectedPoints_append] at h ⊢
  rw [h]
  cases c <;> simp_all [expectedPoints, pointsOf]

theorem PointCountInv_ite {F : Type} (c : Prop) [Decidable c] (a b : PathState F)
    (ha : PointCountInv a) (hb : PointCountInv b) : PointCountInv (if c then a else b) := by
  split
  · exact ha
  · exact hb

theorem emitCommand_inv {F : Type} [LinearOrderedField F] [FloorRing F] (m : Libm F)
    (st : PathState F) (cmd : Char) (arr : List F) (h : PointCountInv st) :
    PointCountInv (emitCommand m st cmd arr) := by
  unfold emitCommand
  apply PointCountInv_ite _ _ _ (pushLine_inv st PathCommand.MoveTo _ _ rfl h)
  apply PointCountInv_ite _ _ _ (pushLine_inv st PathCommand.LineTo _ _ rfl h)
  apply PointCountInv_ite _ _ _ (pushCubic_inv _ _ _ _ _ _ h)
  apply PointCountInv_ite _ _ _ (pushCubic_inv _ _ _ _ _ _ h)
  apply PointCountInv_ite _ _ _ (pushCubic_inv _ _ _ _ _ _ h)
  apply PointCountInv_ite _ _ _ (pushCubic_inv _ _ _ _ _ _ h)
  apply PointCountInv_ite _ _ _ (pushLine_inv st PathCommand.LineTo _ _ rfl h)
  apply PointCountInv_ite _ _ _ (pushLine_inv st PathCommand.LineTo _ _ rfl h)
  apply PointCountInv_ite
  · simp only [PointCountInv, List.length_append, expectedPoints_append] at h ⊢
    rw [h]
    rfl
  · apply PointCountInv_ite _ _ _ _ h
    exact pathAppendArcTo_inv m st _ _ _ _ _ _ _ h

theorem processCommand_inv {F : Type} [LinearOrderedField F] [FloorRing F] (m : Libm F)
    (st : PathState F) (cmd : Char) (arr : List F) (count : Nat) (h : PointCountInv st) :
    PointCountInv (_processCommand m st cmd arr count).1 :=
  emitCommand_inv m st cmd _ h

theorem loopStep_inv {F : Type} [LinearOrderedField F] [FloorRing F] (m : Libm F)
    (st st1 : LoopState F) (hs : loopStep m st = some st1) (h : PointCountInv st.out) :
    PointCountInv st1.out := by
  unfold loopStep at hs
  split at hs
  · simp at hs
  · split at hs
    · simp at hs
    · simp only [Option.some.injEq] at hs
      subst hs
      exact processCommand_inv m st.out _ _ _ h

theorem stateAfter_inv {F : Type} [LinearOrderedField F] [FloorRing F] (m : Libm F) (n : Nat) :
    ∀ (st st1 : LoopState F), stateAfter m n st = some st1 → PointCountInv st.out →
      PointCountInv st1.out := by
  induction n with
  | zero =>
    intro st st1 hs h
    simp only [stateAfter, Option.some.injEq] at hs
    subst hs
    exact h
  | succ n ih =>
    intro st st1 hs h
    simp only [stateAfter] at hs
    split at hs
    · simp at hs
    · next st2 h2 => exact ih st2 st1 hs (loopStep_inv m st st2 h2 h)

theorem runLoop_inv {F : Type} [LinearOrderedField F] [FloorRing F] (m : Libm F) (fuel : Nat) :
    ∀ (st : LoopState F) (cmds : List PathCommand) (pts : List (Point F)),
      runLoop m fuel st = some (cmds, pts) → PointCountInv st.out →
      pts.length = expectedPoints cmds := by
  induction fuel with
  | zero => intro st cmds pts hr; simp [runLoop] at hr
  | succ n ih =>
    intro st cmds pts hr h
    simp only [runLoop] at hr
    split at hr
    · simp only [Option.some.injEq, Prod.mk.injEq] at hr
      rw [← hr.1, ← hr.2]
      exact h
    · next st2 h2 => exact ih st2 cmds pts hr (loopStep_inv m st st2 h2 h)

theorem initState_inv {F : Type} [LinearOrderedField F] (s : List Char) :
    PointCountInv (initState (F := F) s).out := by
  simp [initState, PointCountInv, expectedPoints]

/-- Claim C1 (point-count invariant). For every libm, `_pathAppendArcTo` and
`_processCommand` preserve the equation "number of points = 3 * CubicTo +
1 * MoveTo + 1 * LineTo + 0 * Close"; hence for every input string it holds
after every iteration of the loop of `svgPathToTvgPath`, and for every result
the function returns (also one cut short by a parse failure). -/
theorem point_count_invariant {F : Type} [LinearOrderedField F] [FloorRing F] (m : Libm F) :
    (∀ (st : PathState F) (x y rx ry angle : F) (largeArc sweep : Bool),
      st.pts.length = expectedPoints st.cmds →
      (_pathAppendArcTo m st x y rx ry angle largeArc sweep).pts.length
        = expectedPoints (_pathAppendArcTo m st x y rx ry angle largeArc sweep).cmds) ∧
    (∀ (st : PathState F) (cmd : Char) (arr : List F) (count : Nat),
      st.pts.length = expectedPoints st.cmds →
      (_processCommand m st cmd arr count).1.pts.length
        = expectedPoints (_processCommand m st cmd arr count).1.cmds) ∧
    (∀ (svgPath : String) (n : Nat) (st : LoopState F),
      stateAfter m n (initState svgPath.toList) = some st →
      st.out.pts.length = expectedPoints st.out.cmds) ∧
    (∀ (svgPath : String) (fuel : Nat) (cmds : List PathCommand) (pts : List (Point F)),
      svgPathToTvgPath m fuel svgPath = some (cmds, pts) →
      pts.length = 3 * cmds.count PathCommand.CubicTo + 1 * cmds.count PathCommand.MoveTo
        + 1 * cmds.count PathCommand.LineTo + 0 * cmds.count PathCommand.Close) :=
  ⟨fun st x y rx ry angle largeArc sweep h =>
      pathAppendArcTo_inv m st x y rx ry angle largeArc sweep h,
    fun st cmd arr count h => processCommand_inv m st cmd arr count h,
    fun _ n st hs => stateAfter_inv m n _ st hs (initState_inv _),
    fun _ fuel cmds pts hr => runLoop_inv m fuel _ cmds pts hr (initState_inv _)⟩

/-- Witness for C1: the path "M0,0 C0,0 10,0 10,10 Z L1," is parsed up to the
malformed tail and returns 3 commands and 4 points. -/
theorem point_count_invariant_witness :
    svgPathToTvgPath libmQ 9 "M0,0 C0,0 10,0 10,10 Z L1,"
      = some ([PathCommand.MoveTo, PathCommand.CubicTo, PathCommand.Close],
          [⟨0, 0⟩, ⟨0, 0⟩, ⟨10, 0⟩, ⟨10, 10⟩]) ∧
    ([⟨0, 0⟩, ⟨0, 0⟩, ⟨10, 0⟩, ⟨10, 10⟩] : List (Point ℚ)).length
      = 3 * [PathCommand.MoveTo, PathCommand.CubicTo, PathCommand.Close].count
            PathCommand.CubicTo
        + 1 * [PathCommand.MoveTo, PathCommand.CubicTo, PathCommand.Close].count
            PathCommand.MoveTo
        + 1 * [PathCommand.MoveTo, PathCommand.CubicTo, PathCommand.Close].count
            PathCommand.LineTo
        + 0 * [PathCommand.MoveTo, PathCommand.CubicTo, PathCommand.Close].count
            PathCommand.Close :=
  ⟨by decide!, (point_count_invariant libmQ).2.2.2 "M0,0 C0,0 10,0 10,10 Z L1," 9 _ _
    (by decide!)⟩

/-! ### Running the loop -/

theorem runLoop_of_stateAfter {F : Type} [LinearOrderedField F] [FloorRing F] (m : Libm F)
    (n : Nat) : ∀ (st st1 : LoopState F), stateAfter m n st = some st1 →
      ∀ k, runLoop m (n + k) st = runLoop m k st1 := by
  induction n with
  | zero =>
    intro st st1 hs k
    simp only [stateAfter, Option.some.injEq] at hs
    subst hs
    simp
  | succ n ih =>
    intro st st1 hs k
    simp only [stateAfter] at hs
    split at hs
    · simp at hs
    · next st2 h2 =>
      have e : n + 1 + k = (n + k) + 1 := by omega
      rw [e]
      simp only [runLoop, h2]
      exact ih st2 st1 hs k

theorem runLoop_none_of_stateAfter {F : Type} [LinearOrderedField F] [FloorRing F]
    (m : Libm F) (n : Nat) : ∀ (st st1 : LoopState F), stateAfter m n st = some st1 →
      ∀ k, k ≤ n → runLoop m k st = none := by
  induction n with
  | zero =>
    intro st st1 _ k hk
    have e : k = 0 := by omega
    subst e
    rfl
  | succ n ih =>
    intro st st1 hs k hk
    simp only [stateAfter] at hs
    split at hs
    · simp at hs
    · next st2 h2 =>
      cases k with
      | zero => rfl
      | succ k =>
        simp only [runLoop, h2]
        exact ih st2 st1 hs k (by omega)

/-! ### C2: the loop need not terminate -/

theorem skipComma_cons_of_not_sep (c : Char) (rest : List Char) (hs : isspace c = false)
    (hc : c ≠ ',') : _skipComma (c :: rest) = c :: rest := by
  unfold _skipComma
  rw [List.dropWhile_cons_of_neg (by simp [hs])]
  split
  · next r h =>
    simp only [List.cons.injEq] at h
    exact absurd h.1 hc
  · rfl

theorem nextCommand_no_progress {F : Type} [LinearOrderedField F] (c : Char)
    (rest : List Char) (cmd : Char) (arr : List F) (ha : isalpha c = false)
    (hs : isspace c = false) (hc : c ≠ ',') :
    _nextCommand (c :: rest) cmd arr 0
      = some (c :: rest, (if cmd = 'm' then 'l' else if cmd = 'M' then 'L' else cmd), arr, 0) := by
  simp [_nextCommand, commandLetter, skipComma_cons_of_not_sep c rest hs hc, ha, parseArgs]

theorem loopStep_no_progress {F : Type} [LinearOrderedField F] [FloorRing F] (m : Libm F)
    (st : LoopState F) (c : Char) (rest : List Char) (ha : isalpha c = false)
    (hs : isspace c = false) (hc : c ≠ ',') (hp : st.path = c :: rest)
    (hn : st.numberCount = 0) :
    ∃ st1, loopStep m st = some st1 ∧ st1.path = c :: rest ∧ st1.numberCount = 0 := by
  unfold loopStep
  rw [hp, hn]
  simp only [nextCommand_no_progress c rest st.cmd st.numberArray ha hs hc]
  exact ⟨_, rfl, rfl, rfl⟩

theorem runLoop_stuck {F : Type} [LinearOrderedField F] [FloorRing F] (m : Libm F)
    (c : Char) (rest : List Char) (ha : isalpha c = false) (hs : isspace c = false)
    (hc : c ≠ ',') (fuel : Nat) :
    ∀ st : LoopState F, st.path = c :: rest → st.numberCount = 0 →
      runLoop m fuel st = none := by
  induction fuel with
  | zero => intro st _ _; rfl
  | succ n ih =>
    intro st hp hn
    obtain ⟨st1, h1, hp1, hn1⟩ := loopStep_no_progress m st c rest ha hs hc hp hn
    simp only [runLoop, h1]
    exact ih st1 hp1 hn1

theorem runLoop_stuck_after (n : Nat) (st st1 : LoopState ℚ) (c : Char) (rest : List Char)
    (h : stateAfter libmQ n st = some st1) (hp : st1.path = c :: rest)
    (hn : st1.numberCount = 0) (ha : isalpha c = false) (hs : isspace c = false)
    (hc : c ≠ ',') (fuel : Nat) : runLoop libmQ fuel st = none := by
  by_cases hf : fuel ≤ n
  · exact runLoop_none_of_stateAfter libmQ n st st1 h fuel hf
  · have e : fuel = n + (fuel - n) := by omega
    rw [e, runLoop_of_stateAfter libmQ n st st1 h]
    exact runLoop_stuck libmQ c rest ha hs hc _ st1 hp hn

/-- Claim C2 (termination) fails on the code. When the repeated command has
arity 0 and the remainder starts with a character that is neither a letter
nor a separator, `_nextCommand` succeeds and returns the cursor it was given;
so on "1" (for every libm), on "M0,0 Z 1" and on "X 1" the loop of
`svgPathToTvgPath` is not left within any number of iterations. -/
theorem loop_diverges_on_arity_zero_repeat :
    (∀ (cmd : Char) (arr : List ℚ),
      _nextCommand ['1'] cmd arr 0
        = some (['1'], (if cmd = 'm' then 'l' else if cmd = 'M' then 'L' else cmd), arr, 0)) ∧
    (∀ (F : Type) [LinearOrderedField F] [FloorRing F] (m : Libm F) (fuel : Nat),
      svgPathToTvgPath m fuel "1" = none) ∧
    (∀ fuel : Nat, svgPathToTvgPath libmQ fuel "M0,0 Z 1" = none) ∧
    (∀ fuel : Nat, svgPathToTvgPath libmQ fuel "X 1" = none) := by
  refine ⟨fun cmd arr => nextCommand_no_progress _ _ cmd arr (by decide) (by decide) (by decide),
    fun F _ _ m fuel => runLoop_stuck m '1' [] (by decide) (by decide) (by decide) fuel _ rfl rfl,
    fun fuel => ?_, fun fuel => ?_⟩
  · exact runLoop_stuck_after 3 _
      { out := { cmds := [PathCommand.MoveTo, PathCommand.Close, PathCommand.Close],
                 pts := [⟨0, 0⟩], cur := ⟨0, 0⟩, curCtl := ⟨0, 0⟩, isQuadratic := false }
        numberArray := [0, 0, 0, 0, 0, 0, 0], numberCount := 0, cmd := 'Z', path := ['1'] }
      '1' [] (by decide!) rfl rfl (by decide) (by decide) (by decide) fuel
  · exact runLoop_stuck_after 2 _
      { out := { cmds := [], pts := [], cur := ⟨0, 0⟩, curCtl := ⟨0, 0⟩, isQuadratic := false }
        numberArray := [0, 0, 0, 0, 0, 0, 0], numberCount := 0, cmd := 'X', path := ['1'] }
      '1' [] (by decide!) rfl rfl (by decide) (by decide) (by decide) fuel

/-! ### C3: a malformed tail is dropped -/

theorem parseArgs_none_iff {F : Type} [LinearOrderedField F] (count : Nat) (hc : count ≠ 7)
    (n : Nat) : ∀ (i : Nat) (path : List Char) (arr : List F),
      parseArgs n i path arr = none ↔ (firstFailure F count n i path).isSome = true := by
  induction n with
  | zero => intro i path arr; simp [parseArgs, firstFailure]
  | succ n ih =>
    intro i path arr
    simp only [parseArgs, firstFailure, afterToken, if_neg hc]
    cases h : _parseNumber (F := F) path with
    | none => simp
    | some r => simpa using ih (i + 1) (_skipComma r.2) (arr.set i r.1)

theorem parseArcArgs_none_iff {F : Type} [LinearOrderedField F] (path : List Char)
    (arr : List F) :
    parseArcArgs path arr = none ↔ (firstFailure F 7 7 0 path).isSome = true := by
  cases h0 : _parseNumber (F := F) path with
  | none => simp [parseArcArgs, firstFailure, afterToken, h0]
  | some r0 =>
  cases h1 : _parseNumber (F := F) r0.2 with
  | none => simp [parseArcArgs, firstFailure, afterToken, h0, h1]
  | some r1 =>
  cases h2 : _parseNumber (F := F) r1.2 with
  | none => simp [parseArcArgs, firstFailure, afterToken, h0, h1, h2]
  | some r2 =>
  cases h3 : _parseLong r2.2 with
  | none => simp [parseArcArgs, firstFailure, afterToken, h0, h1, h2, h3]
  | some r3 =>
  cases h4 : _parseLong r3.2 with
  | none => simp [parseArcArgs, firstFailure, afterToken, h0, h1, h2, h3, h4]
  | some r4 =>
  cases h5 : _parseNumber (F := F) r4.2 with
  | none => simp [parseArcArgs, firstFailure, afterToken, h0, h1, h2, h3, h4, h5]
  | some r5 =>
  cases h6 : _parseNumber (F := F) r5.2 with
  | none => simp [parseArcArgs, firstFailure, afterToken, h0, h1, h2, h3, h4, h5, h6]
  | some r6 => simp [parseArcArgs, firstFailure, afterToken, h0, h1, h2, h3, h4, h5, h6]

theorem nextCommand_none_iff {F : Type} [LinearOrderedField F] (path : List Char) (cmd : Char)
    (arr : List F) (count : Nat) :
    _nextCommand path cmd arr count = none ↔
      (firstFailure F (commandLetter path cmd count).2.2 (commandLetter path cmd count).2.2 0
        (commandLetter path cmd count).1).isSome = true := by
  unfold _nextCommand
  by_cases h7 : (commandLetter path cmd count).2.2 = 7
  · simp only [if_pos h7]
    rw [h7, ← parseArcArgs_none_iff (commandLetter path cmd count).1 arr]
    cases parseArcArgs (commandLetter path cmd count).1 arr <;> simp
  · simp only [if_neg h7]
    rw [← parseArgs_none_iff _ h7 _ 0 (commandLetter path cmd count).1 arr]
    cases parseArgs (commandLetter path cmd count).2.2 0 (commandLetter path cmd count).1 arr
      <;> simp

theorem loopStep_of_nextCommand_none {F : Type} [LinearOrderedField F] [FloorRing F]
    (m : Libm F) (st : LoopState F)
    (h : _nextCommand st.path st.cmd st.numberArray st.numberCount = none) :
    loopStep m st = none := by
  unfold loopStep
  split
  · rfl
  · rw [h]

/-- Claim C3 (a malformed tail is dropped atomically). In every state of the
loop, `_nextCommand` returns `NULL` exactly when one of the numeric tokens
that the current command requires fails to parse; the loop is then left
without a call of `_processCommand`, and the function returns exactly the
commands and points accumulated before that command. So for every input, if
a required token of the command read in iteration `n + 1` fails, the result
is the output as it stood after `n` iterations. In particular "M0,0 L10,"
gives commands [MoveTo] and points [(0,0)]. -/
theorem malformed_tail_dropped {F : Type} [LinearOrderedField F] [FloorRing F] (m : Libm F) :
    (∀ st : LoopState F,
      (_nextCommand st.path st.cmd st.numberArray st.numberCount = none ↔
        (firstFailure F (commandLetter st.path st.cmd st.numberCount).2.2
          (commandLetter st.path st.cmd st.numberCount).2.2 0
          (commandLetter st.path st.cmd st.numberCount).1).isSome = true)) ∧
    (∀ st : LoopState F,
      (firstFailure F (commandLetter st.path st.cmd st.numberCount).2.2
          (commandLetter st.path st.cmd st.numberCount).2.2 0
          (commandLetter st.path st.cmd st.numberCount).1).isSome = true →
      loopStep m st = none ∧
      ∀ fuel, runLoop m (fuel + 1) st = some (st.out.cmds, st.out.pts)) ∧
    (∀ (svgPath : String) (n : Nat) (st : LoopState F),
      stateAfter m n (initState svgPath.toList) = some st →
      (firstFailure F (commandLetter st.path st.cmd st.numberCount).2.2
          (commandLetter st.path st.cmd st.numberCount).2.2 0
          (commandLetter st.path st.cmd st.numberCount).1).isSome = true →
      svgPathToTvgPath m (n + 1) svgPath = some (st.out.cmds, st.out.pts)) := by
  have key : ∀ st : LoopState F,
      (firstFailure F (commandLetter st.path st.cmd st.numberCount).2.2
          (commandLetter st.path st.cmd st.numberCount).2.2 0
          (commandLetter st.path st.cmd st.numberCount).1).isSome = true →
      loopStep m st = none := fun st h =>
    loopStep_of_nextCommand_none m st ((nextCommand_none_iff _ _ _ _).2 h)
  refine ⟨fun st => nextCommand_none_iff _ _ _ _, fun st h => ⟨key st h, fun fuel => ?_⟩,
    fun svgPath n st hs h => ?_⟩
  · simp only [runLoop, key st h]
  · unfold svgPathToTvgPath
    rw [runLoop_of_stateAfter m n _ st hs 1]
    simp only [runLoop, key st h]

/-- Witness for C3: after the `MoveTo` of "M0,0 L10," the second argument of
`L` is missing, and the result is the `MoveTo` alone. -/
theorem malformed_tail_dropped_witness :
    stateAfter libmQ 1 (initState "M0,0 L10,".toList)
      = some { out := { cmds := [PathCommand.MoveTo], pts := [⟨0, 0⟩], cur := ⟨0, 0⟩,
                        curCtl := ⟨0, 0⟩, isQuadratic := false }
               numberArray := [0, 0, 0, 0, 0, 0, 0], numberCount := 2, cmd := 'M'
               path := "L10,".toList } ∧
    firstFailure ℚ (commandLetter "L10,".toList 'M' 2).2.2
      (commandLetter "L10,".toList 'M' 2).2.2 0 (commandLetter "L10,".toList 'M' 2).1
      = some 1 ∧
    svgPathToTvgPath libmQ 2 "M0,0 L10," = some ([PathCommand.MoveTo], [⟨0, 0⟩]) :=
  ⟨by decide!, by decide!,
    (malformed_tail_dropped libmQ).2.2 "M0,0 L10," 1
      { out := { cmds := [PathCommand.MoveTo], pts := [⟨0, 0⟩], cur := ⟨0, 0⟩,
                 curCtl := ⟨0, 0⟩, isQuadratic := false }
        numberArray := [0, 0, 0, 0, 0, 0, 0], numberCount := 2, cmd := 'M'
        path := "L10,".toList } (by decide!) (by decide!)⟩

/-! ### Number tokens -/

theorem isdigit_iff (c : Char) : isdigit c = true ↔ 48 ≤ c.toNat ∧ c.toNat ≤ 57 := by
  simp only [isdigit, Bool.and_eq_true, decide_eq_true_eq, Char.le_def, UInt32.le_def,
    Char.toNat, UInt32.toNat]
  rfl

theorem isalpha_iff (c : Char) : isalpha c = true ↔
    (97 ≤ c.toNat ∧ c.toNat ≤ 122) ∨ (65 ≤ c.toNat ∧ c.toNat ≤ 90) := by
  simp only [isalpha, Bool.or_eq_true, Bool.and_eq_true, decide_eq_true_eq, Char.le_def,
    UInt32.le_def, Char.toNat, UInt32.toNat]
  rfl

theorem isdigit_not_alpha (c : Char) (h : isdigit c = true) : isalpha c = false := by
  rw [isdigit_iff] at h
  cases ha : isalpha c with
  | false => rfl
  | true => rw [isalpha_iff] at ha; omega

theorem isspace_not_digit (c : Char) (h : isspace c = true) : isdigit c = false := by
  simp only [isspace, Bool.or_eq_true, beq_iff_eq] at h
  rcases h with ((((h | h) | h) | h) | h) | h <;> subst h <;> decide

theorem isspace_not_alpha (c : Char) (h : isspace c = true) : isalpha c = false := by
  simp only [isspace, Bool.or_eq_true, beq_iff_eq] at h
  rcases h with ((((h | h) | h) | h) | h) | h <;> subst h <;> decide

theorem isdigit_not_space (c : Char) (h : isdigit c = true) : isspace c = false := by
  cases hs : isspace c with
  | false => rfl
  | true => rw [isspace_not_digit c hs] at h; exact absurd h (by decide)

theorem isalpha_not_space (c : Char) (h : isalpha c = true) : isspace c = false := by
  cases hs : isspace c with
  | false => rfl
  | true => rw [isspace_not_alpha c hs] at h; exact absurd h (by decide)

theorem isdigit_ne (c d : Char) (h : isdigit c = true) (hd : isdigit d = false) : c ≠ d := by
  intro e
  rw [e, hd] at h
  exact absurd h (by decide)

theorem isalpha_ne (c d : Char) (h : isalpha c = true) (hd : isalpha d = false) : c ≠ d := by
  intro e
  rw [e, hd] at h
  exact absurd h (by decide)

theorem scanSign_digit (c : Char) (t : List Char) (h : isdigit c = true) :
    scanSign (c :: t) = (false, c :: t) := by
  unfold scanSign
  split
  · next t1 e =>
    simp only [List.cons.injEq] at e
    exact absurd e.1 (isdigit_ne c '-' h (by decide))
  · next t1 e =>
    simp only [List.cons.injEq] at e
    exact absurd e.1 (isdigit_ne c '+' h (by decide))
  · rfl

theorem takeWhile_digits (ds rest : List Char) (hd : ds.all isdigit = true)
    (hr : ∀ c r, rest = c :: r → isdigit c = false) :
    (ds ++ rest).takeWhile isdigit = ds ∧ (ds ++ rest).dropWhile isdigit = rest := by
  have hall : ∀ a ∈ ds, isdigit a = true := by simpa using hd
  rw [List.takeWhile_append_of_pos hall, List.dropWhile_append_of_pos hall]
  cases rest with
  | nil => simp
  | cons c r =>
    have := hr c r rfl
    simp [this]

theorem tokenEnd_head (rest : List Char) (h : tokenEnd rest = true) :
    ∀ c r, rest = c :: r → c = ',' ∨ c = ' ' := by
  intro c r e
  subst e
  simpa [tokenEnd] using h

theorem scanExponent_tokenEnd (rest : List Char) (h : tokenEnd rest = true) :
    scanExponent rest = (0, rest) := by
  cases rest with
  | nil => rfl
  | cons c r =>
    have hc := tokenEnd_head _ h c r rfl
    unfold scanExponent
    have : ¬ (c = 'e' ∨ c = 'E') := by
      rcases hc with hc | hc <;> subst hc <;> decide
    simp only [if_neg this]

theorem scanFraction_tokenEnd (rest : List Char) (h : tokenEnd rest = true) :
    scanFraction rest = ([], rest) := by
  cases rest with
  | nil => rfl
  | cons c r =>
    have hc := tokenEnd_head _ h c r rfl
    unfold scanFraction
    split
    · next t e =>
      simp only [List.cons.injEq] at e
      rcases hc with hc | hc <;> rw [hc] at e <;> exact absurd e.1 (by decide)
    · rfl

theorem tokenEnd_not_digit (rest : List Char) (h : tokenEnd rest = true) :
    ∀ c r, rest = c :: r → isdigit c = false := by
  intro c r e
  rcases tokenEnd_head rest h c r e with hc | hc <;> subst hc <;> rfl

/-- The digits and the fraction of a token, followed by a token end, are
scanned as such. -/
theorem scan_digits_fraction (l : NumLit) (hw : l.wf = true) (rest : List Char)
    (hr : tokenEnd rest = true) :
    ((l.int ++ ((if l.frac.isEmpty then [] else '.' :: l.frac) ++ rest)).takeWhile isdigit
        = l.int) ∧
    scanFraction ((l.int ++ ((if l.frac.isEmpty then [] else '.' :: l.frac) ++ rest)).dropWhile
        isdigit) = (l.frac, rest) := by
  simp only [NumLit.wf, Bool.and_eq_true] at hw
  obtain ⟨⟨_, hint⟩, hfrac⟩ := hw
  cases hf : l.frac with
  | nil =>
    have h1 := takeWhile_digits l.int rest hint (tokenEnd_not_digit rest hr)
    simp only [List.isEmpty_nil, if_true, List.nil_append]
    exact ⟨h1.1, by rw [h1.2]; exact scanFraction_tokenEnd rest hr⟩
  | cons f fs =>
    rw [hf] at hfrac
    have h1 := takeWhile_digits l.int ('.' :: ((f :: fs) ++ rest)) hint
      (by intro c r e; simp only [List.cons.injEq] at e; rw [← e.1]; rfl)
    have h2 := takeWhile_digits (f :: fs) rest hfrac (tokenEnd_not_digit rest hr)
    simp only [List.isEmpty_cons, Bool.false_eq_true, if_false, List.cons_append]
    simp only [List.cons_append] at h1 h2
    refine ⟨h1.1, ?_⟩
    rw [h1.2]
    simp only [scanFraction, h2.1, h2.2]

/-- The model of `strtof` reads a well-formed token that is followed by a
token end as the number it denotes, and stops right after it. -/
theorem strtof_numLit {F : Type} [LinearOrderedField F] (l : NumLit) (hw : l.wf = true)
    (rest : List Char) (hr : tokenEnd rest = true) :
    strtof (F := F) (l.text ++ rest) = some (l.value F, rest) := by
  have hsf := scan_digits_fraction l hw rest hr
  have hw1 := hw
  simp only [NumLit.wf, Bool.and_eq_true] at hw1
  obtain ⟨⟨hne, hint⟩, _⟩ := hw1
  obtain ⟨d, ds, hd⟩ : ∃ d ds, l.int = d :: ds := by
    cases hi : l.int with
    | nil => simp [hi] at hne
    | cons d ds => exact ⟨d, ds, rfl⟩
  have hdd : isdigit d = true := by
    rw [hd] at hint
    simp only [List.all_cons, Bool.and_eq_true] at hint
    exact hint.1
  have hsign : scanSign ((l.text ++ rest).dropWhile isspace)
      = (l.neg, l.int ++ ((if l.frac.isEmpty then [] else '.' :: l.frac) ++ rest)) := by
    cases hn : l.neg with
    | true =>
      simp only [NumLit.text, hn, if_true, List.cons_append, List.nil_append,
        List.append_assoc]
      rw [List.dropWhile_cons_of_neg (by decide)]
      rfl
    | false =>
      simp only [NumLit.text, hn, Bool.false_eq_true, if_false, List.nil_append,
        List.append_assoc, hd, List.cons_append]
      rw [List.dropWhile_cons_of_neg (by simp [isdigit_not_space d hdd])]
      exact scanSign_digit d _ hdd
  unfold strtof
  simp only [hsign, hsf.1, hsf.2, scanExponent_tokenEnd rest hr]
  have hnn : ¬ (l.int = [] ∧ l.frac = []) := by
    rw [hd]
    simp
  rw [if_neg hnn]
  simp only [NumLit.value, zpow_zero, mul_one]

/-! ### Two-argument commands -/

theorem numLit_text_head (l : NumLit) (hw : l.wf = true) (rest : List Char) :
    ∃ c t, l.text ++ rest = c :: t ∧ isalpha c = false ∧ isspace c = false ∧ c ≠ ',' := by
  simp only [NumLit.wf, Bool.and_eq_true] at hw
  obtain ⟨⟨hne, hint⟩, _⟩ := hw
  cases hn : l.neg with
  | true =>
    refine ⟨'-', l.int ++ (if l.frac.isEmpty then [] else '.' :: l.frac) ++ rest, ?_,
      by decide, by decide, by decide⟩
    simp only [NumLit.text, hn, if_true, List.cons_append, List.nil_append]
  | false =>
    cases hi : l.int with
    | nil => simp [hi] at hne
    | cons d ds =>
      rw [hi] at hint
      simp only [List.all_cons, Bool.and_eq_true] at hint
      refine ⟨d, ds ++ (if l.frac.isEmpty then [] else '.' :: l.frac) ++ rest, ?_,
        isdigit_not_alpha d hint.1, isdigit_not_space d hint.1,
        isdigit_ne d ',' hint.1 (by decide)⟩
      simp only [NumLit.text, hn, Bool.false_eq_true, if_false, List.nil_append, hi,
        List.cons_append]

theorem skipComma_numLit (l : NumLit) (hw : l.wf = true) (rest : List Char) :
    _skipComma (l.text ++ rest) = l.text ++ rest := by
  obtain ⟨c, t, e, _, hs, hc⟩ := numLit_text_head l hw rest
  rw [e]
  exact skipComma_cons_of_not_sep c t hs hc

theorem parseNumber_numLit {F : Type} [LinearOrderedField F] (l : NumLit) (hw : l.wf = true)
    (rest : List Char) (hr : tokenEnd rest = true) :
    _parseNumber (F := F) (l.text ++ rest) = some (l.value F, _skipComma rest) := by
  simp only [_parseNumber, strtof_numLit l hw rest hr]

theorem skipComma_comma (rest : List Char) : _skipComma (',' :: rest) = rest := by
  unfold _skipComma
  rw [List.dropWhile_cons_of_neg (by decide)]
  split
  · next r e =>
    simp only [List.cons.injEq, true_and] at e
    exact e.symm
  · next h => exact absurd rfl (h rest)

theorem skipComma_blank (rest : List Char) : _skipComma (' ' :: rest) = _skipComma rest := by
  unfold _skipComma
  rw [List.dropWhile_cons_of_pos (by decide)]

theorem parseArgs_pair {F : Type} [LinearOrderedField F] (x y : NumLit) (hx : x.wf = true)
    (hy : y.wf = true) (rest : List Char) (hr : tokenEnd rest = true) (arr : List F) :
    parseArgs 2 0 (x.text ++ ',' :: (y.text ++ rest)) arr
      = some (_skipComma (_skipComma rest), (arr.set 0 (x.value F)).set 1 (y.value F)) := by
  simp only [parseArgs, parseNumber_numLit x hx _ (show tokenEnd (',' :: (y.text ++ rest)) = true
    from rfl), skipComma_comma, skipComma_numLit y hy, parseNumber_numLit y hy rest hr]

theorem nextCommand_letter_pair {F : Type} [LinearOrderedField F] (c : Char)
    (ha : isalpha c = true) (hn : _numberCount c = 2) (x y : NumLit) (hx : x.wf = true)
    (hy : y.wf = true) (rest : List Char) (hr : tokenEnd rest = true) (cmd : Char)
    (arr : List F) (count : Nat) :
    _nextCommand (c :: (x.text ++ ',' :: (y.text ++ rest))) cmd arr count
      = some (_skipComma (_skipComma rest), c,
          (arr.set 0 (x.value F)).set 1 (y.value F), 2) := by
  have hl : commandLetter (c :: (x.text ++ ',' :: (y.text ++ rest))) cmd count
      = (x.text ++ ',' :: (y.text ++ rest), c, 2) := by
    unfold commandLetter
    rw [skipComma_cons_of_not_sep c _ (isalpha_not_space c ha) (isalpha_ne c ',' ha (by decide))]
    simp only [ha, if_true, hn]
  unfold _nextCommand
  simp only [hl, parseArgs_pair x y hx hy rest hr arr]
  rfl

theorem nextCommand_repeat_pair {F : Type} [LinearOrderedField F] (x y : NumLit)
    (hx : x.wf = true) (hy : y.wf = true) (rest : List Char) (hr : tokenEnd rest = true)
    (cmd : Char) (arr : List F) :
    _nextCommand (x.text ++ ',' :: (y.text ++ rest)) cmd arr 2
      = some (_skipComma (_skipComma rest),
          (if cmd = 'm' then 'l' else if cmd = 'M' then 'L' else cmd),
          (arr.set 0 (x.value F)).set 1 (y.value F), 2) := by
  have hl : commandLetter (x.text ++ ',' :: (y.text ++ rest)) cmd 2
      = (x.text ++ ',' :: (y.text ++ rest),
          (if cmd = 'm' then 'l' else if cmd = 'M' then 'L' else cmd), 2) := by
    obtain ⟨c, t, e, hal, hs, hc⟩ := numLit_text_head x hx (',' :: (y.text ++ rest))
    unfold commandLetter
    rw [e, skipComma_cons_of_not_sep c t hs hc]
    simp only [hal, Bool.false_eq_true, if_false]
  unfold _nextCommand
  simp only [hl, parseArgs_pair x y hx hy rest hr arr]
  rfl


theorem length_seven {α : Type} (arr : List α) (h : arr.length = 7) :
    ∃ a0 a1 a2 a3 a4 a5 a6, arr = [a0, a1, a2, a3, a4, a5, a6] := by
  match arr, h with
  | [a0, a1, a2, a3, a4, a5, a6], _ => exact ⟨a0, a1, a2, a3, a4, a5, a6, rfl⟩

theorem processCommand_length {F : Type} [LinearOrderedField F] [FloorRing F] (m : Libm F)
    (st : PathState F) (cmd : Char) (arr : List F) (count : Nat) (h : arr.length = 7) :
    (_processCommand m st cmd arr count).2.length = 7 := by
  have hoff : ∀ (n i : Nat) (a : List F), a.length = 7 →
      (offsetPairs st.cur count n i a).length = 7 := by
    intro n
    induction n with
    | zero => intro i a ha; exact ha
    | succ n ih =>
      intro i a ha
      simp only [offsetPairs]
      split
      · exact ih _ _ (by simp [ha])
      · exact ha
  simp only [_processCommand, makeAbsolute]
  split_ifs
  · exact hoff _ _ _ h
  all_goals simp [h]

/-- The command processor on `M`, `m`, `L`, `l` with the argument pair `a`, `b`. -/
theorem processCommand_pair {F : Type} [LinearOrderedField F] [FloorRing F] (m : Libm F)
    (st : PathState F) (arr : List F) (h : arr.length = 7) (a b : F) :
    (_processCommand m st 'M' ((arr.set 0 a).set 1 b) 2).1
      = { st with cmds := st.cmds ++ [PathCommand.MoveTo], pts := st.pts ++ [⟨a, b⟩],
                  cur := ⟨a, b⟩ } ∧
    (_processCommand m st 'm' ((arr.set 0 a).set 1 b) 2).1
      = { st with cmds := st.cmds ++ [PathCommand.MoveTo],
                  pts := st.pts ++ [⟨a + st.cur.x, b + st.cur.y⟩],
                  cur := ⟨a + st.cur.x, b + st.cur.y⟩ } ∧
    (_processCommand m st 'L' ((arr.set 0 a).set 1 b) 2).1
      = { st with cmds := st.cmds ++ [PathCommand.LineTo], pts := st.pts ++ [⟨a, b⟩],
                  cur := ⟨a, b⟩ } ∧
    (_processCommand m st 'l' ((arr.set 0 a).set 1 b) 2).1
      = { st with cmds := st.cmds ++ [PathCommand.LineTo],
                  pts := st.pts ++ [⟨a + st.cur.x, b + st.cur.y⟩],
                  cur := ⟨a + st.cur.x, b + st.cur.y⟩ } := by
  obtain ⟨a0, a1, a2, a3, a4, a5, a6, e⟩ := length_seven arr h
  subst e
  refine ⟨?_, ?_, ?_, ?_⟩ <;>
    simp [_processCommand, makeAbsolute, emitCommand, offsetPairs, argAt]


theorem loopStep_eq {F : Type} [LinearOrderedField F] [FloorRing F] (m : Libm F)
    (st : LoopState F) (hp : st.path ≠ []) (path : List Char) (cmd : Char) (arr : List F)
    (count : Nat)
    (h : _nextCommand st.path st.cmd st.numberArray st.numberCount
      = some (path, cmd, arr, count)) :
    loopStep m st = some
      { out := (_processCommand m st.out cmd arr count).1
        numberArray := (_processCommand m st.out cmd arr count).2
        numberCount := count, cmd := cmd, path := path } := by
  unfold loopStep
  split
  · next e => exact absurd e hp
  · rw [h]

theorem tokenEnd_pairsText (cs : List PairCmd) : tokenEnd (pairsText cs) = true := by
  cases cs <;> rfl

/-- One iteration of the loop on a lineto command (with or without letter). -/
theorem loopStep_pair {F : Type} [LinearOrderedField F] [FloorRing F] (m : Libm F)
    (c : PairCmd) (hw : c.wf = true) (cs : List PairCmd) (st : LoopState F)
    (h7 : st.numberArray.length = 7) (hn : st.numberCount = 2)
    (hc : st.cmd = 'M' ∨ st.cmd = 'L' ∨ st.cmd = 'm' ∨ st.cmd = 'l')
    (hp : st.path = _skipComma (_skipComma (pairsText (c :: cs)))) :
    ∃ st1, loopStep m st = some st1 ∧ st1.numberArray.length = 7 ∧ st1.numberCount = 2 ∧
      (st1.cmd = 'M' ∨ st1.cmd = 'L' ∨ st1.cmd = 'm' ∨ st1.cmd = 'l') ∧
      decide (st1.cmd = 'm' ∨ st1.cmd = 'l') = c.isRel (decide (st.cmd = 'm' ∨ st.cmd = 'l')) ∧
      st1.path = _skipComma (_skipComma (pairsText cs)) ∧
      st1.out = { st.out with
        cmds := st.out.cmds ++ [PathCommand.LineTo]
        pts := st.out.pts ++
          [if c.isRel (decide (st.cmd = 'm' ∨ st.cmd = 'l')) then
            (⟨c.x.value F + st.out.cur.x, c.y.value F + st.out.cur.y⟩ : Point F)
           else ⟨c.x.value F, c.y.value F⟩]
        cur := if c.isRel (decide (st.cmd = 'm' ∨ st.cmd = 'l')) then
            (⟨c.x.value F + st.out.cur.x, c.y.value F + st.out.cur.y⟩ : Point F)
           else ⟨c.x.value F, c.y.value F⟩ } := by
  simp only [PairCmd.wf, Bool.and_eq_true, Bool.or_eq_true, beq_iff_eq] at hw
  obtain ⟨⟨hx, hy⟩, hl⟩ := hw
  have hr := tokenEnd_pairsText cs
  have h7a : ((st.numberArray.set 0 (c.x.value F)).set 1 (c.y.value F)).length = 7 := by
    simp [h7]
  have hpc := processCommand_pair m st.out st.numberArray h7 (c.x.value F) (c.y.value F)
  rcases hl with (hl | hl) | hl
  · -- implicit repetition
    have hpath : st.path = c.x.text ++ ',' :: (c.y.text ++ pairsText cs) := by
      rw [hp]
      simp only [pairsText, hl, List.nil_append, skipComma_blank, skipComma_numLit c.x hx]
    have hne : st.path ≠ [] := by
      obtain ⟨d, t, e, _⟩ := numLit_text_head c.x hx (',' :: (c.y.text ++ pairsText cs))
      rw [hpath, e]
      simp
    have hnc := nextCommand_repeat_pair (F := F) c.x c.y hx hy (pairsText cs) hr st.cmd
      st.numberArray
    rw [← hpath, ← hn] at hnc
    refine ⟨_, loopStep_eq m st hne _ _ _ _ hnc, processCommand_length m _ _ _ _ h7a, hn, ?_, ?_,
      rfl, ?_⟩
    · rcases hc with hc | hc | hc | hc <;> simp [hc]
    · rcases hc with hc | hc | hc | hc <;> simp [hc, PairCmd.isRel, hl]
    · rcases hc with hc | hc | hc | hc <;>
        simp only [hc, PairCmd.isRel, hl, hn] <;> simp [hpc]
  · -- the letter L
    have hpath : st.path = 'L' :: (c.x.text ++ ',' :: (c.y.text ++ pairsText cs)) := by
      rw [hp]
      simp only [pairsText, hl, List.singleton_append, skipComma_blank]
      rw [skipComma_cons_of_not_sep 'L' _ (by decide) (by decide),
        skipComma_cons_of_not_sep 'L' _ (by decide) (by decide)]
    have hnc := nextCommand_letter_pair (F := F) 'L' (by decide) (by decide) c.x c.y hx hy
      (pairsText cs) hr st.cmd st.numberArray st.numberCount
    rw [← hpath] at hnc
    refine ⟨_, loopStep_eq m st (by rw [hpath]; simp) _ _ _ _ hnc,
      processCommand_length m st.out 'L' _ 2 h7a, rfl, by simp, ?_, rfl, ?_⟩
    · simp [PairCmd.isRel, hl]
    · simp [PairCmd.isRel, hl, hpc]
  · -- the letter l
    have hpath : st.path = 'l' :: (c.x.text ++ ',' :: (c.y.text ++ pairsText cs)) := by
      rw [hp]
      simp only [pairsText, hl, List.singleton_append, skipComma_blank]
      rw [skipComma_cons_of_not_sep 'l' _ (by decide) (by decide),
        skipComma_cons_of_not_sep 'l' _ (by decide) (by decide)]
    have hnc := nextCommand_letter_pair (F := F) 'l' (by decide) (by decide) c.x c.y hx hy
      (pairsText cs) hr st.cmd st.numberArray st.numberCount
    rw [← hpath] at hnc
    refine ⟨_, loopStep_eq m st (by rw [hpath]; simp) _ _ _ _ hnc,
      processCommand_length m st.out 'l' _ 2 h7a, rfl, by simp, ?_, rfl, ?_⟩
    · simp [PairCmd.isRel, hl]
    · simp [PairCmd.isRel, hl, hpc]



theorem runLoop_succ_of_step {F : Type} [LinearOrderedField F] [FloorRing F] (m : Libm F)
    (st st1 : LoopState F) (h : loopStep m st = some st1) (fuel : Nat) :
    runLoop m (fuel + 1) st = runLoop m fuel st1 := by
  simp only [runLoop, h]

theorem runLoop_succ_of_none {F : Type} [LinearOrderedField F] [FloorRing F] (m : Libm F)
    (st : LoopState F) (h : loopStep m st = none) (fuel : Nat) :
    runLoop m (fuel + 1) st = some (st.out.cmds, st.out.pts) := by
  simp only [runLoop, h]

/-- The loop on a list of lineto commands: one `LineTo` and one point each. -/
theorem runLoop_pairs {F : Type} [LinearOrderedField F] [FloorRing F] (m : Libm F) :
    ∀ (cs : List PairCmd), (∀ c ∈ cs, c.wf = true) → ∀ st : LoopState F,
      st.numberArray.length = 7 → st.numberCount = 2 →
      (st.cmd = 'M' ∨ st.cmd = 'L' ∨ st.cmd = 'm' ∨ st.cmd = 'l') →
      st.path = _skipComma (_skipComma (pairsText cs)) →
      runLoop m (cs.length + 1) st
        = some (st.out.cmds ++ List.replicate cs.length PathCommand.LineTo,
            st.out.pts ++ pairPoints F (decide (st.cmd = 'm' ∨ st.cmd = 'l')) st.out.cur cs) := by
  intro cs
  induction cs with
  | nil =>
    intro _ st _ _ _ hp
    have hnil : st.path = [] := by rw [hp]; rfl
    have hstep : loopStep m st = none := by
      unfold loopStep
      rw [hnil]
    rw [List.length_nil, runLoop_succ_of_none m st hstep]
    simp [pairPoints]
  | cons c cs ih =>
    intro hw st h7 hn hc hp
    obtain ⟨st1, hstep, h7a, hna, hca, hrel, hpa, hout⟩ :=
      loopStep_pair m c (hw c (List.mem_cons_self c cs)) cs st h7 hn hc hp
    have hrec := ih (fun d hd => hw d (List.mem_cons_of_mem c hd)) st1 h7a hna hca hpa
    rw [List.length_cons, runLoop_succ_of_step m st st1 hstep, hrec, hrel, hout]
    simp [pairPoints, List.replicate_succ]

/-- The first iteration on a path text that starts with a moveto. -/
theorem loopStep_moveto {F : Type} [LinearOrderedField F] [FloorRing F] (m : Libm F)
    (rel : Bool) (x0 y0 : NumLit) (hx : x0.wf = true) (hy : y0.wf = true)
    (cs : List PairCmd) :
    ∃ st1 : LoopState F,
      loopStep m (initState ((if rel then 'm' else 'M')
        :: (x0.text ++ ',' :: (y0.text ++ pairsText cs)))) = some st1 ∧
      st1.numberArray.length = 7 ∧ st1.numberCount = 2 ∧
      st1.cmd = (if rel then 'm' else 'M') ∧
      st1.path = _skipComma (_skipComma (pairsText cs)) ∧
      st1.out = { cmds := [PathCommand.MoveTo], pts := [⟨x0.value F, y0.value F⟩],
                  cur := ⟨x0.value F, y0.value F⟩, curCtl := ⟨0, 0⟩, isQuadratic := false } := by
  have hr := tokenEnd_pairsText cs
  have h7 : (List.replicate 7 (0 : F)).length = 7 := by simp
  have h7a : (((List.replicate 7 (0 : F)).set 0 (x0.value F)).set 1 (y0.value F)).length = 7 := by
    simp
  have hpc := processCommand_pair m (initState (F := F) []).out (List.replicate 7 0) h7
    (x0.value F) (y0.value F)
  cases rel with
  | false =>
    simp only [Bool.false_eq_true, if_false]
    have hnc := nextCommand_letter_pair (F := F) 'M' (by decide) (by decide) x0 y0 hx hy
      (pairsText cs) hr (Char.ofNat 0) (List.replicate 7 0) 0
    refine ⟨_, loopStep_eq m (initState _) (by simp [initState]) _ _ _ _ hnc,
      processCommand_length m (initState (F := F) []).out 'M' _ 2 h7a, rfl, rfl, rfl, ?_⟩
    exact hpc.1
  | true =>
    simp only [if_true]
    have hnc := nextCommand_letter_pair (F := F) 'm' (by decide) (by decide) x0 y0 hx hy
      (pairsText cs) hr (Char.ofNat 0) (List.replicate 7 0) 0
    refine ⟨_, loopStep_eq m (initState _) (by simp [initState]) _ _ _ _ hnc,
      processCommand_length m (initState (F := F) []).out 'm' _ 2 h7a, rfl, rfl, rfl, ?_⟩
    refine hpc.2.1.trans ?_
    simp [initState]

/-- The whole function on a moveto followed by lineto commands. -/
theorem svgPath_moveto_pairs {F : Type} [LinearOrderedField F] [FloorRing F] (m : Libm F)
    (rel : Bool) (x0 y0 : NumLit) (hx : x0.wf = true) (hy : y0.wf = true)
    (cs : List PairCmd) (hw : ∀ c ∈ cs, c.wf = true) :
    svgPathToTvgPath m (cs.length + 2) (String.mk ((if rel then 'm' else 'M')
        :: (x0.text ++ ',' :: (y0.text ++ pairsText cs))))
      = some (PathCommand.MoveTo :: List.replicate cs.length PathCommand.LineTo,
          (⟨x0.value F, y0.value F⟩ : Point F)
            :: pairPoints F rel ⟨x0.value F, y0.value F⟩ cs) := by
  obtain ⟨st1, hstep, h7, hn, hc, hp, hout⟩ := loopStep_moveto (F := F) m rel x0 y0 hx hy cs
  have hc1 : st1.cmd = 'M' ∨ st1.cmd = 'L' ∨ st1.cmd = 'm' ∨ st1.cmd = 'l' := by
    cases rel <;> simp [hc]
  have hrec := runLoop_pairs m cs hw st1 h7 hn hc1 hp
  have hrel : decide (st1.cmd = 'm' ∨ st1.cmd = 'l') = rel := by
    cases rel <;> simp [hc]
  unfold svgPathToTvgPath
  show runLoop m (cs.length + 1 + 1) (initState ((if rel then 'm' else 'M')
    :: (x0.text ++ ',' :: (y0.text ++ pairsText cs)))) = _
  rw [runLoop_succ_of_step m _ st1 hstep, hrec, hrel, hout]
  rfl


theorem pairPoints_implicit_abs {F : Type} [LinearOrderedField F]
    (ps : List (NumLit × NumLit)) : ∀ cur : Point F,
      pairPoints F false cur (ps.map fun p => ⟨none, p.1, p.2⟩)
        = ps.map fun p => ⟨p.1.value F, p.2.value F⟩ := by
  induction ps with
  | nil => intro cur; rfl
  | cons p ps ih =>
    intro cur
    simp only [List.map_cons, pairPoints, PairCmd.isRel, Bool.false_eq_true, if_false]
    rw [ih]

theorem pairPoints_rel_sums {F : Type} [LinearOrderedField F] (ls : List PairCmd)
    (hl : ∀ c ∈ ls, c.letter = some 'l') :
    ∀ (rel : Bool) (cur : Point F) (k : Nat) (p : Point F),
      (pairPoints F rel cur ls)[k]? = some p →
      p.x = cur.x + ((ls.take (k + 1)).map fun c => c.x.value F).sum ∧
      p.y = cur.y + ((ls.take (k + 1)).map fun c => c.y.value F).sum := by
  induction ls with
  | nil => intro rel cur k p h; simp [pairPoints] at h
  | cons c cs ih =>
    intro rel cur k p h
    have hc : c.isRel rel = true := by
      simp [PairCmd.isRel, hl c (List.mem_cons_self c cs)]
    simp only [pairPoints, hc, if_true] at h
    cases k with
    | zero =>
      simp only [List.getElem?_cons_zero, Option.some.injEq] at h
      subst h
      simp [add_comm]
    | succ k =>
      simp only [List.getElem?_cons_succ] at h
      obtain ⟨hx, hy⟩ := ih (fun d hd => hl d (List.mem_cons_of_mem c hd)) true _ k p h
      rw [hx, hy]
      simp only [List.take_succ_cons, List.map_cons, List.sum_cons]
      constructor <;> ring

/-- Claim C4 (implicit command repetition). When the next token does not
start with a letter, a successful `_nextCommand` returns the previous command
letter and count, except that `M` becomes `L` and `m` becomes `l`. So for
every first pair and every list of further well-formed pairs written after a
single `M`, the commands are `MoveTo` followed by one `LineTo` per further
pair and the points are the pairs; after a single `m` the commands are the
same and every further pair is added to the point before it. -/
theorem implicit_command_repetition {F : Type} [LinearOrderedField F] [FloorRing F]
    (m : Libm F) :
    (∀ (path : List Char) (cmd : Char) (arr : List F) (count : Nat) (p : List Char)
        (cmd1 : Char) (arr1 : List F) (count1 : Nat),
      (∀ c r, _skipComma path = c :: r → isalpha c = false) →
      _nextCommand path cmd arr count = some (p, cmd1, arr1, count1) →
      cmd1 = (if cmd = 'm' then 'l' else if cmd = 'M' then 'L' else cmd) ∧ count1 = count) ∧
    (∀ (x0 y0 : NumLit) (ps : List (NumLit × NumLit)), x0.wf = true → y0.wf = true →
      (∀ p ∈ ps, p.1.wf = true ∧ p.2.wf = true) →
      svgPathToTvgPath m (ps.length + 2)
          (String.mk ('M' :: (x0.text ++ ',' :: (y0.text
            ++ pairsText (ps.map fun p => ⟨none, p.1, p.2⟩)))))
        = some (PathCommand.MoveTo :: List.replicate ps.length PathCommand.LineTo,
            (⟨x0.value F, y0.value F⟩ : Point F)
              :: ps.map fun p => ⟨p.1.value F, p.2.value F⟩)) ∧
    (∀ (x0 y0 : NumLit) (ps : List (NumLit × NumLit)), x0.wf = true → y0.wf = true →
      (∀ p ∈ ps, p.1.wf = true ∧ p.2.wf = true) →
      svgPathToTvgPath m (ps.length + 2)
          (String.mk ('m' :: (x0.text ++ ',' :: (y0.text
            ++ pairsText (ps.map fun p => ⟨none, p.1, p.2⟩)))))
        = some (PathCommand.MoveTo :: List.replicate ps.length PathCommand.LineTo,
            (⟨x0.value F, y0.value F⟩ : Point F)
              :: pairPoints F true ⟨x0.value F, y0.value F⟩
                  (ps.map fun p => ⟨none, p.1, p.2⟩))) := by
  have hwf : ∀ ps : List (NumLit × NumLit), (∀ p ∈ ps, p.1.wf = true ∧ p.2.wf = true) →
      ∀ c ∈ ps.map (fun p => (⟨none, p.1, p.2⟩ : PairCmd)), c.wf = true := by
    intro ps h c hc
    obtain ⟨p, hp, e⟩ := List.mem_map.1 hc
    subst e
    simp [PairCmd.wf, (h p hp).1, (h p hp).2]
  refine ⟨?_, ?_, ?_⟩
  · intro path cmd arr count p cmd1 arr1 count1 hna h
    have hl : commandLetter path cmd count
        = (_skipComma path, (if cmd = 'm' then 'l' else if cmd = 'M' then 'L' else cmd),
            count) := by
      unfold commandLetter
      split
      · next c rest e => simp only [hna c rest e, Bool.false_eq_true, if_false, e]
      · next e => rw [e]
    unfold _nextCommand at h
    rw [hl] at h
    simp only at h
    split at h
    · next h7 =>
      split at h
      · simp at h
      · simp only [Option.some.injEq, Prod.mk.injEq] at h
        exact ⟨h.2.1.symm, by rw [← h.2.2.2, h7]⟩
    · split at h
      · simp at h
      · simp only [Option.some.injEq, Prod.mk.injEq] at h
        exact ⟨h.2.1.symm, h.2.2.2.symm⟩
  · intro x0 y0 ps hx hy hps
    have h := svgPath_moveto_pairs m false x0 y0 hx hy _ (hwf ps hps)
    simp only [List.length_map, Bool.false_eq_true, if_false] at h
    rw [h, pairPoints_implicit_abs]
  · intro x0 y0 ps hx hy hps
    have h := svgPath_moveto_pairs m true x0 y0 hx hy _ (hwf ps hps)
    simp only [List.length_map, if_true] at h
    exact h

/-- Witness for C4: "M0,0 10,10 20,20" gives [MoveTo, LineTo, LineTo]; it is
the text of the pair 0,0 followed by the pairs 10,10 and 20,20. -/
theorem implicit_command_repetition_witness :
    svgPathToTvgPath libmQ 4 "M0,0 10,10 20,20"
      = some ([PathCommand.MoveTo, PathCommand.LineTo, PathCommand.LineTo],
          [⟨0, 0⟩, ⟨10, 10⟩, ⟨20, 20⟩]) ∧
    String.mk ('M' :: ((⟨false, ['0'], []⟩ : NumLit).text ++ ',' ::
        ((⟨false, ['0'], []⟩ : NumLit).text ++ pairsText
          ([((⟨false, ['1', '0'], []⟩ : NumLit), (⟨false, ['1', '0'], []⟩ : NumLit)),
            (⟨false, ['2', '0'], []⟩, ⟨false, ['2', '0'], []⟩)].map
              fun p => ⟨none, p.1, p.2⟩)))) = "M0,0 10,10 20,20" ∧
    svgPathToTvgPath libmQ 4
        (String.mk ('M' :: ((⟨false, ['0'], []⟩ : NumLit).text ++ ',' ::
          ((⟨false, ['0'], []⟩ : NumLit).text ++ pairsText
            ([((⟨false, ['1', '0'], []⟩ : NumLit), (⟨false, ['1', '0'], []⟩ : NumLit)),
              (⟨false, ['2', '0'], []⟩, ⟨false, ['2', '0'], []⟩)].map
                fun p => ⟨none, p.1, p.2⟩)))))
      = some (PathCommand.MoveTo :: List.replicate 2 PathCommand.LineTo,
          (⟨(⟨false, ['0'], []⟩ : NumLit).value ℚ, (⟨false, ['0'], []⟩ : NumLit).value ℚ⟩ :
              Point ℚ)
            :: [((⟨false, ['1', '0'], []⟩ : NumLit), (⟨false, ['1', '0'], []⟩ : NumLit)),
              (⟨false, ['2', '0'], []⟩, ⟨false, ['2', '0'], []⟩)].map
                fun p => ⟨p.1.value ℚ, p.2.value ℚ⟩) :=
  ⟨by decide!, by decide!,
    (implicit_command_repetition libmQ).2.1 ⟨false, ['0'], []⟩ ⟨false, ['0'], []⟩
      [(⟨false, ['1', '0'], []⟩, ⟨false, ['1', '0'], []⟩),
        (⟨false, ['2', '0'], []⟩, ⟨false, ['2', '0'], []⟩)]
      (by decide) (by decide) (by decide)⟩


/-- Claim C5 (move/line emission with relative coordinates). For every
moveto followed by any list of lineto commands with letter `L` or `l` and
well-formed arguments, the function returns `MoveTo` followed by one `LineTo`
per command, and one point per command: the argument pair itself for `L`,
the sum of the argument pair and the previously emitted point for `l`; the
emitted point is the current point for the next command. Hence the points of
a run of `l` commands are the cumulative sums of the offsets. -/
theorem move_line_emission {F : Type} [LinearOrderedField F] [FloorRing F] (m : Libm F) :
    (∀ (rel : Bool) (x0 y0 : NumLit) (ls : List PairCmd), x0.wf = true → y0.wf = true →
      (∀ c ∈ ls, c.wf = true ∧ c.letter ≠ none) →
      svgPathToTvgPath m (ls.length + 2)
          (String.mk ((if rel then 'm' else 'M')
            :: (x0.text ++ ',' :: (y0.text ++ pairsText ls))))
        = some (PathCommand.MoveTo :: List.replicate ls.length PathCommand.LineTo,
            (⟨x0.value F, y0.value F⟩ : Point F)
              :: pairPoints F rel ⟨x0.value F, y0.value F⟩ ls)) ∧
    (∀ (rel : Bool) (cur : Point F) (c : PairCmd) (cs : List PairCmd),
      c.letter = some 'L' →
      pairPoints F rel cur (c :: cs)
        = ⟨c.x.value F, c.y.value F⟩ :: pairPoints F false ⟨c.x.value F, c.y.value F⟩ cs) ∧
    (∀ (rel : Bool) (cur : Point F) (c : PairCmd) (cs : List PairCmd),
      c.letter = some 'l' →
      pairPoints F rel cur (c :: cs)
        = ⟨c.x.value F + cur.x, c.y.value F + cur.y⟩
            :: pairPoints F true ⟨c.x.value F + cur.x, c.y.value F + cur.y⟩ cs) ∧
    (∀ (ls : List PairCmd), (∀ c ∈ ls, c.letter = some 'l') →
      ∀ (rel : Bool) (cur : Point F) (k : Nat) (p : Point F),
        (pairPoints F rel cur ls)[k]? = some p →
        p.x = cur.x + ((ls.take (k + 1)).map fun c => c.x.value F).sum ∧
        p.y = cur.y + ((ls.take (k + 1)).map fun c => c.y.value F).sum) := by
  refine ⟨fun rel x0 y0 ls hx hy hls =>
      svgPath_moveto_pairs m rel x0 y0 hx hy ls (fun c hc => (hls c hc).1),
    fun rel cur c cs hc => ?_, fun rel cur c cs hc => ?_,
    fun ls hl => pairPoints_rel_sums ls hl⟩
  · simp [pairPoints, PairCmd.isRel, hc]
  · simp [pairPoints, PairCmd.isRel, hc]

/-- Witness for C5: "M0,0 L10,10" gives the points (0,0), (10,10) and
"M0,0 l10,0 l0,10" gives (0,0), (10,0), (10,10); the second text is the
moveto 0,0 followed by the commands l10,0 and l0,10. -/
theorem move_line_emission_witness :
    svgPathToTvgPath libmQ 3 "M0,0 L10,10"
      = some ([PathCommand.MoveTo, PathCommand.LineTo], [⟨0, 0⟩, ⟨10, 10⟩]) ∧
    svgPathToTvgPath libmQ 4 "M0,0 l10,0 l0,10"
      = some ([PathCommand.MoveTo, PathCommand.LineTo, PathCommand.LineTo],
          [⟨0, 0⟩, ⟨10, 0⟩, ⟨10, 10⟩]) ∧
    String.mk ((if false then 'm' else 'M') :: ((⟨false, ['0'], []⟩ : NumLit).text ++ ',' ::
        ((⟨false, ['0'], []⟩ : NumLit).text ++ pairsText
          [⟨some 'l', ⟨false, ['1', '0'], []⟩, ⟨false, ['0'], []⟩⟩,
            ⟨some 'l', ⟨false, ['0'], []⟩, ⟨false, ['1', '0'], []⟩⟩])))
      = "M0,0 l10,0 l0,10" ∧
    svgPathToTvgPath libmQ 4
        (String.mk ((if false then 'm' else 'M') :: ((⟨false, ['0'], []⟩ : NumLit).text ++ ',' ::
          ((⟨false, ['0'], []⟩ : NumLit).text ++ pairsText
            [⟨some 'l', ⟨false, ['1', '0'], []⟩, ⟨false, ['0'], []⟩⟩,
              ⟨some 'l', ⟨false, ['0'], []⟩, ⟨false, ['1', '0'], []⟩⟩]))))
      = some (PathCommand.MoveTo :: List.replicate 2 PathCommand.LineTo,
          (⟨(⟨false, ['0'], []⟩ : NumLit).value ℚ, (⟨false, ['0'], []⟩ : NumLit).value ℚ⟩ :
              Point ℚ)
            :: pairPoints ℚ false
                ⟨(⟨false, ['0'], []⟩ : NumLit).value ℚ, (⟨false, ['0'], []⟩ : NumLit).value ℚ⟩
                [⟨some 'l', ⟨false, ['1', '0'], []⟩, ⟨false, ['0'], []⟩⟩,
                  ⟨some 'l', ⟨false, ['0'], []⟩, ⟨false, ['1', '0'], []⟩⟩]) :=
  ⟨by decide!, by decide!, by decide!,
    (move_line_emission libmQ).1 false ⟨false, ['0'], []⟩ ⟨false, ['0'], []⟩
      [⟨some 'l', ⟨false, ['1', '0'], []⟩, ⟨false, ['0'], []⟩⟩,
        ⟨some 'l', ⟨false, ['0'], []⟩, ⟨false, ['1', '0'], []⟩⟩]
      (by decide) (by decide) (by decide)⟩


/-! ### Smooth curves: the rules of `S` and `T` -/

theorem arcLoop_flag {F : Type} [LinearOrderedField F] (m : Libm F)
    (bcp cosPhiRx cosPhiRy sinPhiRx sinPhiRy cx cy delta : F) (n : Nat) :
    ∀ (sx sy theta1 cosTheta1 sinTheta1 : F) (st : PathState F),
      (arcLoop m bcp cosPhiRx cosPhiRy sinPhiRx sinPhiRy cx cy delta n sx sy
        theta1 cosTheta1 sinTheta1 st).isQuadratic = st.isQuadratic := by
  induction n with
  | zero => intro sx sy theta1 cosTheta1 sinTheta1 st; rfl
  | succ n ih =>
    intro sx sy theta1 cosTheta1 sinTheta1 st
    simp only [arcLoop]
    rw [ih]

theorem pathAppendArcTo_flag {F : Type} [LinearOrderedField F] [FloorRing F] (m : Libm F)
    (st : PathState F) (x y rx ry angle : F) (largeArc sweep : Bool) :
    (_pathAppendArcTo m st x y rx ry angle largeArc sweep).isQuadratic = st.isQuadratic := by
  unfold _pathAppendArcTo
  split
  · rfl
  · split
    · rfl
    · exact arcLoop_flag m _ _ _ _ _ _ _ _ _ _ _ _ _ _ st

/-- How `_processCommand` changes the curve-type flag: `C`, `c`, `S`, `s`
clear it, `Q`, `q`, `T`, `t` set it, every other command (an arc among them)
leaves it as it is. -/
theorem processCommand_flag {F : Type} [LinearOrderedField F] [FloorRing F] (m : Libm F)
    (st : PathState F) (cmd : Char) (arr : List F) (count : Nat) :
    (_processCommand m st cmd arr count).1.isQuadratic
      = if cmd = 'c' ∨ cmd = 'C' ∨ cmd = 's' ∨ cmd = 'S' then false
        else if cmd = 'q' ∨ cmd = 'Q' ∨ cmd = 't' ∨ cmd = 'T' then true
        else st.isQuadratic := by
  simp only [_processCommand, emitCommand]
  by_cases h1 : cmd = 'm' ∨ cmd = 'M'
  · rw [if_pos h1]
    rcases h1 with h | h <;> subst h <;> rfl
  rw [if_neg h1]
  by_cases h2 : cmd = 'l' ∨ cmd = 'L'
  · rw [if_pos h2]
    rcases h2 with h | h <;> subst h <;> rfl
  rw [if_neg h2]
  by_cases h3 : cmd = 'c' ∨ cmd = 'C'
  · rw [if_pos h3]
    rcases h3 with h | h <;> subst h <;> rfl
  rw [if_neg h3]
  by_cases h4 : cmd = 's' ∨ cmd = 'S'
  · rw [if_pos h4]
    rcases h4 with h | h <;> subst h <;> rfl
  rw [if_neg h4]
  by_cases h5 : cmd = 'q' ∨ cmd = 'Q'
  · rw [if_pos h5]
    rcases h5 with h | h <;> subst h <;> rfl
  rw [if_neg h5]
  by_cases h6 : cmd = 't' ∨ cmd = 'T'
  · rw [if_pos h6]
    rcases h6 with h | h <;> subst h <;> rfl
  rw [if_neg h6]
  have hn1 : ¬ (cmd = 'c' ∨ cmd = 'C' ∨ cmd = 's' ∨ cmd = 'S') := by
    rintro (h | h | h | h)
    · exact h3 (Or.inl h)
    · exact h3 (Or.inr h)
    · exact h4 (Or.inl h)
    · exact h4 (Or.inr h)
  have hn2 : ¬ (cmd = 'q' ∨ cmd = 'Q' ∨ cmd = 't' ∨ cmd = 'T') := by
    rintro (h | h | h | h)
    · exact h5 (Or.inl h)
    · exact h5 (Or.inr h)
    · exact h6 (Or.inl h)
    · exact h6 (Or.inr h)
  rw [if_neg hn1, if_neg hn2]
  split_ifs
  · rfl
  · rfl
  · rfl
  · exact pathAppendArcTo_flag m st _ _ _ _ _ _ _
  · rfl

theorem lastIsCubic_iff {F : Type} (st : PathState F) (q : Bool) :
    (lastIsCubic st && q) = true ↔
      (1 < st.cmds.length ∧ st.cmds.getLast? = some PathCommand.CubicTo ∧ q = true) := by
  simp [lastIsCubic, and_assoc]


/-- The smooth cubic rule of the command processor. On `S`/`s` one `CubicTo`
is appended whose first control point is `2 * current - lastControl` when the
output holds at least two commands, the last of them is a `CubicTo` and the
curve-type flag is not set; in every other case it is the current point. The
second control point and the endpoint are the two (offset) argument pairs;
afterwards the last control point is that second control point, the current
point is the endpoint and the flag is clear. The flag is cleared by `C`, `c`,
`S`, `s`, set by `Q`, `q`, `T`, `t` and changed by no other command; after a
`C`/`c` on a non-empty output the reflection is taken. -/
theorem smooth_cubic_rule {F : Type} [LinearOrderedField F] [FloorRing F] (m : Libm F) :
    (∀ (st : PathState F) (a0 a1 a2 a3 a4 a5 a6 : F),
      (_processCommand m st 'S' [a0, a1, a2, a3, a4, a5, a6] 4).1
        = { cmds := st.cmds ++ [PathCommand.CubicTo]
            pts := st.pts ++
              [if 1 < st.cmds.length ∧ st.cmds.getLast? = some PathCommand.CubicTo
                    ∧ st.isQuadratic = false then
                  (⟨2 * st.cur.x - st.curCtl.x, 2 * st.cur.y - st.curCtl.y⟩ : Point F)
                else st.cur,
                ⟨a0, a1⟩, ⟨a2, a3⟩]
            curCtl := ⟨a0, a1⟩
            cur := ⟨a2, a3⟩
            isQuadratic := false }) ∧
    (∀ (st : PathState F) (a0 a1 a2 a3 a4 a5 a6 : F),
      (_processCommand m st 's' [a0, a1, a2, a3, a4, a5, a6] 4).1
        = { cmds := st.cmds ++ [PathCommand.CubicTo]
            pts := st.pts ++
              [if 1 < st.cmds.length ∧ st.cmds.getLast? = some PathCommand.CubicTo
                    ∧ st.isQuadratic = false then
                  (⟨2 * st.cur.x - st.curCtl.x, 2 * st.cur.y - st.curCtl.y⟩ : Point F)
                else st.cur,
                ⟨a0 + st.cur.x, a1 + st.cur.y⟩, ⟨a2 + st.cur.x, a3 + st.cur.y⟩]
            curCtl := ⟨a0 + st.cur.x, a1 + st.cur.y⟩
            cur := ⟨a2 + st.cur.x, a3 + st.cur.y⟩
            isQuadratic := false }) ∧
    (∀ (st : PathState F) (cmd : Char) (arr : List F) (count : Nat),
      (_processCommand m st cmd arr count).1.isQuadratic
        = if cmd = 'c' ∨ cmd = 'C' ∨ cmd = 's' ∨ cmd = 'S' then false
          else if cmd = 'q' ∨ cmd = 'Q' ∨ cmd = 't' ∨ cmd = 'T' then true
          else st.isQuadratic) ∧
    (∀ (st : PathState F) (c0 c1 c2 c3 c4 c5 c6 a0 a1 a2 a3 a4 a5 a6 : F), st.cmds ≠ [] →
      (_processCommand m (_processCommand m st 'C' [c0, c1, c2, c3, c4, c5, c6] 6).1 'S'
          [a0, a1, a2, a3, a4, a5, a6] 4).1.pts
        = st.pts ++ [⟨c0, c1⟩, ⟨c2, c3⟩, ⟨c4, c5⟩,
            ⟨2 * c4 - c2, 2 * c5 - c3⟩, ⟨a0, a1⟩, ⟨a2, a3⟩]) := by
  have hS : ∀ (st : PathState F) (a0 a1 a2 a3 a4 a5 a6 : F),
      (_processCommand m st 'S' [a0, a1, a2, a3, a4, a5, a6] 4).1
        = { cmds := st.cmds ++ [PathCommand.CubicTo]
            pts := st.pts ++
              [if 1 < st.cmds.length ∧ st.cmds.getLast? = some PathCommand.CubicTo
                    ∧ st.isQuadratic = false then
                  (⟨2 * st.cur.x - st.curCtl.x, 2 * st.cur.y - st.curCtl.y⟩ : Point F)
                else st.cur,
                ⟨a0, a1⟩, ⟨a2, a3⟩]
            curCtl := ⟨a0, a1⟩
            cur := ⟨a2, a3⟩
            isQuadratic := false } := by
    intro st a0 a1 a2 a3 a4 a5 a6
    have e := lastIsCubic_iff st (!st.isQuadratic)
    simp only [Bool.not_eq_true'] at e
    simp [_processCommand, makeAbsolute, emitCommand, argAt, pushCubic, e]
  refine ⟨hS, ?_, fun st cmd arr count => processCommand_flag m st cmd arr count, ?_⟩
  · intro st a0 a1 a2 a3 a4 a5 a6
    have e := lastIsCubic_iff st (!st.isQuadratic)
    simp only [Bool.not_eq_true'] at e
    simp [_processCommand, makeAbsolute, emitCommand, argAt, pushCubic, offsetPairs, e]
  · intro st c0 c1 c2 c3 c4 c5 c6 a0 a1 a2 a3 a4 a5 a6 hne
    rw [hS]
    simp [_processCommand, makeAbsolute, emitCommand, argAt, pushCubic, hne]

/-- Example for the smooth cubic rule: "M0,0 C0,0 10,0 10,10 S20,20 20,0"
gives the first control point (10,20) for the second `CubicTo`. -/
theorem smooth_cubic_rule_witness :
    svgPathToTvgPath libmQ 4 "M0,0 C0,0 10,0 10,10 S20,20 20,0"
      = some ([PathCommand.MoveTo, PathCommand.CubicTo, PathCommand.CubicTo],
          [⟨0, 0⟩, ⟨0, 0⟩, ⟨10, 0⟩, ⟨10, 10⟩, ⟨10, 20⟩, ⟨20, 20⟩, ⟨20, 0⟩]) ∧
    ([PathCommand.MoveTo] : List PathCommand) ≠ [] ∧
    (_processCommand libmQ
        (_processCommand libmQ
          { cmds := [PathCommand.MoveTo], pts := [⟨0, 0⟩], cur := ⟨0, 0⟩, curCtl := ⟨0, 0⟩,
            isQuadratic := false } 'C' [0, 0, 10, 0, 10, 10, 0] 6).1 'S'
        [20, 20, 20, 0, 10, 10, 0] 4).1.pts
      = [⟨0, 0⟩] ++ [⟨0, 0⟩, ⟨10, 0⟩, ⟨10, 10⟩, ⟨2 * 10 - 10, 2 * 10 - 0⟩, ⟨20, 20⟩, ⟨20, 0⟩] :=
  ⟨by decide!, by decide,
    (smooth_cubic_rule libmQ).2.2.2
      { cmds := [PathCommand.MoveTo], pts := [⟨0, 0⟩], cur := ⟨0, 0⟩, curCtl := ⟨0, 0⟩,
        isQuadratic := false } 0 0 10 0 10 10 0 20 20 20 0 10 10 0 (by decide)⟩


/-! ### C7: quadratic curves -/

/-- The command processor on `Q`. -/
theorem processCommand_quadratic {F : Type} [LinearOrderedField F] [FloorRing F]
    (m : Libm F) (st : PathState F) (a0 a1 a2 a3 a4 a5 a6 : F) :
    (_processCommand m st 'Q' [a0, a1, a2, a3, a4, a5, a6] 4).1
      = { cmds := st.cmds ++ [PathCommand.CubicTo]
          pts := st.pts ++
            [⟨(st.cur.x + 2 * a0) / 3, (st.cur.y + 2 * a1) / 3⟩,
              ⟨(a2 + 2 * a0) / 3, (a3 + 2 * a1) / 3⟩, ⟨a2, a3⟩]
          curCtl := ⟨a0, a1⟩
          cur := ⟨a2, a3⟩
          isQuadratic := true } := by
  simp [_processCommand, makeAbsolute, emitCommand, argAt, pushCubic, div_eq_mul_inv]

/-- Claim C7 (degree raising of `Q`/`q`). For every state and arguments, one
`CubicTo` is appended with the points `(P0 + 2 Qc) / 3`, `(P3 + 2 Qc) / 3`,
`P3`, where `P0` is the current point, `Qc` the (offset) first argument pair
and `P3` the (offset) second one; afterwards the last control point is `Qc`,
the current point is `P3` and the curve-type flag is set. The cubic Bezier
curve with these control points equals the quadratic one at every parameter. -/
theorem quadratic_degree_raising {F : Type} [LinearOrderedField F] [FloorRing F]
    (m : Libm F) :
    (∀ (st : PathState F) (a0 a1 a2 a3 a4 a5 a6 : F),
      (_processCommand m st 'Q' [a0, a1, a2, a3, a4, a5, a6] 4).1
        = { cmds := st.cmds ++ [PathCommand.CubicTo]
            pts := st.pts ++
              [⟨(st.cur.x + 2 * a0) / 3, (st.cur.y + 2 * a1) / 3⟩,
                ⟨(a2 + 2 * a0) / 3, (a3 + 2 * a1) / 3⟩, ⟨a2, a3⟩]
            curCtl := ⟨a0, a1⟩
            cur := ⟨a2, a3⟩
            isQuadratic := true }) ∧
    (∀ (st : PathState F) (a0 a1 a2 a3 a4 a5 a6 : F),
      (_processCommand m st 'q' [a0, a1, a2, a3, a4, a5, a6] 4).1
        = { cmds := st.cmds ++ [PathCommand.CubicTo]
            pts := st.pts ++
              [⟨(st.cur.x + 2 * (a0 + st.cur.x)) / 3, (st.cur.y + 2 * (a1 + st.cur.y)) / 3⟩,
                ⟨(a2 + st.cur.x + 2 * (a0 + st.cur.x)) / 3,
                  (a3 + st.cur.y + 2 * (a1 + st.cur.y)) / 3⟩,
                ⟨a2 + st.cur.x, a3 + st.cur.y⟩]
            curCtl := ⟨a0 + st.cur.x, a1 + st.cur.y⟩
            cur := ⟨a2 + st.cur.x, a3 + st.cur.y⟩
            isQuadratic := true }) ∧
    (∀ (p0 qc p3 : Point F) (t : F),
      bezier3 p0 ⟨(p0.x + 2 * qc.x) / 3, (p0.y + 2 * qc.y) / 3⟩
          ⟨(p3.x + 2 * qc.x) / 3, (p3.y + 2 * qc.y) / 3⟩ p3 t
        = bezier2 p0 qc p3 t) := by
  refine ⟨processCommand_quadratic m, ?_, ?_⟩
  · intro st a0 a1 a2 a3 a4 a5 a6
    simp [_processCommand, makeAbsolute, emitCommand, argAt, pushCubic, offsetPairs,
      div_eq_mul_inv]
  · intro p0 qc p3 t
    simp only [bezier3, bezier2, Point.mk.injEq]
    constructor <;> ring

/-- Witness for C7: "M0,0 Q3,6 9,0" gives the cubic (2,4), (5,4), (9,0). -/
theorem quadratic_degree_raising_witness :
    svgPathToTvgPath libmQ 3 "M0,0 Q3,6 9,0"
      = some ([PathCommand.MoveTo, PathCommand.CubicTo], [⟨0, 0⟩, ⟨2, 4⟩, ⟨5, 4⟩, ⟨9, 0⟩]) ∧
    bezier3 (⟨0, 0⟩ : Point ℚ) ⟨(0 + 2 * 3) / 3, (0 + 2 * 6) / 3⟩
        ⟨(9 + 2 * 3) / 3, (0 + 2 * 6) / 3⟩ ⟨9, 0⟩ (1 / 2)
      = bezier2 ⟨0, 0⟩ ⟨3, 6⟩ ⟨9, 0⟩ (1 / 2) :=
  ⟨by decide!, (quadratic_degree_raising libmQ).2.2 ⟨0, 0⟩ ⟨3, 6⟩ ⟨9, 0⟩ (1 / 2)⟩


/-! ### Smooth quadratic curves -/

theorem smoothQuadControl_eq {F : Type} [LinearOrderedField F] (st : PathState F) :
    (if lastIsCubic st = true ∧ st.isQuadratic = true then
        (⟨2 * st.cur.x - st.curCtl.x, 2 * st.cur.y - st.curCtl.y⟩ : Point F)
      else st.cur) = smoothQuadControl st := by
  unfold smoothQuadControl
  have e := lastIsCubic_iff st st.isQuadratic
  simp only [Bool.and_eq_true] at e
  simp only [e]

/-- The smooth quadratic rule of the command processor. On `T`/`t` the
effective quadratic control point is `2 * current - lastControl` when the
output holds at least two commands, the last of them is a `CubicTo` and the
curve-type flag is set, and the current point otherwise. One `CubicTo` is
appended, the degree-raised cubic of (current, effective control, endpoint);
afterwards the last control point is the effective control point, the current
point is the endpoint and the flag is set. The flag is set by `Q`, `q`, `T`,
`t`, cleared by `C`, `c`, `S`, `s` and changed by no other command. In a
chain `Q`, `T`, `T` on a non-empty output each `T` reflects the control point
of the command before it. -/
theorem smooth_quadratic_rule {F : Type} [LinearOrderedField F] [FloorRing F] (m : Libm F) :
    (∀ (st : PathState F) (a0 a1 a2 a3 a4 a5 a6 : F),
      (_processCommand m st 'T' [a0, a1, a2, a3, a4, a5, a6] 2).1
        = { cmds := st.cmds ++ [PathCommand.CubicTo]
            pts := st.pts ++
              [⟨(st.cur.x + 2 * (smoothQuadControl st).x) / 3,
                  (st.cur.y + 2 * (smoothQuadControl st).y) / 3⟩,
                ⟨(a0 + 2 * (smoothQuadControl st).x) / 3,
                  (a1 + 2 * (smoothQuadControl st).y) / 3⟩, ⟨a0, a1⟩]
            curCtl := smoothQuadControl st
            cur := ⟨a0, a1⟩
            isQuadratic := true }) ∧
    (∀ (st : PathState F) (a0 a1 a2 a3 a4 a5 a6 : F),
      (_processCommand m st 't' [a0, a1, a2, a3, a4, a5, a6] 2).1
        = { cmds := st.cmds ++ [PathCommand.CubicTo]
            pts := st.pts ++
              [⟨(st.cur.x + 2 * (smoothQuadControl st).x) / 3,
                  (st.cur.y + 2 * (smoothQuadControl st).y) / 3⟩,
                ⟨(a0 + st.cur.x + 2 * (smoothQuadControl st).x) / 3,
                  (a1 + st.cur.y + 2 * (smoothQuadControl st).y) / 3⟩,
                ⟨a0 + st.cur.x, a1 + st.cur.y⟩]
            curCtl := smoothQuadControl st
            cur := ⟨a0 + st.cur.x, a1 + st.cur.y⟩
            isQuadratic := true }) ∧
    (∀ (st : PathState F) (cmd : Char) (arr : List F) (count : Nat),
      (_processCommand m st cmd arr count).1.isQuadratic
        = if cmd = 'c' ∨ cmd = 'C' ∨ cmd = 's' ∨ cmd = 'S' then false
          else if cmd = 'q' ∨ cmd = 'Q' ∨ cmd = 't' ∨ cmd = 'T' then true
          else st.isQuadratic) ∧
    (∀ (st : PathState F) (q0 q1 q2 q3 q4 q5 q6 a0 a1 a2 a3 a4 a5 a6 b0 b1 b2 b3 b4 b5 b6 : F),
      st.cmds ≠ [] →
      (_processCommand m (_processCommand m st 'Q' [q0, q1, q2, q3, q4, q5, q6] 4).1 'T'
          [a0, a1, a2, a3, a4, a5, a6] 2).1.curCtl = ⟨2 * q2 - q0, 2 * q3 - q1⟩ ∧
      (_processCommand m
          (_processCommand m (_processCommand m st 'Q' [q0, q1, q2, q3, q4, q5, q6] 4).1 'T'
            [a0, a1, a2, a3, a4, a5, a6] 2).1 'T' [b0, b1, b2, b3, b4, b5, b6] 2).1.curCtl
        = ⟨2 * a0 - (2 * q2 - q0), 2 * a1 - (2 * q3 - q1)⟩) := by
  have hT : ∀ (st : PathState F) (a0 a1 a2 a3 a4 a5 a6 : F),
      (_processCommand m st 'T' [a0, a1, a2, a3, a4, a5, a6] 2).1
        = { cmds := st.cmds ++ [PathCommand.CubicTo]
            pts := st.pts ++
              [⟨(st.cur.x + 2 * (smoothQuadControl st).x) / 3,
                  (st.cur.y + 2 * (smoothQuadControl st).y) / 3⟩,
                ⟨(a0 + 2 * (smoothQuadControl st).x) / 3,
                  (a1 + 2 * (smoothQuadControl st).y) / 3⟩, ⟨a0, a1⟩]
            curCtl := smoothQuadControl st
            cur := ⟨a0, a1⟩
            isQuadratic := true } := by
    intro st a0 a1 a2 a3 a4 a5 a6
    have e := smoothQuadControl_eq st
    simp only [_processCommand, makeAbsolute, emitCommand]
    simp [argAt, pushCubic, e, div_eq_mul_inv]
  have hQ := processCommand_quadratic m
  refine ⟨hT, ?_, fun st cmd arr count => processCommand_flag m st cmd arr count, ?_⟩
  · intro st a0 a1 a2 a3 a4 a5 a6
    have e := smoothQuadControl_eq st
    simp only [_processCommand, makeAbsolute, emitCommand]
    simp [argAt, pushCubic, e, div_eq_mul_inv, offsetPairs]
  · intro st q0 q1 q2 q3 q4 q5 q6 a0 a1 a2 a3 a4 a5 a6 b0 b1 b2 b3 b4 b5 b6 hne
    have h1 : smoothQuadControl
        (_processCommand m st 'Q' [q0, q1, q2, q3, q4, q5, q6] 4).1
          = ⟨2 * q2 - q0, 2 * q3 - q1⟩ := by
      rw [hQ]
      simp [smoothQuadControl, hne]
    have h2 : (_processCommand m (_processCommand m st 'Q' [q0, q1, q2, q3, q4, q5, q6] 4).1
        'T' [a0, a1, a2, a3, a4, a5, a6] 2).1.curCtl = ⟨2 * q2 - q0, 2 * q3 - q1⟩ := by
      rw [hT, h1]
    refine ⟨h2, ?_⟩
    rw [hT (_processCommand m (_processCommand m st 'Q' [q0, q1, q2, q3, q4, q5, q6] 4).1
        'T' [a0, a1, a2, a3, a4, a5, a6] 2).1]
    simp only
    rw [hT, h1, hQ]
    simp [smoothQuadControl]

/-- Example for the smooth quadratic rule: in "M0,0 Q3,6 9,0 T15,0" the
effective control point of `T` is the reflection (15,-6) of (3,6) through
(9,0). -/
theorem smooth_quadratic_rule_witness :
    svgPathToTvgPath libmQ 4 "M0,0 Q3,6 9,0 T15,0"
      = some ([PathCommand.MoveTo, PathCommand.CubicTo, PathCommand.CubicTo],
          [⟨0, 0⟩, ⟨2, 4⟩, ⟨5, 4⟩, ⟨9, 0⟩, ⟨13, -4⟩, ⟨15, -4⟩, ⟨15, 0⟩]) ∧
    ([PathCommand.MoveTo] : List PathCommand) ≠ [] ∧
    (_processCommand libmQ
        (_processCommand libmQ
          { cmds := [PathCommand.MoveTo], pts := [⟨0, 0⟩], cur := ⟨0, 0⟩, curCtl := ⟨0, 0⟩,
            isQuadratic := false } 'Q' [3, 6, 9, 0, 0, 0, 0] 4).1 'T'
        [15, 0, 9, 0, 0, 0, 0] 2).1.curCtl = ⟨2 * 9 - 3, 2 * 0 - 6⟩ :=
  ⟨by decide!, by decide,
    ((smooth_quadratic_rule libmQ).2.2.2
      { cmds := [PathCommand.MoveTo], pts := [⟨0, 0⟩], cur := ⟨0, 0⟩, curCtl := ⟨0, 0⟩,
        isQuadratic := false } 3 6 9 0 0 0 0 15 0 9 0 0 0 0 0 0 0 0 0 0 0 (by decide)).1⟩


/-! ### C9, C10: degenerate arcs -/

/-- Claim C9 (an arc with coincident endpoints emits nothing). For every
state, radii, angle and flags: when the (offset) endpoint is within 1/256 of
the current point in both axes, `_pathAppendArcTo` returns the state it was
given, and `_processCommand` on `A`/`a` appends no command and no point. -/
theorem coincident_arc_emits_nothing {F : Type} [LinearOrderedField F] [FloorRing F]
    (m : Libm F) :
    (∀ (st : PathState F) (x y rx ry angle : F) (largeArc sweep : Bool),
      |x - st.cur.x| < 1 / 256 → |y - st.cur.y| < 1 / 256 →
      _pathAppendArcTo m st x y rx ry angle largeArc sweep = st) ∧
    (∀ (st : PathState F) (a0 a1 a2 a3 a4 a5 a6 : F),
      |a5 - st.cur.x| < 1 / 256 → |a6 - st.cur.y| < 1 / 256 →
      (_processCommand m st 'A' [a0, a1, a2, a3, a4, a5, a6] 7).1.cmds = st.cmds ∧
      (_processCommand m st 'A' [a0, a1, a2, a3, a4, a5, a6] 7).1.pts = st.pts) ∧
    (∀ (st : PathState F) (a0 a1 a2 a3 a4 a5 a6 : F),
      |a5 + st.cur.x - st.cur.x| < 1 / 256 → |a6 + st.cur.y - st.cur.y| < 1 / 256 →
      (_processCommand m st 'a' [a0, a1, a2, a3, a4, a5, a6] 7).1.cmds = st.cmds ∧
      (_processCommand m st 'a' [a0, a1, a2, a3, a4, a5, a6] 7).1.pts = st.pts) := by
  have h1 : ∀ (st : PathState F) (x y rx ry angle : F) (largeArc sweep : Bool),
      |x - st.cur.x| < 1 / 256 → |y - st.cur.y| < 1 / 256 →
      _pathAppendArcTo m st x y rx ry angle largeArc sweep = st := by
    intro st x y rx ry angle largeArc sweep hx hy
    unfold _pathAppendArcTo
    rw [if_pos ⟨hx, hy⟩]
  refine ⟨h1, ?_, ?_⟩
  · intro st a0 a1 a2 a3 a4 a5 a6 hx hy
    have e : emitCommand m st 'A' [a0, a1, a2, a3, a4, a5, a6]
        = { _pathAppendArcTo m st a5 a6 a0 a1 a2 (decide (a3 ≠ 0)) (decide (a4 ≠ 0)) with
            cur := ⟨a5, a6⟩ } := by
      simp [emitCommand, argAt]
    simp only [_processCommand, makeAbsolute]
    simp only [Char.reduceEq, or_self, or_false, if_false, false_or]
    rw [e, h1 st a5 a6 a0 a1 a2 _ _ hx hy]
    exact ⟨rfl, rfl⟩
  · intro st a0 a1 a2 a3 a4 a5 a6 hx hy
    have e : emitCommand m st 'a' [a0, a1, a2, a3, a4, a5 + st.cur.x, a6 + st.cur.y]
        = { _pathAppendArcTo m st (a5 + st.cur.x) (a6 + st.cur.y) a0 a1 a2 (decide (a3 ≠ 0))
              (decide (a4 ≠ 0)) with
            cur := ⟨a5 + st.cur.x, a6 + st.cur.y⟩ } := by
      simp [emitCommand, argAt]
    have ea : makeAbsolute 'a' [a0, a1, a2, a3, a4, a5, a6] 7 st.cur
        = [a0, a1, a2, a3, a4, a5 + st.cur.x, a6 + st.cur.y] := by
      simp [makeAbsolute, argAt]
    simp only [_processCommand, ea]
    rw [e, h1 st _ _ a0 a1 a2 _ _ hx hy]
    exact ⟨rfl, rfl⟩

/-- Witness for C9: "M0,0 A5,5 0 0 1 0,0" gives [MoveTo] and [(0,0)]. -/
theorem coincident_arc_emits_nothing_witness :
    svgPathToTvgPath libmQ 3 "M0,0 A5,5 0 0 1 0,0"
      = some ([PathCommand.MoveTo], [⟨0, 0⟩]) ∧
    |(0 : ℚ) - (0 : ℚ)| < 1 / 256 ∧
    (_processCommand libmQ
        { cmds := [PathCommand.MoveTo], pts := [⟨0, 0⟩], cur := ⟨0, 0⟩, curCtl := ⟨0, 0⟩,
          isQuadratic := false } 'A' [5, 5, 0, 0, 1, 0, 0] 7).1.cmds = [PathCommand.MoveTo] ∧
    (_processCommand libmQ
        { cmds := [PathCommand.MoveTo], pts := [⟨0, 0⟩], cur := ⟨0, 0⟩, curCtl := ⟨0, 0⟩,
          isQuadratic := false } 'A' [5, 5, 0, 0, 1, 0, 0] 7).1.pts = [⟨0, 0⟩] :=
  ⟨by decide!, by norm_num,
    (coincident_arc_emits_nothing libmQ).2.1
      { cmds := [PathCommand.MoveTo], pts := [⟨0, 0⟩], cur := ⟨0, 0⟩, curCtl := ⟨0, 0⟩,
        isQuadratic := false } 5 5 0 0 1 0 0 (by norm_num) (by norm_num)⟩

/-- Claim C10 (an arc with a small radius degrades to a line). For every
state, angle and flags: when the (offset) endpoint differs from the current
point by at least 1/256 in some axis and `|rx| < 0.5` or `|ry| < 0.5`,
exactly one `LineTo` with the endpoint as its point is appended (no
`CubicTo`), the current point becomes the endpoint, and the last control
point and the flag are unchanged. -/
theorem small_radius_arc_is_line {F : Type} [LinearOrderedField F] [FloorRing F]
    (m : Libm F) :
    (∀ (st : PathState F) (x y rx ry angle : F) (largeArc sweep : Bool),
      (1 / 256 ≤ |x - st.cur.x| ∨ 1 / 256 ≤ |y - st.cur.y|) →
      (|rx| < 1 / 2 ∨ |ry| < 1 / 2) →
      _pathAppendArcTo m st x y rx ry angle largeArc sweep
        = { cmds := st.cmds ++ [PathCommand.LineTo], pts := st.pts ++ [⟨x, y⟩], cur := ⟨x, y⟩,
            curCtl := st.curCtl, isQuadratic := st.isQuadratic }) ∧
    (∀ (st : PathState F) (a0 a1 a2 a3 a4 a5 a6 : F),
      (1 / 256 ≤ |a5 - st.cur.x| ∨ 1 / 256 ≤ |a6 - st.cur.y|) →
      (|a0| < 1 / 2 ∨ |a1| < 1 / 2) →
      (_processCommand m st 'A' [a0, a1, a2, a3, a4, a5, a6] 7).1
        = { cmds := st.cmds ++ [PathCommand.LineTo], pts := st.pts ++ [⟨a5, a6⟩],
            cur := ⟨a5, a6⟩, curCtl := st.curCtl, isQuadratic := st.isQuadratic }) ∧
    (∀ (st : PathState F) (a0 a1 a2 a3 a4 a5 a6 : F),
      (1 / 256 ≤ |a5 + st.cur.x - st.cur.x| ∨ 1 / 256 ≤ |a6 + st.cur.y - st.cur.y|) →
      (|a0| < 1 / 2 ∨ |a1| < 1 / 2) →
      (_processCommand m st 'a' [a0, a1, a2, a3, a4, a5, a6] 7).1
        = { cmds := st.cmds ++ [PathCommand.LineTo],
            pts := st.pts ++ [⟨a5 + st.cur.x, a6 + st.cur.y⟩],
            cur := ⟨a5 + st.cur.x, a6 + st.cur.y⟩, curCtl := st.curCtl,
            isQuadratic := st.isQuadratic }) := by
  have h1 : ∀ (st : PathState F) (x y rx ry angle : F) (largeArc sweep : Bool),
      (1 / 256 ≤ |x - st.cur.x| ∨ 1 / 256 ≤ |y - st.cur.y|) →
      (|rx| < 1 / 2 ∨ |ry| < 1 / 2) →
      _pathAppendArcTo m st x y rx ry angle largeArc sweep
        = { cmds := st.cmds ++ [PathCommand.LineTo], pts := st.pts ++ [⟨x, y⟩], cur := ⟨x, y⟩,
            curCtl := st.curCtl, isQuadratic := st.isQuadratic } := by
    intro st x y rx ry angle largeArc sweep hd hr
    have hn : ¬ (|x - st.cur.x| < 1 / 256 ∧ |y - st.cur.y| < 1 / 256) := by
      rintro ⟨hx, hy⟩
      rcases hd with hd | hd
      · exact absurd hx (not_lt.2 hd)
      · exact absurd hy (not_lt.2 hd)
    unfold _pathAppendArcTo
    rw [if_neg hn, if_pos hr]
  refine ⟨h1, ?_, ?_⟩
  · intro st a0 a1 a2 a3 a4 a5 a6 hd hr
    have e : emitCommand m st 'A' [a0, a1, a2, a3, a4, a5, a6]
        = { _pathAppendArcTo m st a5 a6 a0 a1 a2 (decide (a3 ≠ 0)) (decide (a4 ≠ 0)) with
            cur := ⟨a5, a6⟩ } := by
      simp [emitCommand, argAt]
    simp only [_processCommand, makeAbsolute]
    simp only [Char.reduceEq, or_self, or_false, if_false, false_or]
    rw [e, h1 st a5 a6 a0 a1 a2 _ _ hd hr]
  · intro st a0 a1 a2 a3 a4 a5 a6 hd hr
    have e : emitCommand m st 'a' [a0, a1, a2, a3, a4, a5 + st.cur.x, a6 + st.cur.y]
        = { _pathAppendArcTo m st (a5 + st.cur.x) (a6 + st.cur.y) a0 a1 a2 (decide (a3 ≠ 0))
              (decide (a4 ≠ 0)) with
            cur := ⟨a5 + st.cur.x, a6 + st.cur.y⟩ } := by
      simp [emitCommand, argAt]
    have ea : makeAbsolute 'a' [a0, a1, a2, a3, a4, a5, a6] 7 st.cur
        = [a0, a1, a2, a3, a4, a5 + st.cur.x, a6 + st.cur.y] := by
      simp [makeAbsolute, argAt]
    simp only [_processCommand, ea]
    rw [e, h1 st _ _ a0 a1 a2 _ _ hd hr]

/-- Witness for C10: "M0,0 A0.1,0.1 0 0 1 10,10" gives [MoveTo, LineTo] and
the points (0,0), (10,10). -/
theorem small_radius_arc_is_line_witness :
    svgPathToTvgPath libmQ 3 "M0,0 A0.1,0.1 0 0 1 10,10"
      = some ([PathCommand.MoveTo, PathCommand.LineTo], [⟨0, 0⟩, ⟨10, 10⟩]) ∧
    (1 / 256 ≤ |(10 : ℚ) - (0 : ℚ)| ∨ 1 / 256 ≤ |(10 : ℚ) - (0 : ℚ)|) ∧
    (|(1 / 10 : ℚ)| < 1 / 2 ∨ |(1 / 10 : ℚ)| < 1 / 2) ∧
    (_processCommand libmQ
        { cmds := [PathCommand.MoveTo], pts := [⟨0, 0⟩], cur := ⟨0, 0⟩, curCtl := ⟨0, 0⟩,
          isQuadratic := false } 'A' [1 / 10, 1 / 10, 0, 0, 1, 10, 10] 7).1
      = { cmds := [PathCommand.MoveTo] ++ [PathCommand.LineTo],
          pts := [⟨0, 0⟩] ++ [⟨10, 10⟩], cur := ⟨10, 10⟩, curCtl := ⟨0, 0⟩,
          isQuadratic := false } :=
  ⟨by decide!, Or.inl (by norm_num), Or.inl (by norm_num [abs_of_pos]),
    (small_radius_arc_is_line libmQ).2.1
      { cmds := [PathCommand.MoveTo], pts := [⟨0, 0⟩], cur := ⟨0, 0⟩, curCtl := ⟨0, 0⟩,
        isQuadratic := false } (1 / 10) (1 / 10) 0 0 1 10 10 (Or.inl (by norm_num))
      (Or.inl (by norm_num [abs_of_pos]))⟩


/-! ### C11, C12: horizontal and vertical lines, close -/

/-- Claim C11 (horizontal and vertical lines). For every state and argument
`a`: `H` appends `LineTo` with the point `(a, cy)`, `h` with `(cx + a, cy)`,
`V` with `(cx, a)` and `v` with `(cx, cy + a)`, where `(cx, cy)` is the
current point; the current point becomes the emitted point (so only its x
changes for `H`/`h` and only its y for `V`/`v`), and the last control point
and the curve-type flag are unchanged. -/
theorem horizontal_vertical_lines {F : Type} [LinearOrderedField F] [FloorRing F]
    (m : Libm F) :
    (∀ (st : PathState F) (a0 a1 a2 a3 a4 a5 a6 : F),
      (_processCommand m st 'H' [a0, a1, a2, a3, a4, a5, a6] 1).1
        = { cmds := st.cmds ++ [PathCommand.LineTo], pts := st.pts ++ [⟨a0, st.cur.y⟩],
            cur := ⟨a0, st.cur.y⟩, curCtl := st.curCtl, isQuadratic := st.isQuadratic }) ∧
    (∀ (st : PathState F) (a0 a1 a2 a3 a4 a5 a6 : F),
      (_processCommand m st 'h' [a0, a1, a2, a3, a4, a5, a6] 1).1
        = { cmds := st.cmds ++ [PathCommand.LineTo],
            pts := st.pts ++ [⟨st.cur.x + a0, st.cur.y⟩],
            cur := ⟨st.cur.x + a0, st.cur.y⟩, curCtl := st.curCtl,
            isQuadratic := st.isQuadratic }) ∧
    (∀ (st : PathState F) (a0 a1 a2 a3 a4 a5 a6 : F),
      (_processCommand m st 'V' [a0, a1, a2, a3, a4, a5, a6] 1).1
        = { cmds := st.cmds ++ [PathCommand.LineTo], pts := st.pts ++ [⟨st.cur.x, a0⟩],
            cur := ⟨st.cur.x, a0⟩, curCtl := st.curCtl, isQuadratic := st.isQuadratic }) ∧
    (∀ (st : PathState F) (a0 a1 a2 a3 a4 a5 a6 : F),
      (_processCommand m st 'v' [a0, a1, a2, a3, a4, a5, a6] 1).1
        = { cmds := st.cmds ++ [PathCommand.LineTo],
            pts := st.pts ++ [⟨st.cur.x, st.cur.y + a0⟩],
            cur := ⟨st.cur.x, st.cur.y + a0⟩, curCtl := st.curCtl,
            isQuadratic := st.isQuadratic }) := by
  refine ⟨?_, ?_, ?_, ?_⟩ <;> intro st a0 a1 a2 a3 a4 a5 a6 <;>
    simp [_processCommand, makeAbsolute, emitCommand, argAt, add_comm]

/-- Witness for C11: in "M1,2 H5 v3 h-1 V7" the lines go to (5,2), (5,5),
(4,5) and (4,7). -/
theorem horizontal_vertical_lines_witness :
    svgPathToTvgPath libmQ 6 "M1,2 H5 v3 h-1 V7"
      = some ([PathCommand.MoveTo, PathCommand.LineTo, PathCommand.LineTo, PathCommand.LineTo,
          PathCommand.LineTo], [⟨1, 2⟩, ⟨5, 2⟩, ⟨5, 5⟩, ⟨4, 5⟩, ⟨4, 7⟩]) ∧
    (_processCommand libmQ
        { cmds := [PathCommand.MoveTo], pts := [⟨1, 2⟩], cur := ⟨1, 2⟩, curCtl := ⟨0, 0⟩,
          isQuadratic := false } 'h' [3, 0, 0, 0, 0, 0, 0] 1).1
      = { cmds := [PathCommand.MoveTo] ++ [PathCommand.LineTo],
          pts := [⟨1, 2⟩] ++ [⟨1 + 3, 2⟩], cur := ⟨1 + 3, 2⟩, curCtl := ⟨0, 0⟩,
          isQuadratic := false } :=
  ⟨by decide!, (horizontal_vertical_lines libmQ).2.1
    { cmds := [PathCommand.MoveTo], pts := [⟨1, 2⟩], cur := ⟨1, 2⟩, curCtl := ⟨0, 0⟩,
      isQuadratic := false } 3 0 0 0 0 0 0⟩

/-- Claim C12 (close is a pure tag). For every state, argument array and
count, `Z` and `z` append exactly one `Close` and no point, and leave the
current point, the last control point and the curve-type flag as they were;
the argument array is not changed either. -/
theorem close_is_pure_tag {F : Type} [LinearOrderedField F] [FloorRing F] (m : Libm F) :
    (∀ (st : PathState F) (arr : List F) (count : Nat),
      _processCommand m st 'Z' arr count
        = ({ cmds := st.cmds ++ [PathCommand.Close], pts := st.pts, cur := st.cur,
             curCtl := st.curCtl, isQuadratic := st.isQuadratic }, arr)) ∧
    (∀ (st : PathState F) (arr : List F) (count : Nat),
      _processCommand m st 'z' arr count
        = ({ cmds := st.cmds ++ [PathCommand.Close], pts := st.pts, cur := st.cur,
             curCtl := st.curCtl, isQuadratic := st.isQuadratic }, arr)) := by
  refine ⟨?_, ?_⟩ <;> intro st arr count <;>
    simp [_processCommand, makeAbsolute, emitCommand]

/-- Witness for C12: in "M1,1 L5,5 Z l1,0" the relative line after `Z`
starts from (5,5), where the path stood before the `Z`, and ends in (6,5). -/
theorem close_is_pure_tag_witness :
    svgPathToTvgPath libmQ 5 "M1,1 L5,5 Z l1,0"
      = some ([PathCommand.MoveTo, PathCommand.LineTo, PathCommand.Close, PathCommand.LineTo],
          [⟨1, 1⟩, ⟨5, 5⟩, ⟨6, 5⟩]) ∧
    _processCommand libmQ
        { cmds := [PathCommand.MoveTo, PathCommand.LineTo], pts := [⟨1, 1⟩, ⟨5, 5⟩],
          cur := ⟨5, 5⟩, curCtl := ⟨0, 0⟩, isQuadratic := false } 'Z' [5, 5, 0, 0, 0, 0, 0] 0
      = ({ cmds := [PathCommand.MoveTo, PathCommand.LineTo] ++ [PathCommand.Close],
           pts := [⟨1, 1⟩, ⟨5, 5⟩], cur := ⟨5, 5⟩, curCtl := ⟨0, 0⟩, isQuadratic := false },
         [5, 5, 0, 0, 0, 0, 0]) :=
  ⟨by decide!, (close_is_pure_tag libmQ).1
    { cmds := [PathCommand.MoveTo, PathCommand.LineTo], pts := [⟨1, 1⟩, ⟨5, 5⟩],
      cur := ⟨5, 5⟩, curCtl := ⟨0, 0⟩, isQuadratic := false } [5, 5, 0, 0, 0, 0, 0] 0⟩


/-! ### C13: unrecognized letters -/

theorem numberCount_unknown (c : Char) (h : c ∉ knownLetters) : _numberCount c = 0 := by
  simp only [knownLetters, List.mem_cons, List.mem_singleton, List.not_mem_nil, or_false,
    not_or] at h
  obtain ⟨h1, h2, h3, h4, h5, h6, h7, h8, h9, h10, h11, h12, h13, h14, h15, h16, h17, h18,
    _, _, h21, h22⟩ := h
  simp [_numberCount, h1, h2, h3, h4, h5, h6, h7, h8, h9, h10, h11, h12, h13, h14, h15, h16,
    h17, h18, h21, h22]

theorem processCommand_unknown {F : Type} [LinearOrderedField F] [FloorRing F] (m : Libm F)
    (st : PathState F) (c : Char) (h : c ∉ knownLetters) (arr : List F) (count : Nat) :
    _processCommand m st c arr count = (st, arr) := by
  simp only [knownLetters, List.mem_cons, List.mem_singleton, List.not_mem_nil, or_false,
    not_or] at h
  obtain ⟨h1, h2, h3, h4, h5, h6, h7, h8, h9, h10, h11, h12, h13, h14, h15, h16, h17, h18,
    h19, h20, _, _⟩ := h
  simp [_processCommand, makeAbsolute, emitCommand, h1, h2, h3, h4, h5, h6, h7, h8, h9, h10,
    h11, h12, h13, h14, h15, h16, h17, h18, h19, h20]

theorem nextCommand_unknown {F : Type} [LinearOrderedField F] (c : Char)
    (ha : isalpha c = true) (h : c ∉ knownLetters) (rest : List Char) (cmd : Char)
    (arr : List F) (count : Nat) :
    _nextCommand (c :: rest) cmd arr count = some (rest, c, arr, 0) := by
  have hl : commandLetter (c :: rest) cmd count = (rest, c, 0) := by
    unfold commandLetter
    rw [skipComma_cons_of_not_sep c _ (isalpha_not_space c ha) (isalpha_ne c ',' ha (by decide))]
    simp only [ha, if_true, numberCount_unknown c h]
  unfold _nextCommand
  simp [hl, parseArgs]

/-- When the next token starts with a letter, `_nextCommand` does not look
at the previous command and count. -/
theorem nextCommand_of_letter {F : Type} [LinearOrderedField F] (path : List Char) (d : Char)
    (r : List Char) (hs : _skipComma path = d :: r) (hd : isalpha d = true)
    (cmd cmd1 : Char) (arr : List F) (count count1 : Nat) :
    _nextCommand path cmd arr count = _nextCommand path cmd1 arr count1 := by
  have hl : ∀ (k : Char) (n : Nat), commandLetter path k n = (r, d, _numberCount d) := by
    intro k n
    unfold commandLetter
    rw [hs]
    simp only [hd, if_true]
  unfold _nextCommand
  simp only [hl]


theorem loopStep_congr_letter {F : Type} [LinearOrderedField F] [FloorRing F] (m : Libm F)
    (st st1 : LoopState F) (d : Char) (r : List Char) (hp : st1.path = st.path)
    (ho : st1.out = st.out) (harr : st1.numberArray = st.numberArray)
    (hs : _skipComma st.path = d :: r) (hd : isalpha d = true) :
    loopStep m st1 = loopStep m st := by
  unfold loopStep
  rw [hp, ho, harr,
    nextCommand_of_letter st.path d r hs hd st1.cmd st.cmd st.numberArray st1.numberCount
      st.numberCount]

/-- Claim C13 (unrecognized command letters are a no-op). For every letter
that is not one of `M m L l H h V v C c S s Q q T t A a Z z` (nor `E`, `e`):
`_nextCommand` consumes that one character and no argument (count 0, the
array untouched) and does not fail; `_processCommand` returns the state and
the array it was given; so one iteration of the loop only moves the cursor
past the letter, and when a command letter follows, the loop goes on exactly
as it does from the text without the unrecognized letter. -/
theorem unrecognized_letter_is_noop {F : Type} [LinearOrderedField F] [FloorRing F]
    (m : Libm F) (c : Char) (ha : isalpha c = true) (hc : c ∉ knownLetters) :
    (∀ (rest : List Char) (cmd : Char) (arr : List F) (count : Nat),
      _nextCommand (c :: rest) cmd arr count = some (rest, c, arr, 0)) ∧
    (∀ (st : PathState F) (arr : List F) (count : Nat),
      _processCommand m st c arr count = (st, arr)) ∧
    (∀ (st : LoopState F) (rest : List Char), st.path = c :: rest →
      loopStep m st = some { st with numberCount := 0, cmd := c, path := rest }) ∧
    (∀ (st : LoopState F) (rest : List Char) (d : Char) (r : List Char),
      st.path = c :: rest → _skipComma rest = d :: r → isalpha d = true →
      ∀ fuel, runLoop m (fuel + 1) st = runLoop m fuel { st with path := rest }) := by
  have h3 : ∀ (st : LoopState F) (rest : List Char), st.path = c :: rest →
      loopStep m st = some { st with numberCount := 0, cmd := c, path := rest } := by
    intro st rest hp
    have hn := nextCommand_unknown (F := F) c ha hc rest st.cmd st.numberArray st.numberCount
    rw [← hp] at hn
    rw [loopStep_eq m st (by rw [hp]; simp) _ _ _ _ hn, processCommand_unknown m st.out c hc]
  refine ⟨fun rest cmd arr count => nextCommand_unknown c ha hc rest cmd arr count,
    fun st arr count => processCommand_unknown m st c hc arr count, h3, ?_⟩
  intro st rest d r hp hs hd fuel
  rw [runLoop_succ_of_step m st _ (h3 st rest hp)]
  cases fuel with
  | zero => rfl
  | succ k =>
    have e : loopStep m { st with numberCount := 0, cmd := c, path := rest }
        = loopStep m { st with path := rest } :=
      loopStep_congr_letter m { st with path := rest }
        { st with numberCount := 0, cmd := c, path := rest } d r rfl rfl rfl hs hd
    simp only [runLoop, e]

/-- Witness for C13: `X` is unrecognized, and "X M0,0 L1,1" gives the output
of "M0,0 L1,1". -/
theorem unrecognized_letter_is_noop_witness :
    isalpha 'X' = true ∧ 'X' ∉ knownLetters ∧
    svgPathToTvgPath libmQ 4 "X M0,0 L1,1" = svgPathToTvgPath libmQ 3 "M0,0 L1,1" ∧
    svgPathToTvgPath libmQ 3 "M0,0 L1,1"
      = some ([PathCommand.MoveTo, PathCommand.LineTo], [⟨0, 0⟩, ⟨1, 1⟩]) ∧
    runLoop libmQ (3 + 1) (initState "X M0,0 L1,1".toList)
      = runLoop libmQ 3 { (initState "X M0,0 L1,1".toList : LoopState ℚ) with
          path := " M0,0 L1,1".toList } :=
  ⟨by decide, by decide, by decide!, by decide!,
    (unrecognized_letter_is_noop libmQ 'X' (by decide) (by decide)).2.2.2
      (initState "X M0,0 L1,1".toList) " M0,0 L1,1".toList 'M' "0,0 L1,1".toList
      (by decide) (by decide) (by decide) 3⟩


/-! ### C14: arc flags -/

theorem parseLong_flag (s : List Char) (v : Int) (r : List Char)
    (h : _parseLong s = some (v, r)) : v = 0 ∨ v = 1 := by
  unfold _parseLong at h
  split at h
  · simp at h
  · next number e _ =>
    simp only [Option.some.injEq, Prod.mk.injEq] at h
    rw [← h.1]
    by_cases hz : number ≠ 0
    · right; simp [hz]
    · left; simp [hz]

/-- A successful arc branch of `_nextCommand` is a chain of seven token
reads: three numbers, two flags, two numbers. -/
theorem parseArcArgs_some {F : Type} [LinearOrderedField F] (path : List Char)
    (p : List Char) (b0 b1 b2 b3 b4 b5 b6 : F) (a : List F)
    (h : parseArcArgs path [b0, b1, b2, b3, b4, b5, b6] = some (p, a)) :
    ∃ (a0 a1 a2 a5 a6 : F) (large sweep : Int) (p0 p1 p2 p3 p4 p5 : List Char),
      _parseNumber path = some (a0, p0) ∧ _parseNumber p0 = some (a1, p1) ∧
      _parseNumber p1 = some (a2, p2) ∧ _parseLong p2 = some (large, p3) ∧
      _parseLong p3 = some (sweep, p4) ∧ _parseNumber p4 = some (a5, p5) ∧
      _parseNumber p5 = some (a6, p) ∧
      a = [a0, a1, a2, (large : F), (sweep : F), a5, a6] := by
  unfold parseArcArgs at h
  cases h0 : _parseNumber (F := F) path with
  | none => simp [h0] at h
  | some r0 =>
  cases h1 : _parseNumber (F := F) r0.2 with
  | none => simp [h0, h1] at h
  | some r1 =>
  cases h2 : _parseNumber (F := F) r1.2 with
  | none => simp [h0, h1, h2] at h
  | some r2 =>
  cases h3 : _parseLong r2.2 with
  | none => simp [h0, h1, h2, h3] at h
  | some r3 =>
  cases h4 : _parseLong r3.2 with
  | none => simp [h0, h1, h2, h3, h4] at h
  | some r4 =>
  cases h5 : _parseNumber (F := F) r4.2 with
  | none => simp [h0, h1, h2, h3, h4, h5] at h
  | some r5 =>
  cases h6 : _parseNumber (F := F) r5.2 with
  | none => simp [h0, h1, h2, h3, h4, h5, h6] at h
  | some r6 =>
    simp only [h0, h1, h2, h3, h4, h5, h6, Option.some.injEq, Prod.mk.injEq] at h
    refine ⟨r0.1, r1.1, r2.1, r5.1, r6.1, r3.1, r4.1, r0.2, r1.2, r2.2, r3.2, r4.2, r5.2,
      rfl, h1, h2, h3, h4, h5, ?_, ?_⟩
    · rw [h6, ← h.1]
    · rw [← h.2]
      simp

/-- An integer token is the whole run of digits: `strtol` reads all of them,
and `_parseLong` gives 1 unless their value is 0. -/
theorem parseLong_digits (ds rest : List Char) (hne : ds ≠ []) (hd : ds.all isdigit = true)
    (hr : ∀ c r, rest = c :: r → isdigit c = false) :
    _parseLong (ds ++ rest)
      = some ((if decimalValue ds ≠ 0 then 1 else 0), _skipComma rest) := by
  obtain ⟨d, t, e⟩ : ∃ d t, ds = d :: t := by
    cases ds with
    | nil => exact absurd rfl hne
    | cons d t => exact ⟨d, t, rfl⟩
  have hdd : isdigit d = true := by
    rw [e] at hd
    simp only [List.all_cons, Bool.and_eq_true] at hd
    exact hd.1
  have htw := takeWhile_digits ds rest hd hr
  have hsign : scanSign ((ds ++ rest).dropWhile isspace) = (false, ds ++ rest) := by
    rw [e, List.cons_append,
      List.dropWhile_cons_of_neg (by simp [isdigit_not_space d hdd])]
    exact scanSign_digit d _ hdd
  unfold _parseLong strtol
  simp only [hsign, htw.1, htw.2, if_neg hne, Bool.false_eq_true, if_false]
  by_cases hz : decimalValue ds = 0
  · simp [hz]
  · have : (decimalValue ds : Int) ≠ 0 := by exact_mod_cast hz
    simp [hz, this]


/-- Claim C14 as the code has it (arc flags). In the seven-argument arc
grammar the radii, the angle and the endpoint are read by `_parseNumber` and
the two flags by `_parseLong`, which gives 0 or 1, so the values stored in
the slots 3 and 4 are always 0 or 1. A flag token is not one digit but a
whole integer: `strtol` reads the complete run of digits, and the flag is 1
unless the value of the run is 0. So in "M0,0 A5,5 0 01 10,10" the run "01"
is the large-arc flag 1, "10" is the sweep flag 1, the second "10" is the
endpoint x, nothing is left for the endpoint y, and the result is the
`MoveTo` alone. -/
theorem arc_flags_rule {F : Type} [LinearOrderedField F] :
    (∀ (s : List Char) (v : Int) (r : List Char), _parseLong s = some (v, r) → v = 0 ∨ v = 1) ∧
    (∀ (path p : List Char) (b0 b1 b2 b3 b4 b5 b6 : F) (a : List F),
      parseArcArgs path [b0, b1, b2, b3, b4, b5, b6] = some (p, a) →
      (argAt a 3 = 0 ∨ argAt a 3 = 1) ∧ (argAt a 4 = 0 ∨ argAt a 4 = 1) ∧
      ∃ (a0 a1 a2 a5 a6 : F) (large sweep : Int) (p0 p1 p2 p3 p4 p5 : List Char),
        _parseNumber path = some (a0, p0) ∧ _parseNumber p0 = some (a1, p1) ∧
        _parseNumber p1 = some (a2, p2) ∧ _parseLong p2 = some (large, p3) ∧
        _parseLong p3 = some (sweep, p4) ∧ _parseNumber p4 = some (a5, p5) ∧
        _parseNumber p5 = some (a6, p) ∧
        a = [a0, a1, a2, (large : F), (sweep : F), a5, a6]) ∧
    (∀ (ds rest : List Char), ds ≠ [] → ds.all isdigit = true →
      (∀ c r, rest = c :: r → isdigit c = false) →
      _parseLong (ds ++ rest)
        = some ((if decimalValue ds ≠ 0 then 1 else 0), _skipComma rest)) ∧
    (_parseLong "01 10,10".toList = some (1, "10,10".toList) ∧
      _parseLong "10,10".toList = some (1, "10".toList) ∧
      _parseNumber (F := ℚ) "10".toList = some (10, []) ∧
      _parseNumber (F := ℚ) [] = none ∧
      parseArcArgs (F := ℚ) "5,5 0 01 10,10".toList [0, 0, 0, 0, 0, 0, 0] = none ∧
      ∀ m : Libm ℚ, svgPathToTvgPath m 3 "M0,0 A5,5 0 01 10,10"
        = some ([PathCommand.MoveTo], [⟨0, 0⟩])) := by
  refine ⟨parseLong_flag, ?_, parseLong_digits,
    by decide, by decide, by decide!, by decide!, by decide!, fun m => ?_⟩
  · intro path p b0 b1 b2 b3 b4 b5 b6 a h
    obtain ⟨a0, a1, a2, a5, a6, large, sweep, p0, p1, p2, p3, p4, p5, h0, h1, h2, h3, h4, h5,
      h6, ha⟩ := parseArcArgs_some path p b0 b1 b2 b3 b4 b5 b6 a h
    refine ⟨?_, ?_, a0, a1, a2, a5, a6, large, sweep, p0, p1, p2, p3, p4, p5, h0, h1, h2, h3,
      h4, h5, h6, ha⟩
    · rw [ha]
      rcases parseLong_flag p2 large p3 h3 with e | e <;> simp [argAt, e]
    · rw [ha]
      rcases parseLong_flag p3 sweep p4 h4 with e | e <;> simp [argAt, e]
  · have h1 : loopStep m (initState "M0,0 A5,5 0 01 10,10".toList)
        = some { out := { cmds := [PathCommand.MoveTo], pts := [⟨0, 0⟩], cur := ⟨0, 0⟩,
                          curCtl := ⟨0, 0⟩, isQuadratic := false }
                 numberArray := [0, 0, 0, 0, 0, 0, 0], numberCount := 2, cmd := 'M'
                 path := "A5,5 0 01 10,10".toList } := by
      rw [loopStep_eq m _ (by decide) "A5,5 0 01 10,10".toList 'M'
        [0, 0, 0, 0, 0, 0, 0] 2 (by decide!)]
      simp [_processCommand, makeAbsolute, emitCommand, argAt, initState]
    have h2 : loopStep m
        { out := { cmds := [PathCommand.MoveTo], pts := [⟨0, 0⟩], cur := ⟨0, 0⟩,
                   curCtl := ⟨0, 0⟩, isQuadratic := false }
          numberArray := [0, 0, 0, 0, 0, 0, 0], numberCount := 2, cmd := 'M'
          path := "A5,5 0 01 10,10".toList } = none := by
      have hn : _nextCommand (F := ℚ) "A5,5 0 01 10,10".toList 'M' [0, 0, 0, 0, 0, 0, 0] 2
          = none := by decide!
      simp only [loopStep, hn]
      rfl
    unfold svgPathToTvgPath
    rw [runLoop_succ_of_step m _ _ h1, runLoop_succ_of_none m _ h2]

/-- Witness for C14: with separated flags, "5,5 0 0 1 10,10" is read as the
radii 5, 5, the angle 0, the flags 0 and 1 and the endpoint (10,10); the
digit run "01" before a blank is one flag token with the value 1. A flag
token also ends at a sign: "5,5 0 0 1-10,10" and "5,5 0 0+1 10,10" are read
as seven arguments. -/
theorem arc_flags_rule_witness :
    parseArcArgs (F := ℚ) "5,5 0 0 1 10,10".toList [0, 0, 0, 0, 0, 0, 0]
      = some ([], [5, 5, 0, 0, 1, 10, 10]) ∧
    (argAt ([5, 5, 0, 0, 1, 10, 10] : List ℚ) 3 = 0 ∨
      argAt ([5, 5, 0, 0, 1, 10, 10] : List ℚ) 3 = 1) ∧
    _parseLong (['0', '1'] ++ " 10,10".toList)
      = some ((if decimalValue ['0', '1'] ≠ 0 then 1 else 0), _skipComma " 10,10".toList) ∧
    parseArcArgs (F := ℚ) "5,5 0 0 1-10,10".toList [0, 0, 0, 0, 0, 0, 0]
      = some ([], [5, 5, 0, 0, 1, -10, 10]) ∧
    parseArcArgs (F := ℚ) "5,5 0 0+1 10,10".toList [0, 0, 0, 0, 0, 0, 0]
      = some ([], [5, 5, 0, 0, 1, 10, 10]) :=
  ⟨by decide!,
    ((arc_flags_rule (F := ℚ)).2.1 "5,5 0 0 1 10,10".toList [] 0 0 0 0 0 0 0
      [5, 5, 0, 0, 1, 10, 10] (by decide!)).1,
    (arc_flags_rule (F := ℚ)).2.2.1 ['0', '1'] " 10,10".toList (by decide) (by decide)
      (by intro c r e; simp only [String.toList, List.cons.injEq] at e; rw [← e.1]; rfl),
    by decide!, by decide!⟩

/-- Counterexample to C14 as stated: in "M0,0 A5,5 0 01 10,10" the flags
are not decoded as 0 and 1 with the endpoint (10,10). The run "01" is read as
one token (large-arc flag 1), "10" is read as the sweep flag (1), the second
"10" as the endpoint x, and nothing is left for the endpoint y: the arc
fails to parse and only the `MoveTo` is returned. -/
theorem arc_flags_without_separator_fail :
    _parseLong "01 10,10".toList = some (1, "10,10".toList) ∧
    _parseLong "10,10".toList = some (1, "10".toList) ∧
    _parseNumber (F := ℚ) "10".toList = some (10, []) ∧
    _parseNumber (F := ℚ) [] = none ∧
    _nextCommand (F := ℚ) "A5,5 0 01 10,10".toList 'M' [0, 0, 0, 0, 0, 0, 0] 2 = none ∧
    svgPathToTvgPath libmQ 3 "M0,0 A5,5 0 01 10,10"
      = some ([PathCommand.MoveTo], [⟨0, 0⟩]) := by
  refine ⟨by decide, by decide, by decide!, by decide!, by decide!, by decide!⟩


/-! ### C15: separators -/

/-- Claim C15 fails on the code for the commands other than the arc. The
loop of `_nextCommand` calls `_skipComma` once more after `_parseNumber` has
called it, so two commas between two arguments are skipped: "M0,,0" parses
as a moveto to (0,0), and only a third comma makes it fail. The arc branch
calls it once: there a second comma makes the command fail. The comma is
optional: "M0 0" and "M0,0" give the same output. -/
theorem double_comma_is_skipped :
    (∀ rest : List Char, _skipComma (',' :: ',' :: rest) = ',' :: rest) ∧
    (∀ rest : List Char, _skipComma (_skipComma (',' :: ',' :: rest)) = rest) ∧
    _nextCommand (F := ℚ) "M0,,0".toList (Char.ofNat 0) [0, 0, 0, 0, 0, 0, 0] 0
      = some ([], 'M', [0, 0, 0, 0, 0, 0, 0], 2) ∧
    svgPathToTvgPath libmQ 2 "M0,,0" = some ([PathCommand.MoveTo], [⟨0, 0⟩]) ∧
    svgPathToTvgPath libmQ 2 "M1,,2" = some ([PathCommand.MoveTo], [⟨1, 2⟩]) ∧
    svgPathToTvgPath libmQ 2 "M1,,,2" = some ([], []) ∧
    parseArcArgs (F := ℚ) "5,5 0 0 1 10,10".toList [0, 0, 0, 0, 0, 0, 0]
      = some ([], [5, 5, 0, 0, 1, 10, 10]) ∧
    parseArcArgs (F := ℚ) "5,,5 0 0 1 10,10".toList [0, 0, 0, 0, 0, 0, 0] = none ∧
    svgPathToTvgPath libmQ 2 "M1 2" = svgPathToTvgPath libmQ 2 "M1,2" ∧
    svgPathToTvgPath libmQ 2 "M1,2" = some ([PathCommand.MoveTo], [⟨1, 2⟩]) := by
  refine ⟨fun rest => skipComma_comma _, fun rest => ?_, by decide!, by decide!, by decide!,
    by decide!, by decide!, by decide!, by decide!, by decide!⟩
  rw [skipComma_comma, skipComma_comma]

/-! ### C20: one Close per Z -/

/-- Claim C20 fails on the code. After a final `Z` that is followed by white
space the loop runs once more: `_nextCommand` finds no letter, repeats `Z`
with its count 0 and succeeds, and `_processCommand` appends a second
`Close`. So "M0,0 Z " and "M0,0 Z" with a newline give two `Close` for one
`Z`, where "M0,0 Z" gives one. After a command with arguments a trailing
blank is skipped together with the last argument and adds nothing. -/
theorem trailing_space_repeats_close :
    _nextCommand (F := ℚ) [' '] 'Z' [0, 0, 0, 0, 0, 0, 0] 0
      = some ([], 'Z', [0, 0, 0, 0, 0, 0, 0], 0) ∧
    svgPathToTvgPath libmQ 3 "M0,0 Z"
      = some ([PathCommand.MoveTo, PathCommand.Close], [⟨0, 0⟩]) ∧
    svgPathToTvgPath libmQ 4 "M0,0 Z "
      = some ([PathCommand.MoveTo, PathCommand.Close, PathCommand.Close], [⟨0, 0⟩]) ∧
    svgPathToTvgPath libmQ 4 "M0,0 Z\n"
      = some ([PathCommand.MoveTo, PathCommand.Close, PathCommand.Close], [⟨0, 0⟩]) ∧
    svgPathToTvgPath libmQ 3 "M0,0 L1,1 "
      = some ([PathCommand.MoveTo, PathCommand.LineTo], [⟨0, 0⟩, ⟨1, 1⟩]) ∧
    svgPathToTvgPath libmQ 3 "M0,0 L1,1"
      = some ([PathCommand.MoveTo, PathCommand.LineTo], [⟨0, 0⟩, ⟨1, 1⟩]) := by
  refine ⟨by decide!, by decide!, by decide!, by decide!, by decide!, by decide!⟩


/-! ### C16 to C19: the arc conversion -/

theorem arcToCubics_staged {F : Type} [LinearOrderedField F] [FloorRing F] (m : Libm F)
    (st : PathState F) (x y rx ry angle : F) (largeArc sweep : Bool) :
    arcToCubics m st x y rx ry angle largeArc sweep
      = arcToCubicsStaged m st x y rx ry angle largeArc sweep := rfl


theorem arcLoop_count {F : Type} [LinearOrderedField F] (m : Libm F)
    (bcp cosPhiRx cosPhiRy sinPhiRx sinPhiRy cx cy delta : F) (n : Nat) :
    ∀ (sx sy theta1 cosTheta1 sinTheta1 : F) (st : PathState F),
      (arcLoop m bcp cosPhiRx cosPhiRy sinPhiRx sinPhiRy cx cy delta n sx sy
          theta1 cosTheta1 sinTheta1 st).cmds
        = st.cmds ++ List.replicate n PathCommand.CubicTo ∧
      (arcLoop m bcp cosPhiRx cosPhiRy sinPhiRx sinPhiRy cx cy delta n sx sy
          theta1 cosTheta1 sinTheta1 st).pts.length = st.pts.length + 3 * n := by
  induction n with
  | zero => intro sx sy theta1 cosTheta1 sinTheta1 st; simp [arcLoop]
  | succ n ih =>
    intro sx sy theta1 cosTheta1 sinTheta1 st
    simp only [arcLoop]
    obtain ⟨h1, h2⟩ := ih (cx + (cosPhiRx * m.cos (theta1 + delta)
        - sinPhiRy * m.sin (theta1 + delta)))
      (cy + (sinPhiRx * m.cos (theta1 + delta) + cosPhiRy * m.sin (theta1 + delta)))
      (theta1 + delta) (m.cos (theta1 + delta)) (m.sin (theta1 + delta))
      { st with
        cmds := st.cmds ++ [PathCommand.CubicTo]
        pts := st.pts ++
          [⟨sx - bcp * (cosPhiRx * sinTheta1 + sinPhiRy * cosTheta1),
             sy + bcp * (cosPhiRy * cosTheta1 - sinPhiRx * sinTheta1)⟩,
           ⟨cx + (cosPhiRx * m.cos (theta1 + delta) - sinPhiRy * m.sin (theta1 + delta))
               + bcp * (cosPhiRx * m.sin (theta1 + delta) + sinPhiRy * m.cos (theta1 + delta)),
             cy + (sinPhiRx * m.cos (theta1 + delta) + cosPhiRy * m.sin (theta1 + delta))
               + bcp * (sinPhiRx * m.sin (theta1 + delta) - cosPhiRy * m.cos (theta1 + delta))⟩,
           ⟨cx + (cosPhiRx * m.cos (theta1 + delta) - sinPhiRy * m.sin (theta1 + delta)),
             cy + (sinPhiRx * m.cos (theta1 + delta) + cosPhiRy * m.sin (theta1 + delta))⟩]
        curCtl := ⟨cx + (cosPhiRx * m.cos (theta1 + delta) - sinPhiRy * m.sin (theta1 + delta))
               + bcp * (cosPhiRx * m.sin (theta1 + delta) + sinPhiRy * m.cos (theta1 + delta)),
             cy + (sinPhiRx * m.cos (theta1 + delta) + cosPhiRy * m.sin (theta1 + delta))
               + bcp * (sinPhiRx * m.sin (theta1 + delta) - cosPhiRy * m.cos (theta1 + delta))⟩
        cur := ⟨cx + (cosPhiRx * m.cos (theta1 + delta) - sinPhiRy * m.sin (theta1 + delta)),
             cy + (sinPhiRx * m.cos (theta1 + delta) + cosPhiRy * m.sin (theta1 + delta))⟩ }
    constructor
    · rw [h1]
      simp [List.replicate_succ]
    · rw [h2]
      simp only [List.length_append, List.length_cons, List.length_nil]
      omega

theorem arcSegments_bound {F : Type} [LinearOrderedField F] [FloorRing F] (m : Libm F)
    (hpi : 0 < m.M_PI) (d : F) :
    1 ≤ arcSegments m d ∧ |d| / (arcSegments m d : F) < M_PI_2 m := by
  have hh : 0 < M_PI_2 m := by
    unfold M_PI_2
    positivity
  have hn : (0 : F) < (arcSegments m d : F) := by
    unfold arcSegments
    positivity
  refine ⟨by unfold arcSegments; omega, ?_⟩
  rw [div_lt_iff₀ hn]
  have h1 : |d / M_PI_2 m| < (arcSegments m d : F) := by
    unfold arcSegments
    push_cast
    exact Nat.lt_floor_add_one _
  rw [abs_div, abs_of_pos hh, div_lt_iff₀ hh] at h1
  linarith [mul_comm (M_PI_2 m) (arcSegments m d : F)]

theorem arcSegments_full_turn {F : Type} [LinearOrderedField F] [FloorRing F] (m : Libm F)
    (hpi : 0 < m.M_PI) (d : F) (hd : 2 * m.M_PI ≤ |d|) : 4 ≤ arcSegments m d := by
  have hh : 0 < M_PI_2 m := by
    unfold M_PI_2
    positivity
  have h4 : (4 : F) ≤ |d / M_PI_2 m| := by
    rw [abs_div, abs_of_pos hh, le_div_iff₀ hh]
    unfold M_PI_2
    linarith
  have : 4 ≤ ⌊|d / M_PI_2 m|⌋₊ := Nat.le_floor (by exact_mod_cast h4)
  unfold arcSegments
  omega


theorem arcToCubics_count {F : Type} [LinearOrderedField F] [FloorRing F] (m : Libm F)
    (st : PathState F) (x y rx ry angle : F) (largeArc sweep : Bool) :
    (arcToCubics m st x y rx ry angle largeArc sweep).cmds
      = st.cmds ++ List.replicate
          (arcSegments m (arcSweep m st.cur x y rx ry angle largeArc sweep))
          PathCommand.CubicTo ∧
    (arcToCubics m st x y rx ry angle largeArc sweep).pts.length
      = st.pts.length + 3 * arcSegments m (arcSweep m st.cur x y rx ry angle largeArc sweep) := by
  rw [arcToCubics_staged]
  exact arcLoop_count m _ _ _ _ _ _ _ _ _ _ _ _ _ _ st

/-- Claim C16 (every arc segment is strictly below a quarter turn), for every
libm with `M_PI > 0`. For every sweep `d` the segment count
`n = floor(|d| / (M_PI / 2)) + 1` satisfies `n >= 1` and `|d| / n < M_PI / 2`
(strictly, also for exact multiples), and `n >= 4` when `|d| >= 2 * M_PI`.
The loop appends exactly `n` `CubicTo` and `3 * n` points, where `d` is the
sweep that `_pathAppendArcTo` computed: for the conversion after the two
early returns, and for `_pathAppendArcTo` whenever these are not taken. -/
theorem arc_segments_below_quarter_turn {F : Type} [LinearOrderedField F] [FloorRing F]
    (m : Libm F) (hpi : 0 < m.M_PI) :
    (∀ d : F, 1 ≤ arcSegments m d ∧ |d| / (arcSegments m d : F) < m.M_PI / 2) ∧
    (∀ d : F, 2 * m.M_PI ≤ |d| → 4 ≤ arcSegments m d) ∧
    (∀ (st : PathState F) (x y rx ry angle : F) (largeArc sweep : Bool),
      (arcToCubics m st x y rx ry angle largeArc sweep).cmds
        = st.cmds ++ List.replicate
            (arcSegments m (arcSweep m st.cur x y rx ry angle largeArc sweep))
            PathCommand.CubicTo ∧
      (arcToCubics m st x y rx ry angle largeArc sweep).pts.length
        = st.pts.length
          + 3 * arcSegments m (arcSweep m st.cur x y rx ry angle largeArc sweep)) ∧
    (∀ (st : PathState F) (x y rx ry angle : F) (largeArc sweep : Bool),
      (1 / 256 ≤ |x - st.cur.x| ∨ 1 / 256 ≤ |y - st.cur.y|) →
      1 / 2 ≤ |rx| → 1 / 2 ≤ |ry| →
      (_pathAppendArcTo m st x y rx ry angle largeArc sweep).cmds
        = st.cmds ++ List.replicate
            (arcSegments m (arcSweep m st.cur x y |rx| |ry| angle largeArc sweep))
            PathCommand.CubicTo ∧
      (_pathAppendArcTo m st x y rx ry angle largeArc sweep).pts.length
        = st.pts.length
          + 3 * arcSegments m (arcSweep m st.cur x y |rx| |ry| angle largeArc sweep)) := by
  refine ⟨fun d => arcSegments_bound m hpi d, fun d hd => arcSegments_full_turn m hpi d hd,
    fun st x y rx ry angle largeArc sweep =>
      arcToCubics_count m st x y rx ry angle largeArc sweep, ?_⟩
  intro st x y rx ry angle largeArc sweep hd hrx hry
  have hn : ¬ (|x - st.cur.x| < 1 / 256 ∧ |y - st.cur.y| < 1 / 256) := by
    rintro ⟨hx, hy⟩
    rcases hd with hd | hd
    · exact absurd hx (not_lt.2 hd)
    · exact absurd hy (not_lt.2 hd)
  have hr : ¬ (|rx| < 1 / 2 ∨ |ry| < 1 / 2) := by
    rintro (h | h)
    · exact absurd h (not_lt.2 hrx)
    · exact absurd h (not_lt.2 hry)
  unfold _pathAppendArcTo
  rw [if_neg hn, if_neg hr]
  exact arcToCubics_count m st x y |rx| |ry| angle largeArc sweep

/-- Witness for C16: with the rational libm, a sweep of exactly `M_PI` (two
quarter turns) is cut into 3 segments, and the half circle of
"M0,0 A5,5 0 0 1 10,0" gives three `CubicTo` with nine points. -/
theorem arc_segments_below_quarter_turn_witness :
    0 < libmQ.M_PI ∧
    arcSegments libmQ libmQ.M_PI = 3 ∧
    (1 ≤ arcSegments libmQ libmQ.M_PI ∧
      |libmQ.M_PI| / (arcSegments libmQ libmQ.M_PI : ℚ) < libmQ.M_PI / 2) ∧
    (svgPathToTvgPath libmQ 3 "M0,0 A5,5 0 0 1 10,0").map (fun r => (r.1, r.2.length))
      = some ([PathCommand.MoveTo, PathCommand.CubicTo, PathCommand.CubicTo,
          PathCommand.CubicTo], 10) :=
  ⟨by decide!, by decide!,
    (arc_segments_below_quarter_turn libmQ (by decide!)).1 libmQ.M_PI, by decide!⟩


theorem arcDeltaTheta_range {F : Type} [LinearOrderedField F] (m : Libm F) (a nat : F)
    (ha1 : -m.M_PI < a) (ha2 : a ≤ m.M_PI) (hn1 : -m.M_PI < nat) (hn2 : nat ≤ m.M_PI) :
    (0 ≤ arcDeltaTheta m true a nat ∧ arcDeltaTheta m true a nat < 2 * m.M_PI) ∧
    (-(2 * m.M_PI) < arcDeltaTheta m false a nat ∧ arcDeltaTheta m false a nat ≤ 0) := by
  unfold arcDeltaTheta
  simp only [if_true, Bool.false_eq_true, if_false]
  refine ⟨⟨?_, ?_⟩, ⟨?_, ?_⟩⟩ <;> split_ifs <;> linarith

theorem arcSegments_le_four {F : Type} [LinearOrderedField F] [FloorRing F] (m : Libm F)
    (hpi : 0 < m.M_PI) (d : F) (hd : |d| < 2 * m.M_PI) : arcSegments m d ≤ 4 := by
  have hh : 0 < M_PI_2 m := by
    unfold M_PI_2
    positivity
  have h4 : |d / M_PI_2 m| < ((4 : Nat) : F) := by
    rw [abs_div, abs_of_pos hh, div_lt_iff₀ hh]
    unfold M_PI_2
    push_cast
    linarith
  have : ⌊|d / M_PI_2 m|⌋₊ < 4 := (Nat.floor_lt (abs_nonneg _)).2 h4
  unfold arcSegments
  omega

theorem bitLen_lt : ∀ (fuel n : Nat), n ≤ fuel → n < 2 ^ bitLen fuel n := by
  intro fuel
  induction fuel with
  | zero =>
    intro n h
    have : n = 0 := by omega
    subst this
    simp [bitLen]
  | succ k ih =>
    intro n h
    unfold bitLen
    by_cases h0 : n = 0
    · simp [h0]
    · rw [if_neg h0]
      have := ih (n / 2) (by omega)
      rw [Nat.pow_succ]
      omega

theorem bitLen_zero (fuel : Nat) : bitLen fuel 0 = 0 := by
  cases fuel <;> simp [bitLen]

theorem bitLen_le : ∀ (fuel n : Nat), n ≤ fuel → n ≠ 0 → 2 ^ (bitLen fuel n - 1) ≤ n := by
  intro fuel
  induction fuel with
  | zero =>
    intro n h h0
    omega
  | succ k ih =>
    intro n h h0
    unfold bitLen
    rw [if_neg h0, Nat.add_sub_cancel]
    by_cases h1 : n / 2 = 0
    · rw [h1, bitLen_zero]
      simp
      omega
    · have h2 := ih (n / 2) (by omega) h1
      have h3 : bitLen k (n / 2) ≠ 0 := by
        intro e
        have := bitLen_lt k (n / 2) (by omega)
        rw [e] at this
        omega
      have h4 : bitLen k (n / 2) = (bitLen k (n / 2) - 1) + 1 := by omega
      rw [h4, Nat.pow_succ]
      omega

theorem pow2_eq (z : Int) : pow2 z = (2 : ℚ) ^ z := by
  unfold pow2
  split_ifs with h
  · obtain ⟨n, rfl⟩ := Int.eq_ofNat_of_zero_le h
    simp
  · push_neg at h
    obtain ⟨n, hn⟩ := Int.eq_ofNat_of_zero_le (show 0 ≤ -z by omega)
    have hz : z = -(n : Int) := by omega
    subst hz
    simp

theorem pow2_pos (z : Int) : 0 < pow2 z := by
  rw [pow2_eq]
  positivity

theorem binaryExponent_le (x : ℚ) (hx : 0 < x) : pow2 (binaryExponent x) ≤ x := by
  unfold binaryExponent
  split_ifs with h
  · exact h
  · have hnum : 0 < x.num := Rat.num_pos.2 hx
    have hna : x.num.natAbs ≠ 0 := by
      intro e
      have := Int.natAbs_eq_zero.1 e
      omega
    have h1 := bitLen_le x.num.natAbs x.num.natAbs le_rfl hna
    have h2 := bitLen_lt x.den x.den le_rfl
    have ha : bitLen x.num.natAbs x.num.natAbs ≠ 0 := by
      intro e
      have := bitLen_lt x.num.natAbs x.num.natAbs le_rfl
      rw [e] at this
      omega
    have hxe : (x.num.natAbs : ℚ) / (x.den : ℚ) = x := by
      have hc : ((x.num.natAbs : Nat) : ℚ) = (x.num : ℚ) := by
        rw [Nat.cast_natAbs, abs_of_pos hnum]
      rw [hc]
      exact Rat.num_div_den x
    have he : ((bitLen x.num.natAbs x.num.natAbs : Int) - (bitLen x.den x.den : Int) - 1)
        = ((bitLen x.num.natAbs x.num.natAbs - 1 : Nat) : Int) - (bitLen x.den x.den : Int) := by
      omega
    rw [pow2_eq, he, zpow_sub₀ (by norm_num), zpow_natCast, zpow_natCast]
    have hden : (0 : ℚ) < (x.den : ℚ) := by exact_mod_cast x.den_pos
    have h1q : ((2 : ℚ) ^ (bitLen x.num.natAbs x.num.natAbs - 1)) ≤ (x.num.natAbs : ℚ) := by
      exact_mod_cast h1
    have h2q : (x.den : ℚ) ≤ (2 : ℚ) ^ bitLen x.den x.den := by
      exact_mod_cast h2.le
    calc (2 : ℚ) ^ (bitLen x.num.natAbs x.num.natAbs - 1) / 2 ^ bitLen x.den x.den
        ≤ (x.num.natAbs : ℚ) / 2 ^ bitLen x.den x.den := by gcongr
      _ ≤ (x.num.natAbs : ℚ) / (x.den : ℚ) := by gcongr
      _ = x := hxe

theorem roundHalfEven_near (q : ℚ) : |(roundHalfEven q : ℚ) - q| ≤ 1 / 2 := by
  have h1 := Int.floor_le q
  have h2 := Int.lt_floor_add_one q
  unfold roundHalfEven
  rw [abs_le]
  split_ifs with ha hb hc
  · constructor <;> linarith
  · push_cast
    constructor <;> linarith
  · constructor <;> linarith
  · push_cast
    constructor <;> linarith

/-- Rounding to `p` binary digits changes a number by at most `2 ^ (-p)` of
its size. -/
theorem roundBinary_error (p : Nat) (x : ℚ) : |roundBinary p x - x| ≤ |x| / 2 ^ p := by
  unfold roundBinary
  split_ifs with h0
  · simp [h0]
  · have hx : 0 < |x| := abs_pos.2 h0
    have hu := pow2_pos (binaryExponent |x| - ((p : Int) - 1))
    have he := binaryExponent_le |x| hx
    have hn := roundHalfEven_near (x / pow2 (binaryExponent |x| - ((p : Int) - 1)))
    have hval : pow2 (binaryExponent |x| - ((p : Int) - 1))
        = pow2 (binaryExponent |x|) * 2 / 2 ^ p := by
      rw [pow2_eq, pow2_eq, zpow_sub₀ (by norm_num), zpow_sub₀ (by norm_num), zpow_natCast,
        zpow_one]
      field_simp
    set u := pow2 (binaryExponent |x| - ((p : Int) - 1)) with hudef
    have e1 : (roundHalfEven (x / u) : ℚ) * u - x = ((roundHalfEven (x / u) : ℚ) - x / u) * u := by
      field_simp
    rw [e1, abs_mul, abs_of_pos hu]
    have hp : (0 : ℚ) < 2 ^ p := by positivity
    calc |(roundHalfEven (x / u) : ℚ) - x / u| * u ≤ 1 / 2 * u := by gcongr
      _ = pow2 (binaryExponent |x|) / 2 ^ p := by rw [hval]; ring
      _ ≤ |x| / 2 ^ p := by gcongr

/-- The rounding error under a bound on the size. -/
theorem roundBinary_near (p : Nat) (x c : ℚ) (h : |x| ≤ c) :
    |roundBinary p x - x| ≤ c / 2 ^ p := by
  have hp : (0 : ℚ) < 2 ^ p := by positivity
  calc |roundBinary p x - x| ≤ |x| / 2 ^ p := roundBinary_error p x
    _ ≤ c / 2 ^ p := by gcongr

theorem roundBinary_nonneg (p : Nat) (x : ℚ) (h : 0 ≤ x) : 0 ≤ roundBinary p x := by
  have he := roundBinary_error p x
  rw [abs_of_nonneg h, abs_le] at he
  have hp : (1 : ℚ) ≤ 2 ^ p := one_le_pow₀ (by norm_num)
  have : x / 2 ^ p ≤ x := div_le_self h hp
  linarith

theorem roundBinary_nonpos (p : Nat) (x : ℚ) (h : x ≤ 0) : roundBinary p x ≤ 0 := by
  have he := roundBinary_error p x
  rw [abs_of_nonpos h, abs_le] at he
  have hp : (1 : ℚ) ≤ 2 ^ p := one_le_pow₀ (by norm_num)
  have : -x / 2 ^ p ≤ -x := div_le_self (by linarith) hp
  linarith

theorem binaryExponent_lt (x : ℚ) (hx : 0 < x) : x < pow2 (binaryExponent x + 1) := by
  unfold binaryExponent
  split_ifs with h
  · have hnum : 0 < x.num := Rat.num_pos.2 hx
    have h1 := bitLen_lt x.num.natAbs x.num.natAbs le_rfl
    have h2 := bitLen_le x.den x.den le_rfl x.den_nz
    have hb : bitLen x.den x.den ≠ 0 := by
      intro e
      have := bitLen_lt x.den x.den le_rfl
      rw [e] at this
      have := x.den_pos
      omega
    have hxe : (x.num.natAbs : ℚ) / (x.den : ℚ) = x := by
      have hc : ((x.num.natAbs : Nat) : ℚ) = (x.num : ℚ) := by
        rw [Nat.cast_natAbs, abs_of_pos hnum]
      rw [hc]
      exact Rat.num_div_den x
    have he : ((bitLen x.num.natAbs x.num.natAbs : Int) - (bitLen x.den x.den : Int) + 1)
        = (bitLen x.num.natAbs x.num.natAbs : Int) - ((bitLen x.den x.den - 1 : Nat) : Int) := by
      omega
    rw [pow2_eq, he, zpow_sub₀ (by norm_num), zpow_natCast, zpow_natCast]
    have hden : (0 : ℚ) < (x.den : ℚ) := by exact_mod_cast x.den_pos
    have h1q : (x.num.natAbs : ℚ) < (2 : ℚ) ^ bitLen x.num.natAbs x.num.natAbs := by
      exact_mod_cast h1
    have h2q : (2 : ℚ) ^ (bitLen x.den x.den - 1) ≤ (x.den : ℚ) := by
      exact_mod_cast h2
    have hpos : (0 : ℚ) < (2 : ℚ) ^ (bitLen x.den x.den - 1) := by positivity
    calc x = (x.num.natAbs : ℚ) / (x.den : ℚ) := hxe.symm
      _ ≤ (x.num.natAbs : ℚ) / 2 ^ (bitLen x.den x.den - 1) := by gcongr
      _ < (2 : ℚ) ^ bitLen x.num.natAbs x.num.natAbs / 2 ^ (bitLen x.den x.den - 1) := by
        gcongr
  · push_neg at h
    have e : (bitLen x.num.natAbs x.num.natAbs : Int) - (bitLen x.den x.den : Int) - 1 + 1
        = (bitLen x.num.natAbs x.num.natAbs : Int) - (bitLen x.den x.den : Int) := by ring
    rw [e]
    exact h

theorem roundHalfEven_bounds (q : ℚ) : ⌊q⌋ ≤ roundHalfEven q ∧ roundHalfEven q ≤ ⌊q⌋ + 1 := by
  unfold roundHalfEven
  split_ifs <;> constructor <;> omega

/-- The rounded number has at most `p` significant binary digits: it is an
integer of size at most `2 ^ p` times the unit in the last place of `x`. -/
theorem roundBinary_digits (p : Nat) (x : ℚ) :
    ∃ n : Int, |n| ≤ 2 ^ p ∧
      roundBinary p x = (n : ℚ) * pow2 (binaryExponent |x| - ((p : Int) - 1)) := by
  unfold roundBinary
  split_ifs with h0
  · exact ⟨0, by positivity, by simp⟩
  · refine ⟨_, ?_, rfl⟩
    have hx : 0 < |x| := abs_pos.2 h0
    have hu := pow2_pos (binaryExponent |x| - ((p : Int) - 1))
    have hlt := binaryExponent_lt |x| hx
    have hval : pow2 (binaryExponent |x| + 1)
        = 2 ^ p * pow2 (binaryExponent |x| - ((p : Int) - 1)) := by
      rw [pow2_eq, pow2_eq, zpow_sub₀ (by norm_num), zpow_sub₀ (by norm_num), zpow_natCast,
        zpow_one, zpow_add₀ (by norm_num), zpow_one]
      field_simp
    set u := pow2 (binaryExponent |x| - ((p : Int) - 1)) with hudef
    have hq : |x / u| < 2 ^ p := by
      rw [abs_div, abs_of_pos hu, div_lt_iff₀ hu, ← hval]
      exact hlt
    obtain ⟨hq1, hq2⟩ := abs_lt.1 hq
    obtain ⟨hb1, hb2⟩ := roundHalfEven_bounds (x / u)
    have hf1 : (-(2 ^ p : Int)) ≤ ⌊x / u⌋ := by
      rw [Int.le_floor]
      push_cast
      linarith
    have hf2 : ⌊x / u⌋ < (2 ^ p : Int) := by
      rw [Int.floor_lt]
      push_cast
      linarith
    rw [abs_le]
    constructor <;> omega

theorem toFloat_piQ : toFloat piQ = 13176795 / 4194304 := by decide!

/-- A rounded number under a bound on the size of the exact one. -/
theorem toDouble_near (x c : ℚ) (h1 : -c ≤ x) (h2 : x ≤ c) :
    x - c / 2 ^ 53 ≤ toDouble x ∧ toDouble x ≤ x + c / 2 ^ 53 := by
  have := abs_le.1 (roundBinary_near 53 x c (abs_le.2 ⟨h1, h2⟩))
  unfold toDouble
  constructor <;> linarith [this.1, this.2]

theorem toFloat_near (x c : ℚ) (h1 : -c ≤ x) (h2 : x ≤ c) :
    x - c / 2 ^ 24 ≤ toFloat x ∧ toFloat x ≤ x + c / 2 ^ 24 := by
  have := abs_le.1 (roundBinary_near 24 x c (abs_le.2 ⟨h1, h2⟩))
  unfold toFloat
  constructor <;> linarith [this.1, this.2]

/-- The sweep before the flag is looked at, for `float` angles up to
`float(M_PI)` in size. -/
theorem deltaTheta0Binary32_range (a nat : ℚ) (ha : |a| ≤ toFloat piQ)
    (hn : |nat| ≤ toFloat piQ) :
    -(1 / 2 ^ 20) ≤ deltaTheta0Binary32 a nat ∧
      deltaTheta0Binary32 a nat ≤ 2 * piQ + 10 / 2 ^ 24 := by
  rw [toFloat_piQ] at ha hn
  obtain ⟨ha1, ha2⟩ := abs_le.1 ha
  obtain ⟨hn1, hn2⟩ := abs_le.1 hn
  have hP1 : (884279719003555 / 281474976710656 : ℚ) ≤ piQ := le_of_eq rfl
  have hP2 : piQ ≤ (884279719003555 / 281474976710656 : ℚ) := le_of_eq rfl
  unfold deltaTheta0Binary32
  split_ifs with h
  · obtain ⟨h1a, h1b⟩ := toDouble_near (2 * piQ - a) 10 (by linarith) (by linarith)
    obtain ⟨h2a, h2b⟩ := toDouble_near (toDouble (2 * piQ - a) + nat) 14 (by linarith)
      (by linarith)
    obtain ⟨h3a, h3b⟩ := toFloat_near (toDouble (toDouble (2 * piQ - a) + nat)) 7
      (by linarith) (by linarith)
    constructor <;> linarith
  · push_neg at h
    obtain ⟨h1a, h1b⟩ := toFloat_near (nat - a) 7 (by linarith) (by linarith)
    have h0 : 0 ≤ toFloat (nat - a) := roundBinary_nonneg 24 _ (by linarith)
    constructor <;> linarith

/-- The sweep and the start angle with the rounding of the C types, for
`float` angles `at`, `nat` up to `float(M_PI)` in size: the bounds of the
exact computation hold up to `2 ^ (-20)`, and the number of segments is
between 1 and 5. -/
theorem deltaThetaBinary32_range (a nat : ℚ) (ha : |a| ≤ toFloat piQ)
    (hn : |nat| ≤ toFloat piQ) :
    (0 ≤ deltaThetaBinary32 true a nat ∧
      deltaThetaBinary32 true a nat ≤ 2 * piQ + 1 / 2 ^ 20) ∧
    (-(2 * piQ + 1 / 2 ^ 20) ≤ deltaThetaBinary32 false a nat ∧
      deltaThetaBinary32 false a nat ≤ 1 / 2 ^ 20) ∧
    (0 ≤ theta1Binary32 a ∧ theta1Binary32 a ≤ 2 * piQ + 1 / 2 ^ 20) ∧
    (∀ sweep : Bool, 1 ≤ segmentsBinary32 (deltaThetaBinary32 sweep a nat) ∧
      segmentsBinary32 (deltaThetaBinary32 sweep a nat) ≤ 5) := by
  obtain ⟨hd1, hd2⟩ := deltaTheta0Binary32_range a nat ha hn
  rw [toFloat_piQ] at ha hn
  obtain ⟨ha1, ha2⟩ := abs_le.1 ha
  have hP1 : (884279719003555 / 281474976710656 : ℚ) ≤ piQ := le_of_eq rfl
  have hP2 : piQ ≤ (884279719003555 / 281474976710656 : ℚ) := le_of_eq rfl
  have hT : 0 ≤ deltaThetaBinary32 true a nat ∧
      deltaThetaBinary32 true a nat ≤ 2 * piQ + 1 / 2 ^ 20 := by
    unfold deltaThetaBinary32
    rw [if_pos rfl]
    split_ifs with h
    · obtain ⟨h1a, h1b⟩ := toDouble_near (deltaTheta0Binary32 a nat + 2 * piQ) 7
        (by linarith) (by linarith)
      have h1p : 0 ≤ toDouble (deltaTheta0Binary32 a nat + 2 * piQ) :=
        roundBinary_nonneg 53 _ (by linarith)
      obtain ⟨h2a, h2b⟩ := toFloat_near (toDouble (deltaTheta0Binary32 a nat + 2 * piQ)) 7
        (by linarith) (by linarith)
      exact ⟨roundBinary_nonneg 24 _ h1p, by linarith⟩
    · push_neg at h
      exact ⟨h, by linarith⟩
  have hF : -(2 * piQ + 1 / 2 ^ 20) ≤ deltaThetaBinary32 false a nat ∧
      deltaThetaBinary32 false a nat ≤ 1 / 2 ^ 20 := by
    unfold deltaThetaBinary32
    rw [if_neg Bool.false_ne_true]
    split_ifs with h
    · obtain ⟨h1a, h1b⟩ := toDouble_near (deltaTheta0Binary32 a nat - 2 * piQ) 7
        (by linarith) (by linarith)
      obtain ⟨h2a, h2b⟩ := toFloat_near (toDouble (deltaTheta0Binary32 a nat - 2 * piQ)) 7
        (by linarith) (by linarith)
      refine ⟨by linarith, ?_⟩
      by_cases hs : deltaTheta0Binary32 a nat - 2 * piQ ≤ 0
      · have := roundBinary_nonpos 24 _ (roundBinary_nonpos 53 _ hs)
        unfold toFloat toDouble
        linarith
      · push_neg at hs
        obtain ⟨h3a, h3b⟩ := toDouble_near (deltaTheta0Binary32 a nat - 2 * piQ) (10 / 2 ^ 24)
          (by linarith) (by linarith)
        have h3p : 0 ≤ toDouble (deltaTheta0Binary32 a nat - 2 * piQ) :=
          roundBinary_nonneg 53 _ hs.le
        have hc : (10 / 2 ^ 24 : ℚ) / 2 ^ 53 ≤ 1 / 2 ^ 24 := by norm_num
        obtain ⟨h4a, h4b⟩ := toFloat_near (toDouble (deltaTheta0Binary32 a nat - 2 * piQ))
          (11 / 2 ^ 24) (by linarith) (by linarith)
        have hc2 : (11 / 2 ^ 24 : ℚ) / 2 ^ 24 ≤ 1 / 2 ^ 24 := by norm_num
        linarith
    · push_neg at h
      exact ⟨by linarith, by linarith⟩
  have hTh : 0 ≤ theta1Binary32 a ∧ theta1Binary32 a ≤ 2 * piQ + 1 / 2 ^ 20 := by
    unfold theta1Binary32
    split_ifs with h
    · obtain ⟨h1a, h1b⟩ := toDouble_near (2 * piQ + a) 7 (by linarith) (by linarith)
      have h1p : 0 ≤ toDouble (2 * piQ + a) := roundBinary_nonneg 53 _ (by linarith)
      obtain ⟨h2a, h2b⟩ := toFloat_near (toDouble (2 * piQ + a)) 7 (by linarith) (by linarith)
      exact ⟨roundBinary_nonneg 24 _ h1p, by linarith⟩
    · push_neg at h
      exact ⟨h, by linarith⟩
  refine ⟨hT, hF, hTh, fun sweep => ⟨by unfold segmentsBinary32; omega, ?_⟩⟩
  have hD : -(2 * piQ + 1 / 2 ^ 20) ≤ deltaThetaBinary32 sweep a nat ∧
      deltaThetaBinary32 sweep a nat ≤ 2 * piQ + 1 / 2 ^ 20 := by
    cases sweep with
    | true => exact ⟨by linarith [hT.1], hT.2⟩
    | false => exact ⟨hF.1, by linarith [hF.2]⟩
  have hh : (0 : ℚ) < piQ / 2 := by linarith
  have hq1 : -(9 / 2) ≤ deltaThetaBinary32 sweep a nat / (piQ / 2) := by
    rw [le_div_iff₀ hh]
    linarith [hD.1]
  have hq2 : deltaThetaBinary32 sweep a nat / (piQ / 2) ≤ 9 / 2 := by
    rw [div_le_iff₀ hh]
    linarith [hD.2]
  obtain ⟨hr1, hr2⟩ := toDouble_near _ _ hq1 hq2
  have h5 : |toDouble (deltaThetaBinary32 sweep a nat / (piQ / 2))| < ((5 : Nat) : ℚ) := by
    rw [abs_lt]
    push_cast
    constructor <;> linarith
  have : ⌊|toDouble (deltaThetaBinary32 sweep a nat / (piQ / 2))|⌋₊ < 5 :=
    (Nat.floor_lt (abs_nonneg _)).2 h5
  unfold segmentsBinary32
  omega

/-- Claim C17 as the code has it (sweep normalization). In exact arithmetic,
for every libm with `M_PI > 0` and all `atan2` results `a`, `nat` in
`(-M_PI, M_PI]`: the sweep is in `[0, 2 M_PI)` when the sweep flag is set and
in `(-2 M_PI, 0]` when it is not, the start angle is in `[0, 2 M_PI)`, so
`|deltaTheta| < 2 M_PI` and the segment count is between 1 and 4; hence
`arcToCubics`, when its two `atan2` results are in that range, appends
between one and four `CubicTo`. With the rounding of the C types (`float`
variables, sums with the `double` constant `2.0f * M_PI`), for all angles up
to `float(M_PI)` in size: the sweep is in `[0, 2 M_PI + 2^-20]` when the flag
is set and in `[-(2 M_PI + 2^-20), 2^-20]` when it is not, the start angle is
in `[0, 2 M_PI + 2^-20]`, and the segment count is between 1 and 5. -/
theorem sweep_normalization {F : Type} [LinearOrderedField F] [FloorRing F] (m : Libm F)
    (hpi : 0 < m.M_PI) :
    (∀ a nat : F, -m.M_PI < a → a ≤ m.M_PI → -m.M_PI < nat → nat ≤ m.M_PI →
      (0 ≤ arcDeltaTheta m true a nat ∧ arcDeltaTheta m true a nat < 2 * m.M_PI) ∧
      (-(2 * m.M_PI) < arcDeltaTheta m false a nat ∧ arcDeltaTheta m false a nat ≤ 0) ∧
      (0 ≤ arcTheta1 m a ∧ arcTheta1 m a < 2 * m.M_PI) ∧
      (∀ sweep : Bool, |arcDeltaTheta m sweep a nat| < 2 * m.M_PI ∧
        1 ≤ arcSegments m (arcDeltaTheta m sweep a nat) ∧
        arcSegments m (arcDeltaTheta m sweep a nat) ≤ 4)) ∧
    (∀ (st : PathState F) (x y rx ry angle : F) (largeArc sweep : Bool),
      -m.M_PI < (arcAngles m st.cur x y rx ry angle largeArc sweep).1 →
      (arcAngles m st.cur x y rx ry angle largeArc sweep).1 ≤ m.M_PI →
      -m.M_PI < (arcAngles m st.cur x y rx ry angle largeArc sweep).2 →
      (arcAngles m st.cur x y rx ry angle largeArc sweep).2 ≤ m.M_PI →
      ∃ n, 1 ≤ n ∧ n ≤ 4 ∧
        (arcToCubics m st x y rx ry angle largeArc sweep).cmds
          = st.cmds ++ List.replicate n PathCommand.CubicTo) ∧
    (∀ a nat : ℚ, |a| ≤ toFloat piQ → |nat| ≤ toFloat piQ →
      (0 ≤ deltaThetaBinary32 true a nat ∧
        deltaThetaBinary32 true a nat ≤ 2 * piQ + 1 / 2 ^ 20) ∧
      (-(2 * piQ + 1 / 2 ^ 20) ≤ deltaThetaBinary32 false a nat ∧
        deltaThetaBinary32 false a nat ≤ 1 / 2 ^ 20) ∧
      (0 ≤ theta1Binary32 a ∧ theta1Binary32 a ≤ 2 * piQ + 1 / 2 ^ 20) ∧
      (∀ sweep : Bool, 1 ≤ segmentsBinary32 (deltaThetaBinary32 sweep a nat) ∧
        segmentsBinary32 (deltaThetaBinary32 sweep a nat) ≤ 5)) := by
  have key : ∀ a nat : F, -m.M_PI < a → a ≤ m.M_PI → -m.M_PI < nat → nat ≤ m.M_PI →
      ∀ sweep : Bool, |arcDeltaTheta m sweep a nat| < 2 * m.M_PI ∧
        1 ≤ arcSegments m (arcDeltaTheta m sweep a nat) ∧
        arcSegments m (arcDeltaTheta m sweep a nat) ≤ 4 := by
    intro a nat ha1 ha2 hn1 hn2 sweep
    obtain ⟨⟨h1, h2⟩, ⟨h3, h4⟩⟩ := arcDeltaTheta_range m a nat ha1 ha2 hn1 hn2
    have habs : |arcDeltaTheta m sweep a nat| < 2 * m.M_PI := by
      cases sweep with
      | true => rw [abs_of_nonneg h1]; exact h2
      | false => rw [abs_of_nonpos h4]; linarith
    exact ⟨habs, (arcSegments_bound m hpi _).1, arcSegments_le_four m hpi _ habs⟩
  refine ⟨fun a nat ha1 ha2 hn1 hn2 => ?_, ?_, deltaThetaBinary32_range⟩
  · obtain ⟨hs, hu⟩ := arcDeltaTheta_range m a nat ha1 ha2 hn1 hn2
    refine ⟨hs, hu, ?_, key a nat ha1 ha2 hn1 hn2⟩
    unfold arcTheta1
    constructor <;> split_ifs <;> linarith
  · intro st x y rx ry angle largeArc sweep h1 h2 h3 h4
    obtain ⟨_, hlo, hhi⟩ := key _ _ h1 h2 h3 h4 sweep
    exact ⟨_, hlo, hhi, (arcToCubics_count m st x y rx ry angle largeArc sweep).1⟩

/-- Witness for C17: with the rational libm, start angle 3 and end angle -3
give the exact sweep `2 M_PI - 6` in `[0, 2 M_PI)` for the set flag; with the
rounding of the C types the start angle `float(M_PI)` and the end angle 0
give a sweep within the rounded bounds. -/
theorem sweep_normalization_witness :
    0 < libmQ.M_PI ∧ -libmQ.M_PI < (3 : ℚ) ∧ (3 : ℚ) ≤ libmQ.M_PI ∧
    -libmQ.M_PI < (-3 : ℚ) ∧ (-3 : ℚ) ≤ libmQ.M_PI ∧
    arcDeltaTheta libmQ true 3 (-3) = 2 * libmQ.M_PI - 6 ∧
    (0 ≤ arcDeltaTheta libmQ true 3 (-3) ∧ arcDeltaTheta libmQ true 3 (-3) < 2 * libmQ.M_PI) ∧
    |(13176795 / 4194304 : ℚ)| ≤ toFloat piQ ∧ |(0 : ℚ)| ≤ toFloat piQ ∧
    deltaThetaBinary32 true (13176795 / 4194304) 0 = 13176794 / 4194304 ∧
    (0 ≤ deltaThetaBinary32 true (13176795 / 4194304) 0 ∧
      deltaThetaBinary32 true (13176795 / 4194304) 0 ≤ 2 * piQ + 1 / 2 ^ 20) :=
  ⟨by decide!, by decide!, by decide!, by decide!, by decide!, by decide!,
    ((sweep_normalization libmQ (by decide!)).1 3 (-3) (by decide!) (by decide!) (by decide!)
      (by decide!)).1,
    by decide!, by decide!, by decide!,
    ((sweep_normalization libmQ (by decide!)).2.2 (13176795 / 4194304) 0 (by decide!)
      (by decide!)).1⟩

/-- Counterexample to C17 as stated: the `float` angles `at = 2^-25` and
`nat = -2^-25` lie in `(-M_PI, M_PI]`, and the code, which stores the sum
`2.0f * M_PI - at + nat` in the `float` `deltaTheta`, gets
`float(2 pi) = 13176795 / 2^21`, which is above `2 * M_PI`: with the sweep
flag set the sweep is not below one turn and 5 segments are emitted, with the
flag clear the sweep is positive; and `theta1` for `at = -2^-25` is
`float(2 pi)` too, outside `[0, 2 M_PI)`. -/
theorem sweep_exceeds_turn_in_binary32 :
    (-piQ < (1 / 2 ^ 25 : ℚ) ∧ (1 / 2 ^ 25 : ℚ) ≤ piQ) ∧
    (-piQ < (-(1 / 2 ^ 25) : ℚ) ∧ (-(1 / 2 ^ 25) : ℚ) ≤ piQ) ∧
    toFloat (1 / 2 ^ 25) = 1 / 2 ^ 25 ∧ toFloat (-(1 / 2 ^ 25)) = -(1 / 2 ^ 25) ∧
    deltaThetaBinary32 true (1 / 2 ^ 25) (-(1 / 2 ^ 25)) = 13176795 / 2097152 ∧
    2 * piQ < deltaThetaBinary32 true (1 / 2 ^ 25) (-(1 / 2 ^ 25)) ∧
    segmentsBinary32 (deltaThetaBinary32 true (1 / 2 ^ 25) (-(1 / 2 ^ 25))) = 5 ∧
    0 < deltaThetaBinary32 false (1 / 2 ^ 25) (-(1 / 2 ^ 25)) ∧
    theta1Binary32 (-(1 / 2 ^ 25)) = 13176795 / 2097152 ∧
    2 * piQ ≤ theta1Binary32 (-(1 / 2 ^ 25)) := by
  refine ⟨⟨by decide!, by decide!⟩, ⟨by decide!, by decide!⟩, by decide!, by decide!,
    by decide!, by decide!, by decide!, by decide!, by decide!, by decide!⟩


theorem arcLambda_mul {F : Type} [LinearOrderedField F] (X Y rx ry : F) (hrx : 0 < rx)
    (hry : 0 < ry) :
    arcLambda X Y rx ry * ((rx * rx) * (ry * ry))
      = (rx * rx) * (Y * Y) + (ry * ry) * (X * X) := by
  unfold arcLambda
  have h1 : rx ≠ 0 := ne_of_gt hrx
  have h2 : ry ≠ 0 := ne_of_gt hry
  field_simp
  ring

/-- The discriminant after the radius correction, for positive radii, a
half chord that is not zero and a square root that is exact at `lambda`. -/
theorem arcDiscriminant_corrected {F : Type} [LinearOrderedField F] (m : Libm F)
    (X Y rx ry : F) (hrx : 0 < rx) (hry : 0 < ry) (hXY : 0 < X * X + Y * Y)
    (hs : 1 < arcLambda X Y rx ry →
      m.sqrt (arcLambda X Y rx ry) * m.sqrt (arcLambda X Y rx ry) = arcLambda X Y rx ry) :
    0 ≤ arcDiscriminant X Y (arcCorrectedRadii m X Y rx ry).1 (arcCorrectedRadii m X Y rx ry).2 ∧
    (1 < arcLambda X Y rx ry →
      arcDiscriminant X Y (arcCorrectedRadii m X Y rx ry).1 (arcCorrectedRadii m X Y rx ry).2
        = 0) ∧
    0 < arcDivisor X Y (arcCorrectedRadii m X Y rx ry).1 (arcCorrectedRadii m X Y rx ry).2 := by
  have key := arcLambda_mul X Y rx ry hrx hry
  have hK : 0 < (rx * rx) * (ry * ry) := by positivity
  have hX : 0 ≤ X * X := mul_self_nonneg X
  have hY : 0 ≤ Y * Y := mul_self_nonneg Y
  have hdiv : ∀ r1 r2 : F, 0 < r1 * r1 → 0 < r2 * r2 → 0 < arcDivisor X Y r1 r2 := by
    intro r1 r2 h1 h2
    unfold arcDivisor
    rcases hX.lt_or_eq with hx | hx
    · have := mul_pos h2 hx
      have := mul_nonneg h1.le hY
      linarith
    · have hy : 0 < Y * Y := by linarith
      have := mul_pos h1 hy
      have := mul_nonneg h2.le hX
      linarith
  by_cases hl : 1 < arcLambda X Y rx ry
  · have hss := hs hl
    have hgt : arcLambda X Y rx ry > 1 := hl
    have hc : arcDiscriminant X Y (rx * m.sqrt (arcLambda X Y rx ry))
        (ry * m.sqrt (arcLambda X Y rx ry)) = 0 := by
      have e : arcDiscriminant X Y (rx * m.sqrt (arcLambda X Y rx ry))
          (ry * m.sqrt (arcLambda X Y rx ry))
          = (m.sqrt (arcLambda X Y rx ry) * m.sqrt (arcLambda X Y rx ry))
            * ((m.sqrt (arcLambda X Y rx ry) * m.sqrt (arcLambda X Y rx ry))
                * ((rx * rx) * (ry * ry))
              - ((rx * rx) * (Y * Y) + (ry * ry) * (X * X))) := by
        unfold arcDiscriminant
        ring
      rw [e, hss, key]
      ring
    have hr1 : 0 < (rx * m.sqrt (arcLambda X Y rx ry)) * (rx * m.sqrt (arcLambda X Y rx ry)) := by
      have : (rx * m.sqrt (arcLambda X Y rx ry)) * (rx * m.sqrt (arcLambda X Y rx ry))
          = (rx * rx) * (m.sqrt (arcLambda X Y rx ry) * m.sqrt (arcLambda X Y rx ry)) := by ring
      rw [this, hss]
      have : 0 < arcLambda X Y rx ry := by linarith
      positivity
    have hr2 : 0 < (ry * m.sqrt (arcLambda X Y rx ry)) * (ry * m.sqrt (arcLambda X Y rx ry)) := by
      have : (ry * m.sqrt (arcLambda X Y rx ry)) * (ry * m.sqrt (arcLambda X Y rx ry))
          = (ry * ry) * (m.sqrt (arcLambda X Y rx ry) * m.sqrt (arcLambda X Y rx ry)) := by ring
      rw [this, hss]
      have : 0 < arcLambda X Y rx ry := by linarith
      positivity
    simp only [arcCorrectedRadii, if_pos hgt]
    exact ⟨le_of_eq hc.symm, fun _ => hc, hdiv _ _ hr1 hr2⟩
  · have hgt : ¬ arcLambda X Y rx ry > 1 := hl
    simp only [arcCorrectedRadii, if_neg hgt]
    refine ⟨?_, fun h => absurd h hl, hdiv rx ry (by positivity) (by positivity)⟩
    have e : arcDiscriminant X Y rx ry
        = ((rx * rx) * (ry * ry)) * (1 - arcLambda X Y rx ry) := by
      unfold arcDiscriminant
      linear_combination key
    rw [e]
    exact mul_nonneg hK.le (by linarith [not_lt.1 hl])

theorem arcHalfChord_sq {F : Type} [LinearOrderedField F] (m : Libm F) (cur : Point F)
    (x y angle : F)
    (ht : m.cos (angle * m.M_PI / 180) ^ 2 + m.sin (angle * m.M_PI / 180) ^ 2 = 1) :
    (arcHalfChord m cur x y angle).1 * (arcHalfChord m cur x y angle).1
        + (arcHalfChord m cur x y angle).2 * (arcHalfChord m cur x y angle).2
      = ((cur.x - x) / 2) * ((cur.x - x) / 2) + ((cur.y - y) / 2) * ((cur.y - y) / 2) := by
  simp only [arcHalfChord]
  linear_combination
    (((cur.x - x) / 2) * ((cur.x - x) / 2) + ((cur.y - y) / 2) * ((cur.y - y) / 2)) * ht

theorem halfChord_pos {F : Type} [LinearOrderedField F] (cur : Point F) (x y : F)
    (hd : 1 / 256 ≤ |x - cur.x| ∨ 1 / 256 ≤ |y - cur.y|) :
    0 < ((cur.x - x) / 2) * ((cur.x - x) / 2) + ((cur.y - y) / 2) * ((cur.y - y) / 2) := by
  have h1 : 0 ≤ ((cur.x - x) / 2) * ((cur.x - x) / 2) := mul_self_nonneg _
  have h2 : 0 ≤ ((cur.y - y) / 2) * ((cur.y - y) / 2) := mul_self_nonneg _
  rcases hd with hd | hd
  · have hne : (cur.x - x) / 2 ≠ 0 := by
      intro e
      have : x - cur.x = 0 := by linarith
      rw [this, abs_zero] at hd
      norm_num at hd
    have := mul_self_pos.2 hne
    linarith
  · have hne : (cur.y - y) / 2 ≠ 0 := by
      intro e
      have : y - cur.y = 0 := by linarith
      rw [this, abs_zero] at hd
      norm_num at hd
    have := mul_self_pos.2 hne
    linarith


/-- Claim C18 (the radius correction makes the center solvable in exact
arithmetic). For every arc with non-coincident endpoints and radii
`|rx|, |ry| >= 0.5`, for a libm whose cosine and sine at the angle satisfy
`cos^2 + sin^2 = 1` and whose square root is exact at `lambda` when
`lambda > 1`: after the radii have been multiplied by `sqrt(lambda)` when
`lambda > 1`, the discriminant `c` is `>= 0` (and `= 0` when the radii were
scaled) and the divisor `rx2 * y1p2 + ry2 * x1p2` is `> 0`. So the branch for
`c < 0` is not taken: the center is given by the closed form and the radii
are not rescaled again. These are the values that the conversion uses. -/
theorem radius_correction_solvable {F : Type} [LinearOrderedField F] [FloorRing F]
    (m : Libm F) :
    (∀ (cur : Point F) (x y rx ry angle : F),
      (1 / 256 ≤ |x - cur.x| ∨ 1 / 256 ≤ |y - cur.y|) → 1 / 2 ≤ |rx| → 1 / 2 ≤ |ry| →
      m.cos (angle * m.M_PI / 180) ^ 2 + m.sin (angle * m.M_PI / 180) ^ 2 = 1 →
      (1 < arcLambda (arcHalfChord m cur x y angle).1 (arcHalfChord m cur x y angle).2 |rx| |ry| →
        m.sqrt (arcLambda (arcHalfChord m cur x y angle).1 (arcHalfChord m cur x y angle).2
            |rx| |ry|)
          * m.sqrt (arcLambda (arcHalfChord m cur x y angle).1 (arcHalfChord m cur x y angle).2
            |rx| |ry|)
          = arcLambda (arcHalfChord m cur x y angle).1 (arcHalfChord m cur x y angle).2
            |rx| |ry|) →
      0 ≤ arcDiscriminant (arcHalfChord m cur x y angle).1 (arcHalfChord m cur x y angle).2
          (arcCorrectedRadii m (arcHalfChord m cur x y angle).1
            (arcHalfChord m cur x y angle).2 |rx| |ry|).1
          (arcCorrectedRadii m (arcHalfChord m cur x y angle).1
            (arcHalfChord m cur x y angle).2 |rx| |ry|).2 ∧
      (1 < arcLambda (arcHalfChord m cur x y angle).1 (arcHalfChord m cur x y angle).2 |rx| |ry| →
        arcDiscriminant (arcHalfChord m cur x y angle).1 (arcHalfChord m cur x y angle).2
          (arcCorrectedRadii m (arcHalfChord m cur x y angle).1
            (arcHalfChord m cur x y angle).2 |rx| |ry|).1
          (arcCorrectedRadii m (arcHalfChord m cur x y angle).1
            (arcHalfChord m cur x y angle).2 |rx| |ry|).2 = 0) ∧
      0 < arcDivisor (arcHalfChord m cur x y angle).1 (arcHalfChord m cur x y angle).2
          (arcCorrectedRadii m (arcHalfChord m cur x y angle).1
            (arcHalfChord m cur x y angle).2 |rx| |ry|).1
          (arcCorrectedRadii m (arcHalfChord m cur x y angle).1
            (arcHalfChord m cur x y angle).2 |rx| |ry|).2 ∧
      arcFinalRadii m (arcHalfChord m cur x y angle).1 (arcHalfChord m cur x y angle).2
          (arcCorrectedRadii m (arcHalfChord m cur x y angle).1
            (arcHalfChord m cur x y angle).2 |rx| |ry|).1
          (arcCorrectedRadii m (arcHalfChord m cur x y angle).1
            (arcHalfChord m cur x y angle).2 |rx| |ry|).2
        = arcCorrectedRadii m (arcHalfChord m cur x y angle).1
            (arcHalfChord m cur x y angle).2 |rx| |ry|) ∧
    (∀ (st : PathState F) (x y rx ry angle : F) (largeArc sweep : Bool),
      arcToCubics m st x y rx ry angle largeArc sweep
        = arcToCubicsStaged m st x y rx ry angle largeArc sweep) := by
  refine ⟨?_, fun st x y rx ry angle largeArc sweep =>
    arcToCubics_staged m st x y rx ry angle largeArc sweep⟩
  intro cur x y rx ry angle hd hrx hry ht hs
  have hrx0 : 0 < |rx| := by linarith
  have hry0 : 0 < |ry| := by linarith
  have hXY : 0 < (arcHalfChord m cur x y angle).1 * (arcHalfChord m cur x y angle).1
      + (arcHalfChord m cur x y angle).2 * (arcHalfChord m cur x y angle).2 := by
    rw [arcHalfChord_sq m cur x y angle ht]
    exact halfChord_pos cur x y hd
  obtain ⟨h0, hz, hpos⟩ := arcDiscriminant_corrected m _ _ |rx| |ry| hrx0 hry0 hXY hs
  refine ⟨h0, hz, hpos, ?_⟩
  simp only [arcFinalRadii, if_neg (not_lt.2 h0)]

/-- Witness for C18: for the arc of "M0,0 A5,5 0 0 1 20,0" (chord 20, radii
5) and the rational libm, `lambda` is 4, the square root of 4 is exact, the
radii become 10 and the discriminant is 0. -/
theorem radius_correction_solvable_witness :
    (1 / 256 ≤ |(20 : ℚ) - (⟨0, 0⟩ : Point ℚ).x| ∨ 1 / 256 ≤ |(0 : ℚ) - (⟨0, 0⟩ : Point ℚ).y|) ∧
    1 / 2 ≤ |(5 : ℚ)| ∧
    libmQ.cos (0 * libmQ.M_PI / 180) ^ 2 + libmQ.sin (0 * libmQ.M_PI / 180) ^ 2 = 1 ∧
    arcLambda (arcHalfChord libmQ ⟨0, 0⟩ 20 0 0).1 (arcHalfChord libmQ ⟨0, 0⟩ 20 0 0).2
      |(5 : ℚ)| |(5 : ℚ)| = 4 ∧
    libmQ.sqrt 4 = 2 ∧
    arcCorrectedRadii libmQ (arcHalfChord libmQ ⟨0, 0⟩ 20 0 0).1
      (arcHalfChord libmQ ⟨0, 0⟩ 20 0 0).2 |(5 : ℚ)| |(5 : ℚ)| = (10, 10) ∧
    0 ≤ arcDiscriminant (arcHalfChord libmQ ⟨0, 0⟩ 20 0 0).1
        (arcHalfChord libmQ ⟨0, 0⟩ 20 0 0).2
        (arcCorrectedRadii libmQ (arcHalfChord libmQ ⟨0, 0⟩ 20 0 0).1
          (arcHalfChord libmQ ⟨0, 0⟩ 20 0 0).2 |(5 : ℚ)| |(5 : ℚ)|).1
        (arcCorrectedRadii libmQ (arcHalfChord libmQ ⟨0, 0⟩ 20 0 0).1
          (arcHalfChord libmQ ⟨0, 0⟩ 20 0 0).2 |(5 : ℚ)| |(5 : ℚ)|).2 :=
  ⟨by decide!, by decide!, by decide!, by decide!, by decide!, by decide!,
    ((radius_correction_solvable libmQ).1 ⟨0, 0⟩ 20 0 5 5 0 (by decide!) (by decide!)
      (by decide!) (by decide!) (fun _ => by decide!)).1⟩


theorem arcLoop_last {F : Type} [LinearOrderedField F] (m : Libm F)
    (bcp cosPhiRx cosPhiRy sinPhiRx sinPhiRy cx cy delta : F) (n : Nat) :
    ∀ (sx sy theta1 cosTheta1 sinTheta1 : F) (st : PathState F),
      ∃ (pre : List (Point F)) (c1 c2 e : Point F),
        (arcLoop m bcp cosPhiRx cosPhiRy sinPhiRx sinPhiRy cx cy delta (n + 1) sx sy
            theta1 cosTheta1 sinTheta1 st).pts = pre ++ [c1, c2, e] ∧
        (arcLoop m bcp cosPhiRx cosPhiRy sinPhiRx sinPhiRy cx cy delta (n + 1) sx sy
            theta1 cosTheta1 sinTheta1 st).curCtl = c2 ∧
        (arcLoop m bcp cosPhiRx cosPhiRy sinPhiRx sinPhiRy cx cy delta (n + 1) sx sy
            theta1 cosTheta1 sinTheta1 st).cur = e := by
  induction n with
  | zero =>
    intro sx sy theta1 cosTheta1 sinTheta1 st
    exact ⟨st.pts, ⟨sx - bcp * (cosPhiRx * sinTheta1 + sinPhiRy * cosTheta1),
      sy + bcp * (cosPhiRy * cosTheta1 - sinPhiRx * sinTheta1)⟩, _, _, rfl, rfl, rfl⟩
  | succ n ih =>
    intro sx sy theta1 cosTheta1 sinTheta1 st
    rw [arcLoop]
    exact ih _ _ _ _ _ _

/-- The chain branch of `_pathAppendArcTo`: the last three points are those
of the last segment, the last control point is the middle one, and the last
command is a `CubicTo`. -/
theorem pathAppendArcTo_chain {F : Type} [LinearOrderedField F] [FloorRing F] (m : Libm F)
    (st : PathState F) (x y rx ry angle : F) (largeArc sweep : Bool)
    (hd : 1 / 256 ≤ |x - st.cur.x| ∨ 1 / 256 ≤ |y - st.cur.y|) (hrx : 1 / 2 ≤ |rx|)
    (hry : 1 / 2 ≤ |ry|) :
    ∃ (pre : List (Point F)) (c1 c2 e : Point F),
      (_pathAppendArcTo m st x y rx ry angle largeArc sweep).pts = pre ++ [c1, c2, e] ∧
      (_pathAppendArcTo m st x y rx ry angle largeArc sweep).curCtl = c2 ∧
      (_pathAppendArcTo m st x y rx ry angle largeArc sweep).cur = e ∧
      (_pathAppendArcTo m st x y rx ry angle largeArc sweep).cmds.getLast?
        = some PathCommand.CubicTo := by
  have hn : ¬ (|x - st.cur.x| < 1 / 256 ∧ |y - st.cur.y| < 1 / 256) := by
    rintro ⟨hx, hy⟩
    rcases hd with hd | hd
    · exact absurd hx (not_lt.2 hd)
    · exact absurd hy (not_lt.2 hd)
  have hr : ¬ (|rx| < 1 / 2 ∨ |ry| < 1 / 2) := by
    rintro (h | h)
    · exact absurd h (not_lt.2 hrx)
    · exact absurd h (not_lt.2 hry)
  have hcmds := (arcToCubics_count m st x y |rx| |ry| angle largeArc sweep).1
  have hlast : ∃ (pre : List (Point F)) (c1 c2 e : Point F),
      (arcToCubics m st x y |rx| |ry| angle largeArc sweep).pts = pre ++ [c1, c2, e] ∧
      (arcToCubics m st x y |rx| |ry| angle largeArc sweep).curCtl = c2 ∧
      (arcToCubics m st x y |rx| |ry| angle largeArc sweep).cur = e := by
    rw [arcToCubics_staged]
    exact arcLoop_last m _ _ _ _ _ _ _ _
      ⌊|arcSweep m st.cur x y |rx| |ry| angle largeArc sweep / M_PI_2 m|⌋₊ _ _ _ _ _ st
  unfold _pathAppendArcTo
  rw [if_neg hn, if_neg hr]
  obtain ⟨pre, c1, c2, e, h1, h2, h3⟩ := hlast
  refine ⟨pre, c1, c2, e, h1, h2, h3, ?_⟩
  rw [hcmds]
  simp [arcSegments, List.replicate_succ']

theorem processCommand_arc {F : Type} [LinearOrderedField F] [FloorRing F] (m : Libm F)
    (st : PathState F) (a0 a1 a2 a3 a4 a5 a6 : F) :
    _processCommand m st 'A' [a0, a1, a2, a3, a4, a5, a6] 7
      = ({ _pathAppendArcTo m st a5 a6 a0 a1 a2 (decide (a3 ≠ 0)) (decide (a4 ≠ 0)) with
            cur := ⟨a5, a6⟩ }, [a0, a1, a2, a3, a4, a5, a6]) ∧
    _processCommand m st 'a' [a0, a1, a2, a3, a4, a5, a6] 7
      = ({ _pathAppendArcTo m st (a5 + st.cur.x) (a6 + st.cur.y) a0 a1 a2 (decide (a3 ≠ 0))
              (decide (a4 ≠ 0)) with
            cur := ⟨a5 + st.cur.x, a6 + st.cur.y⟩ },
          [a0, a1, a2, a3, a4, a5 + st.cur.x, a6 + st.cur.y]) := by
  constructor
  · have e : emitCommand m st 'A' [a0, a1, a2, a3, a4, a5, a6]
        = { _pathAppendArcTo m st a5 a6 a0 a1 a2 (decide (a3 ≠ 0)) (decide (a4 ≠ 0)) with
            cur := ⟨a5, a6⟩ } := by
      simp [emitCommand, argAt]
    have ea : makeAbsolute 'A' [a0, a1, a2, a3, a4, a5, a6] 7 st.cur
        = [a0, a1, a2, a3, a4, a5, a6] := by
      simp [makeAbsolute]
    simp only [_processCommand, ea, e]
  · have e : emitCommand m st 'a' [a0, a1, a2, a3, a4, a5 + st.cur.x, a6 + st.cur.y]
        = { _pathAppendArcTo m st (a5 + st.cur.x) (a6 + st.cur.y) a0 a1 a2 (decide (a3 ≠ 0))
              (decide (a4 ≠ 0)) with
            cur := ⟨a5 + st.cur.x, a6 + st.cur.y⟩ } := by
      simp [emitCommand, argAt]
    have ea : makeAbsolute 'a' [a0, a1, a2, a3, a4, a5, a6] 7 st.cur
        = [a0, a1, a2, a3, a4, a5 + st.cur.x, a6 + st.cur.y] := by
      simp [makeAbsolute, argAt]
    simp only [_processCommand, ea, e]

/-- Claim C19 (the current point after an arc). For every state and
arguments, after `_processCommand` on `A` the current point is the argument
pair `(arr[5], arr[6])` and on `a` it is that pair added to the previous
current point (only these two arguments are offset), whichever branch
`_pathAppendArcTo` takes and whatever endpoint its last segment computed. An
arc never changes the curve-type flag. The last control point is unchanged
when the endpoints coincide or a radius is below 0.5; in the remaining
branch the last command is a `CubicTo` and the last control point is the
second of its three points. -/
theorem current_point_after_arc {F : Type} [LinearOrderedField F] [FloorRing F]
    (m : Libm F) :
    (∀ (st : PathState F) (a0 a1 a2 a3 a4 a5 a6 : F),
      _processCommand m st 'A' [a0, a1, a2, a3, a4, a5, a6] 7
        = ({ _pathAppendArcTo m st a5 a6 a0 a1 a2 (decide (a3 ≠ 0)) (decide (a4 ≠ 0)) with
              cur := ⟨a5, a6⟩ }, [a0, a1, a2, a3, a4, a5, a6]) ∧
      (_processCommand m st 'A' [a0, a1, a2, a3, a4, a5, a6] 7).1.cur = ⟨a5, a6⟩ ∧
      (_processCommand m st 'A' [a0, a1, a2, a3, a4, a5, a6] 7).1.isQuadratic
        = st.isQuadratic) ∧
    (∀ (st : PathState F) (a0 a1 a2 a3 a4 a5 a6 : F),
      _processCommand m st 'a' [a0, a1, a2, a3, a4, a5, a6] 7
        = ({ _pathAppendArcTo m st (a5 + st.cur.x) (a6 + st.cur.y) a0 a1 a2 (decide (a3 ≠ 0))
                (decide (a4 ≠ 0)) with
              cur := ⟨a5 + st.cur.x, a6 + st.cur.y⟩ },
            [a0, a1, a2, a3, a4, a5 + st.cur.x, a6 + st.cur.y]) ∧
      (_processCommand m st 'a' [a0, a1, a2, a3, a4, a5, a6] 7).1.cur
        = ⟨a5 + st.cur.x, a6 + st.cur.y⟩ ∧
      (_processCommand m st 'a' [a0, a1, a2, a3, a4, a5, a6] 7).1.isQuadratic
        = st.isQuadratic) ∧
    (∀ (st : PathState F) (x y rx ry angle : F) (largeArc sweep : Bool),
      (_pathAppendArcTo m st x y rx ry angle largeArc sweep).isQuadratic = st.isQuadratic) ∧
    (∀ (st : PathState F) (x y rx ry angle : F) (largeArc sweep : Bool),
      ((|x - st.cur.x| < 1 / 256 ∧ |y - st.cur.y| < 1 / 256) ∨ |rx| < 1 / 2 ∨ |ry| < 1 / 2) →
      (_pathAppendArcTo m st x y rx ry angle largeArc sweep).curCtl = st.curCtl) ∧
    (∀ (st : PathState F) (x y rx ry angle : F) (largeArc sweep : Bool),
      (1 / 256 ≤ |x - st.cur.x| ∨ 1 / 256 ≤ |y - st.cur.y|) → 1 / 2 ≤ |rx| → 1 / 2 ≤ |ry| →
      ∃ (pre : List (Point F)) (c1 c2 e : Point F),
        (_pathAppendArcTo m st x y rx ry angle largeArc sweep).pts = pre ++ [c1, c2, e] ∧
        (_pathAppendArcTo m st x y rx ry angle largeArc sweep).curCtl = c2 ∧
        (_pathAppendArcTo m st x y rx ry angle largeArc sweep).cur = e ∧
        (_pathAppendArcTo m st x y rx ry angle largeArc sweep).cmds.getLast?
          = some PathCommand.CubicTo) := by
  refine ⟨fun st a0 a1 a2 a3 a4 a5 a6 => ?_, fun st a0 a1 a2 a3 a4 a5 a6 => ?_,
    fun st x y rx ry angle largeArc sweep =>
      pathAppendArcTo_flag m st x y rx ry angle largeArc sweep,
    fun st x y rx ry angle largeArc sweep h => ?_,
    fun st x y rx ry angle largeArc sweep hd hrx hry =>
      pathAppendArcTo_chain m st x y rx ry angle largeArc sweep hd hrx hry⟩
  · have h := (processCommand_arc m st a0 a1 a2 a3 a4 a5 a6).1
    refine ⟨h, ?_, ?_⟩
    · rw [h]
    · rw [h]
      exact pathAppendArcTo_flag m st _ _ _ _ _ _ _
  · have h := (processCommand_arc m st a0 a1 a2 a3 a4 a5 a6).2
    refine ⟨h, ?_, ?_⟩
    · rw [h]
    · rw [h]
      exact pathAppendArcTo_flag m st _ _ _ _ _ _ _
  · unfold _pathAppendArcTo
    by_cases hc : |x - st.cur.x| < 1 / 256 ∧ |y - st.cur.y| < 1 / 256
    · rw [if_pos hc]
    · rw [if_neg hc]
      have hr : |rx| < 1 / 2 ∨ |ry| < 1 / 2 := by
        rcases h with h | h
        · exact absurd h hc
        · exact h
      rw [if_pos hr]

/-- Witness for C19: in "M0,0 A5,5 0 0 1 3,4 l1,0" (rational libm) the last
segment of the arc ends a little off (3,4), and the relative line after it
goes to (4,4): the current point was the argument pair (3,4). -/
theorem current_point_after_arc_witness :
    (svgPathToTvgPath libmQ 4 "M0,0 A5,5 0 0 1 3,4 l1,0").map (fun r => (r.1, r.2.drop 3))
      = some ([PathCommand.MoveTo, PathCommand.CubicTo, PathCommand.LineTo],
          [⟨1610612735 / 536870912, 8589934585 / 2147483648⟩, ⟨4, 4⟩]) ∧
    (1 / 256 ≤ |(3 : ℚ) - (⟨0, 0⟩ : Point ℚ).x| ∨ 1 / 256 ≤ |(4 : ℚ) - (⟨0, 0⟩ : Point ℚ).y|) ∧
    1 / 2 ≤ |(5 : ℚ)| ∧
    (_processCommand libmQ
        { cmds := [PathCommand.MoveTo], pts := [⟨0, 0⟩], cur := ⟨0, 0⟩, curCtl := ⟨0, 0⟩,
          isQuadratic := false } 'A' [5, 5, 0, 0, 1, 3, 4] 7).1.cur = ⟨3, 4⟩ ∧
    ∃ (pre : List (Point ℚ)) (c1 c2 e : Point ℚ),
      (_pathAppendArcTo libmQ
          { cmds := [PathCommand.MoveTo], pts := [⟨0, 0⟩], cur := ⟨0, 0⟩, curCtl := ⟨0, 0⟩,
            isQuadratic := false } 3 4 5 5 0 false true).pts = pre ++ [c1, c2, e] ∧
      (_pathAppendArcTo libmQ
          { cmds := [PathCommand.MoveTo], pts := [⟨0, 0⟩], cur := ⟨0, 0⟩, curCtl := ⟨0, 0⟩,
            isQuadratic := false } 3 4 5 5 0 false true).curCtl = c2 ∧
      (_pathAppendArcTo libmQ
          { cmds := [PathCommand.MoveTo], pts := [⟨0, 0⟩], cur := ⟨0, 0⟩, curCtl := ⟨0, 0⟩,
            isQuadratic := false } 3 4 5 5 0 false true).cur = e ∧
      (_pathAppendArcTo libmQ
          { cmds := [PathCommand.MoveTo], pts := [⟨0, 0⟩], cur := ⟨0, 0⟩, curCtl := ⟨0, 0⟩,
            isQuadratic := false } 3 4 5 5 0 false true).cmds.getLast?
        = some PathCommand.CubicTo :=
  ⟨by decide!, by decide!, by decide!,
    ((current_point_after_arc libmQ).1
      { cmds := [PathCommand.MoveTo], pts := [⟨0, 0⟩], cur := ⟨0, 0⟩, curCtl := ⟨0, 0⟩,
        isQuadratic := false } 5 5 0 0 1 3 4).2.1,
    (current_point_after_arc libmQ).2.2.2.2
      { cmds := [PathCommand.MoveTo], pts := [⟨0, 0⟩], cur := ⟨0, 0⟩, curCtl := ⟨0, 0⟩,
        isQuadratic := false } 3 4 5 5 0 false true (by decide!) (by decide!) (by decide!)⟩



/-! ### C6, C8: smooth curves after an arc -/

/-- The command processor on `A` in the branch that emits curves (endpoints
apart, both radii at least 0.5): `n + 1` `CubicTo` are appended, the last
control point is the second point of the last of them, the current point is
the argument pair and the curve-type flag is the one found. -/
theorem processCommand_arc_chain {F : Type} [LinearOrderedField F] [FloorRing F] (m : Libm F)
    (st : PathState F) (a0 a1 a2 a3 a4 a5 a6 : F)
    (hd : 1 / 256 ≤ |a5 - st.cur.x| ∨ 1 / 256 ≤ |a6 - st.cur.y|) (hrx : 1 / 2 ≤ |a0|)
    (hry : 1 / 2 ≤ |a1|) :
    ∃ (n : Nat) (pre : List (Point F)) (c1 c2 e : Point F),
      _processCommand m st 'A' [a0, a1, a2, a3, a4, a5, a6] 7
        = ({ cmds := st.cmds ++ List.replicate (n + 1) PathCommand.CubicTo
             pts := pre ++ [c1, c2, e]
             cur := ⟨a5, a6⟩
             curCtl := c2
             isQuadratic := st.isQuadratic }, [a0, a1, a2, a3, a4, a5, a6]) ∧
      pre.length + 3 = st.pts.length + 3 * (n + 1) := by
  obtain ⟨pre, c1, c2, e, h1, h2, -, -⟩ :=
    pathAppendArcTo_chain m st a5 a6 a0 a1 a2 (decide (a3 ≠ 0)) (decide (a4 ≠ 0)) hd hrx hry
  have hf := pathAppendArcTo_flag m st a5 a6 a0 a1 a2 (decide (a3 ≠ 0)) (decide (a4 ≠ 0))
  have hn : ¬ (|a5 - st.cur.x| < 1 / 256 ∧ |a6 - st.cur.y| < 1 / 256) := by
    rintro ⟨hx, hy⟩
    rcases hd with hd | hd
    · exact absurd hx (not_lt.2 hd)
    · exact absurd hy (not_lt.2 hd)
  have hr : ¬ (|a0| < 1 / 2 ∨ |a1| < 1 / 2) := by
    rintro (h | h)
    · exact absurd h (not_lt.2 hrx)
    · exact absurd h (not_lt.2 hry)
  have hc : (_pathAppendArcTo m st a5 a6 a0 a1 a2 (decide (a3 ≠ 0)) (decide (a4 ≠ 0))).cmds
        = st.cmds ++ List.replicate
            (⌊|arcSweep m st.cur a5 a6 |a0| |a1| a2 (decide (a3 ≠ 0)) (decide (a4 ≠ 0))
              / M_PI_2 m|⌋₊ + 1) PathCommand.CubicTo ∧
      (_pathAppendArcTo m st a5 a6 a0 a1 a2 (decide (a3 ≠ 0)) (decide (a4 ≠ 0))).pts.length
        = st.pts.length + 3 *
            (⌊|arcSweep m st.cur a5 a6 |a0| |a1| a2 (decide (a3 ≠ 0)) (decide (a4 ≠ 0))
              / M_PI_2 m|⌋₊ + 1) := by
    unfold _pathAppendArcTo
    rw [if_neg hn, if_neg hr]
    exact arcToCubics_count m st a5 a6 |a0| |a1| a2 _ _
  refine ⟨⌊|arcSweep m st.cur a5 a6 |a0| |a1| a2 (decide (a3 ≠ 0)) (decide (a4 ≠ 0))
      / M_PI_2 m|⌋₊, pre, c1, c2, e, ?_, ?_⟩
  · rw [(processCommand_arc m st a0 a1 a2 a3 a4 a5 a6).1]
    rw [← hc.1, ← h1, ← h2, ← hf]
  · have := hc.2
    rw [h1] at this
    simpa using this

theorem getLast_cubic_run (l : List PathCommand) (n : Nat) :
    (l ++ List.replicate (n + 1) PathCommand.CubicTo).getLast? = some PathCommand.CubicTo := by
  rw [List.replicate_succ', ← List.append_assoc, List.getLast?_concat]

theorem length_cubic_run (c : PathCommand) (l : List PathCommand) (n : Nat) :
    1 < (c :: l ++ List.replicate (n + 1) PathCommand.CubicTo).length := by
  simp

/-- Claim C6 fails on the code after an arc. In
"M0,0 A5,5 0 0 1 10,0 S20,20 20,0", for every libm, the arc appends `n + 1`
`CubicTo` whose last three points are `c1`, `c2`, `e`, and the `CubicTo` of
`S` starts with the reflection of `c2` through the current point (10,0),
although no `C`, `c`, `S`, `s` was processed: the claim has the current point
there. In "M0,0 Q5,5 10,0 A5,5 0 0 1 20,0 S30,10 30,0" the same kind of arc
curve comes last before `S`, and the `CubicTo` of `S` starts with the current
point (20,0): what `S` does after an arc depends on the curve-type flag that
the last command before the arc left behind, which the arc does not update.
With the rational libm the reflected point of the first string is not the
current point. -/
theorem smooth_cubic_after_arc :
    (∀ m : Libm ℚ, ∃ (n : Nat) (pre : List (Point ℚ)) (c1 c2 e : Point ℚ),
      svgPathToTvgPath m 4 "M0,0 A5,5 0 0 1 10,0 S20,20 20,0"
        = some (PathCommand.MoveTo :: List.replicate (n + 1) PathCommand.CubicTo
              ++ [PathCommand.CubicTo],
            pre ++ [c1, c2, e, ⟨2 * 10 - c2.x, 2 * 0 - c2.y⟩, ⟨20, 20⟩, ⟨20, 0⟩]) ∧
      pre.length + 3 = 1 + 3 * (n + 1)) ∧
    (∀ m : Libm ℚ, ∃ (n : Nat) (pre : List (Point ℚ)) (c1 c2 e : Point ℚ),
      svgPathToTvgPath m 5 "M0,0 Q5,5 10,0 A5,5 0 0 1 20,0 S30,10 30,0"
        = some (PathCommand.MoveTo :: PathCommand.CubicTo
              :: List.replicate (n + 1) PathCommand.CubicTo ++ [PathCommand.CubicTo],
            pre ++ [c1, c2, e, ⟨20, 0⟩, ⟨30, 10⟩, ⟨30, 0⟩]) ∧
      pre.length + 3 = 4 + 3 * (n + 1)) ∧
    (svgPathToTvgPath libmQ 4 "M0,0 A5,5 0 0 1 10,0 S20,20 20,0").map
        (fun r => decide (r.2.reverse.get? 2 = some ⟨10, 0⟩)) = some false := by
  refine ⟨fun m => ?_, fun m => ?_, by decide!⟩
  · have h1 : loopStep m (initState "M0,0 A5,5 0 0 1 10,0 S20,20 20,0".toList)
        = some { out := { cmds := [PathCommand.MoveTo], pts := [⟨0, 0⟩], cur := ⟨0, 0⟩,
                          curCtl := ⟨0, 0⟩, isQuadratic := false }
                 numberArray := [0, 0, 0, 0, 0, 0, 0], numberCount := 2, cmd := 'M'
                 path := "A5,5 0 0 1 10,0 S20,20 20,0".toList } := by
      rw [loopStep_eq m _ (by decide) "A5,5 0 0 1 10,0 S20,20 20,0".toList 'M'
        [0, 0, 0, 0, 0, 0, 0] 2 (by decide!)]
      simp [_processCommand, makeAbsolute, emitCommand, argAt, initState]
    obtain ⟨n, pre, c1, c2, e, ha, hlen⟩ := processCommand_arc_chain m
      { cmds := [PathCommand.MoveTo], pts := [⟨0, 0⟩], cur := ⟨0, 0⟩, curCtl := ⟨0, 0⟩,
        isQuadratic := false }
      5 5 0 0 1 10 0 (Or.inl (by norm_num)) (by norm_num) (by norm_num)
    have h2 : loopStep m
        { out := { cmds := [PathCommand.MoveTo], pts := [⟨0, 0⟩], cur := ⟨0, 0⟩,
                   curCtl := ⟨0, 0⟩, isQuadratic := false }
          numberArray := [0, 0, 0, 0, 0, 0, 0], numberCount := 2, cmd := 'M'
          path := "A5,5 0 0 1 10,0 S20,20 20,0".toList }
        = some { out := { cmds := [PathCommand.MoveTo]
                            ++ List.replicate (n + 1) PathCommand.CubicTo
                          pts := pre ++ [c1, c2, e], cur := ⟨10, 0⟩, curCtl := c2
                          isQuadratic := false }
                 numberArray := [5, 5, 0, 0, 1, 10, 0], numberCount := 7, cmd := 'A'
                 path := "S20,20 20,0".toList } := by
      rw [loopStep_eq m _ (by decide) "S20,20 20,0".toList 'A' [5, 5, 0, 0, 1, 10, 0] 7
        (by decide!)]
      simp only [ha]
    have h3 : loopStep m
        { out := { cmds := [PathCommand.MoveTo] ++ List.replicate (n + 1) PathCommand.CubicTo
                   pts := pre ++ [c1, c2, e], cur := ⟨10, 0⟩, curCtl := c2
                   isQuadratic := false }
          numberArray := [5, 5, 0, 0, 1, 10, 0], numberCount := 7, cmd := 'A'
          path := "S20,20 20,0".toList }
        = some { out := { cmds := [PathCommand.MoveTo]
                            ++ List.replicate (n + 1) PathCommand.CubicTo
                            ++ [PathCommand.CubicTo]
                          pts := pre ++ [c1, c2, e] ++
                            [⟨2 * 10 - c2.x, 2 * 0 - c2.y⟩, ⟨20, 20⟩, ⟨20, 0⟩]
                          cur := ⟨20, 0⟩, curCtl := ⟨20, 20⟩
                          isQuadratic := false }
                 numberArray := [20, 20, 20, 0, 1, 10, 0], numberCount := 4, cmd := 'S'
                 path := [] } := by
      have hp : "S20,20 20,0".toList ≠ [] := by decide
      have hn : _nextCommand (F := ℚ) "S20,20 20,0".toList 'A' [5, 5, 0, 0, 1, 10, 0] 7
          = some ([], 'S', [20, 20, 20, 0, 1, 10, 0], 4) := by decide!
      rw [loopStep_eq m _ hp [] 'S' [20, 20, 20, 0, 1, 10, 0] 4 hn]
      have hs := (smooth_cubic_rule m).1
        { cmds := [PathCommand.MoveTo] ++ List.replicate (n + 1) PathCommand.CubicTo
          pts := pre ++ [c1, c2, e], cur := ⟨10, 0⟩, curCtl := c2, isQuadratic := false }
        20 20 20 0 1 10 0
      rw [if_pos ⟨length_cubic_run _ [] n, getLast_cubic_run _ n, rfl⟩] at hs
      rw [hs]
      simp [_processCommand, makeAbsolute]
    refine ⟨n, pre, c1, c2, e, ?_, by simpa using hlen⟩
    unfold svgPathToTvgPath
    rw [runLoop_succ_of_step m _ _ h1, runLoop_succ_of_step m _ _ h2,
      runLoop_succ_of_step m _ _ h3, runLoop_succ_of_none m _ (by rfl)]
    simp
  · have h1 : loopStep m (initState "M0,0 Q5,5 10,0 A5,5 0 0 1 20,0 S30,10 30,0".toList)
        = some { out := { cmds := [PathCommand.MoveTo], pts := [⟨0, 0⟩], cur := ⟨0, 0⟩,
                          curCtl := ⟨0, 0⟩, isQuadratic := false }
                 numberArray := [0, 0, 0, 0, 0, 0, 0], numberCount := 2, cmd := 'M'
                 path := "Q5,5 10,0 A5,5 0 0 1 20,0 S30,10 30,0".toList } := by
      rw [loopStep_eq m _ (by decide) "Q5,5 10,0 A5,5 0 0 1 20,0 S30,10 30,0".toList 'M'
        [0, 0, 0, 0, 0, 0, 0] 2 (by decide!)]
      simp [_processCommand, makeAbsolute, emitCommand, argAt, initState]
    have h2 : loopStep m
        { out := { cmds := [PathCommand.MoveTo], pts := [⟨0, 0⟩], cur := ⟨0, 0⟩,
                   curCtl := ⟨0, 0⟩, isQuadratic := false }
          numberArray := [0, 0, 0, 0, 0, 0, 0], numberCount := 2, cmd := 'M'
          path := "Q5,5 10,0 A5,5 0 0 1 20,0 S30,10 30,0".toList }
        = some { out := { cmds := [PathCommand.MoveTo, PathCommand.CubicTo]
                          pts := [⟨0, 0⟩, ⟨10 / 3, 10 / 3⟩, ⟨20 / 3, 10 / 3⟩, ⟨10, 0⟩]
                          cur := ⟨10, 0⟩, curCtl := ⟨5, 5⟩, isQuadratic := true }
                 numberArray := [5, 5, 10, 0, 0, 0, 0], numberCount := 4, cmd := 'Q'
                 path := "A5,5 0 0 1 20,0 S30,10 30,0".toList } := by
      rw [loopStep_eq m _ (by decide) "A5,5 0 0 1 20,0 S30,10 30,0".toList 'Q'
        [5, 5, 10, 0, 0, 0, 0] 4 (by decide!)]
      simp only [processCommand_quadratic]
      simp [_processCommand, makeAbsolute]
      norm_num
    obtain ⟨n, pre, c1, c2, e, ha, hlen⟩ := processCommand_arc_chain m
      { cmds := [PathCommand.MoveTo, PathCommand.CubicTo]
        pts := [⟨0, 0⟩, ⟨10 / 3, 10 / 3⟩, ⟨20 / 3, 10 / 3⟩, ⟨10, 0⟩]
        cur := ⟨10, 0⟩, curCtl := ⟨5, 5⟩, isQuadratic := true }
      5 5 0 0 1 20 0 (Or.inl (by norm_num)) (by norm_num) (by norm_num)
    have h3 : loopStep m
        { out := { cmds := [PathCommand.MoveTo, PathCommand.CubicTo]
                   pts := [⟨0, 0⟩, ⟨10 / 3, 10 / 3⟩, ⟨20 / 3, 10 / 3⟩, ⟨10, 0⟩]
                   cur := ⟨10, 0⟩, curCtl := ⟨5, 5⟩, isQuadratic := true }
          numberArray := [5, 5, 10, 0, 0, 0, 0], numberCount := 4, cmd := 'Q'
          path := "A5,5 0 0 1 20,0 S30,10 30,0".toList }
        = some { out := { cmds := [PathCommand.MoveTo, PathCommand.CubicTo]
                            ++ List.replicate (n + 1) PathCommand.CubicTo
                          pts := pre ++ [c1, c2, e], cur := ⟨20, 0⟩, curCtl := c2
                          isQuadratic := true }
                 numberArray := [5, 5, 0, 0, 1, 20, 0], numberCount := 7, cmd := 'A'
                 path := "S30,10 30,0".toList } := by
      rw [loopStep_eq m _ (by decide) "S30,10 30,0".toList 'A' [5, 5, 0, 0, 1, 20, 0] 7
        (by decide!)]
      simp only [ha]
    have h4 : loopStep m
        { out := { cmds := [PathCommand.MoveTo, PathCommand.CubicTo]
                     ++ List.replicate (n + 1) PathCommand.CubicTo
                   pts := pre ++ [c1, c2, e], cur := ⟨20, 0⟩, curCtl := c2
                   isQuadratic := true }
          numberArray := [5, 5, 0, 0, 1, 20, 0], numberCount := 7, cmd := 'A'
          path := "S30,10 30,0".toList }
        = some { out := { cmds := [PathCommand.MoveTo, PathCommand.CubicTo]
                            ++ List.replicate (n + 1) PathCommand.CubicTo
                            ++ [PathCommand.CubicTo]
                          pts := pre ++ [c1, c2, e] ++ [⟨20, 0⟩, ⟨30, 10⟩, ⟨30, 0⟩]
                          cur := ⟨30, 0⟩, curCtl := ⟨30, 10⟩
                          isQuadratic := false }
                 numberArray := [30, 10, 30, 0, 1, 20, 0], numberCount := 4, cmd := 'S'
                 path := [] } := by
      have hp : "S30,10 30,0".toList ≠ [] := by decide
      have hn : _nextCommand (F := ℚ) "S30,10 30,0".toList 'A' [5, 5, 0, 0, 1, 20, 0] 7
          = some ([], 'S', [30, 10, 30, 0, 1, 20, 0], 4) := by decide!
      rw [loopStep_eq m _ hp [] 'S' [30, 10, 30, 0, 1, 20, 0] 4 hn]
      have hs := (smooth_cubic_rule m).1
        { cmds := [PathCommand.MoveTo, PathCommand.CubicTo]
            ++ List.replicate (n + 1) PathCommand.CubicTo
          pts := pre ++ [c1, c2, e], cur := ⟨20, 0⟩, curCtl := c2, isQuadratic := true }
        30 10 30 0 1 20 0
      rw [if_neg (fun h => Bool.noConfusion h.2.2)] at hs
      rw [hs]
      simp [_processCommand, makeAbsolute]
    refine ⟨n, pre, c1, c2, e, ?_, by simpa using hlen⟩
    unfold svgPathToTvgPath
    rw [runLoop_succ_of_step m _ _ h1, runLoop_succ_of_step m _ _ h2,
      runLoop_succ_of_step m _ _ h3, runLoop_succ_of_step m _ _ h4,
      runLoop_succ_of_none m _ (by rfl)]
    simp

/-- Claim C8 fails on the code after an arc. In
"M0,0 Q5,5 10,0 A5,5 0 0 1 20,0 T30,0", for every libm, the arc appends
`n + 1` `CubicTo` whose last three points are `c1`, `c2`, `e`, none of them
derived from a quadratic, and the effective control point of `T` is the
reflection of `c2` (the second control point of the last cubic of the arc)
through the current point (20,0): the claim has the current point there. In
"M0,0 A5,5 0 0 1 10,0 T20,0" the same kind of arc curve comes last before
`T`, and the effective control point is the current point (10,0): what `T`
does after an arc depends on the curve-type flag that the last command before
the arc left behind, which the arc does not update. With the rational libm
the effective control point of the first string is not the current point. -/
theorem smooth_quadratic_after_arc :
    (∀ m : Libm ℚ, ∃ (n : Nat) (pre : List (Point ℚ)) (c1 c2 e : Point ℚ),
      svgPathToTvgPath m 5 "M0,0 Q5,5 10,0 A5,5 0 0 1 20,0 T30,0"
        = some (PathCommand.MoveTo :: PathCommand.CubicTo
              :: List.replicate (n + 1) PathCommand.CubicTo ++ [PathCommand.CubicTo],
            pre ++ [c1, c2, e,
              ⟨(20 + 2 * (2 * 20 - c2.x)) / 3, (0 + 2 * (2 * 0 - c2.y)) / 3⟩,
              ⟨(30 + 2 * (2 * 20 - c2.x)) / 3, (0 + 2 * (2 * 0 - c2.y)) / 3⟩, ⟨30, 0⟩]) ∧
      pre.length + 3 = 4 + 3 * (n + 1)) ∧
    (∀ m : Libm ℚ, ∃ (n : Nat) (pre : List (Point ℚ)) (c1 c2 e : Point ℚ),
      svgPathToTvgPath m 4 "M0,0 A5,5 0 0 1 10,0 T20,0"
        = some (PathCommand.MoveTo :: List.replicate (n + 1) PathCommand.CubicTo
              ++ [PathCommand.CubicTo],
            pre ++ [c1, c2, e, ⟨(10 + 2 * 10) / 3, (0 + 2 * 0) / 3⟩,
              ⟨(20 + 2 * 10) / 3, (0 + 2 * 0) / 3⟩, ⟨20, 0⟩]) ∧
      pre.length + 3 = 1 + 3 * (n + 1)) ∧
    (svgPathToTvgPath libmQ 5 "M0,0 Q5,5 10,0 A5,5 0 0 1 20,0 T30,0").map
        (fun r => decide (r.2.reverse.get? 2 = some ⟨(20 + 2 * 20) / 3, (0 + 2 * 0) / 3⟩))
      = some false := by
  refine ⟨fun m => ?_, fun m => ?_, by decide!⟩
  · have h1 : loopStep m (initState "M0,0 Q5,5 10,0 A5,5 0 0 1 20,0 T30,0".toList)
        = some { out := { cmds := [PathCommand.MoveTo], pts := [⟨0, 0⟩], cur := ⟨0, 0⟩,
                          curCtl := ⟨0, 0⟩, isQuadratic := false }
                 numberArray := [0, 0, 0, 0, 0, 0, 0], numberCount := 2, cmd := 'M'
                 path := "Q5,5 10,0 A5,5 0 0 1 20,0 T30,0".toList } := by
      rw [loopStep_eq m _ (by decide) "Q5,5 10,0 A5,5 0 0 1 20,0 T30,0".toList 'M'
        [0, 0, 0, 0, 0, 0, 0] 2 (by decide!)]
      simp [_processCommand, makeAbsolute, emitCommand, argAt, initState]
    have h2 : loopStep m
        { out := { cmds := [PathCommand.MoveTo], pts := [⟨0, 0⟩], cur := ⟨0, 0⟩,
                   curCtl := ⟨0, 0⟩, isQuadratic := false }
          numberArray := [0, 0, 0, 0, 0, 0, 0], numberCount := 2, cmd := 'M'
          path := "Q5,5 10,0 A5,5 0 0 1 20,0 T30,0".toList }
        = some { out := { cmds := [PathCommand.MoveTo, PathCommand.CubicTo]
                          pts := [⟨0, 0⟩, ⟨10 / 3, 10 / 3⟩, ⟨20 / 3, 10 / 3⟩, ⟨10, 0⟩]
                          cur := ⟨10, 0⟩, curCtl := ⟨5, 5⟩, isQuadratic := true }
                 numberArray := [5, 5, 10, 0, 0, 0, 0], numberCount := 4, cmd := 'Q'
                 path := "A5,5 0 0 1 20,0 T30,0".toList } := by
      rw [loopStep_eq m _ (by decide) "A5,5 0 0 1 20,0 T30,0".toList 'Q'
        [5, 5, 10, 0, 0, 0, 0] 4 (by decide!)]
      simp only [processCommand_quadratic]
      simp [_processCommand, makeAbsolute]
      norm_num
    obtain ⟨n, pre, c1, c2, e, ha, hlen⟩ := processCommand_arc_chain m
      { cmds := [PathCommand.MoveTo, PathCommand.CubicTo]
        pts := [⟨0, 0⟩, ⟨10 / 3, 10 / 3⟩, ⟨20 / 3, 10 / 3⟩, ⟨10, 0⟩]
        cur := ⟨10, 0⟩, curCtl := ⟨5, 5⟩, isQuadratic := true }
      5 5 0 0 1 20 0 (Or.inl (by norm_num)) (by norm_num) (by norm_num)
    have h3 : loopStep m
        { out := { cmds := [PathCommand.MoveTo, PathCommand.CubicTo]
                   pts := [⟨0, 0⟩, ⟨10 / 3, 10 / 3⟩, ⟨20 / 3, 10 / 3⟩, ⟨10, 0⟩]
                   cur := ⟨10, 0⟩, curCtl := ⟨5, 5⟩, isQuadratic := true }
          numberArray := [5, 5, 10, 0, 0, 0, 0], numberCount := 4, cmd := 'Q'
          path := "A5,5 0 0 1 20,0 T30,0".toList }
        = some { out := { cmds := [PathCommand.MoveTo, PathCommand.CubicTo]
                            ++ List.replicate (n + 1) PathCommand.CubicTo
                          pts := pre ++ [c1, c2, e], cur := ⟨20, 0⟩, curCtl := c2
                          isQuadratic := true }
                 numberArray := [5, 5, 0, 0, 1, 20, 0], numberCount := 7, cmd := 'A'
                 path := "T30,0".toList } := by
      rw [loopStep_eq m _ (by decide) "T30,0".toList 'A' [5, 5, 0, 0, 1, 20, 0] 7
        (by decide!)]
      simp only [ha]
    have h4 : loopStep m
        { out := { cmds := [PathCommand.MoveTo, PathCommand.CubicTo]
                     ++ List.replicate (n + 1) PathCommand.CubicTo
                   pts := pre ++ [c1, c2, e], cur := ⟨20, 0⟩, curCtl := c2
                   isQuadratic := true }
          numberArray := [5, 5, 0, 0, 1, 20, 0], numberCount := 7, cmd := 'A'
          path := "T30,0".toList }
        = some { out := { cmds := [PathCommand.MoveTo, PathCommand.CubicTo]
                            ++ List.replicate (n + 1) PathCommand.CubicTo
                            ++ [PathCommand.CubicTo]
                          pts := pre ++ [c1, c2, e] ++
                            [⟨(20 + 2 * (2 * 20 - c2.x)) / 3, (0 + 2 * (2 * 0 - c2.y)) / 3⟩,
                              ⟨(30 + 2 * (2 * 20 - c2.x)) / 3, (0 + 2 * (2 * 0 - c2.y)) / 3⟩,
                              ⟨30, 0⟩]
                          cur := ⟨30, 0⟩, curCtl := ⟨2 * 20 - c2.x, 2 * 0 - c2.y⟩
                          isQuadratic := true }
                 numberArray := [30, 0, 0, 0, 1, 20, 0], numberCount := 2, cmd := 'T'
                 path := [] } := by
      have hp : "T30,0".toList ≠ [] := by decide
      have hn : _nextCommand (F := ℚ) "T30,0".toList 'A' [5, 5, 0, 0, 1, 20, 0] 7
          = some ([], 'T', [30, 0, 0, 0, 1, 20, 0], 2) := by decide!
      rw [loopStep_eq m _ hp [] 'T' [30, 0, 0, 0, 1, 20, 0] 2 hn]
      have hc : smoothQuadControl
          ({ cmds := [PathCommand.MoveTo, PathCommand.CubicTo]
              ++ List.replicate (n + 1) PathCommand.CubicTo
             pts := pre ++ [c1, c2, e], cur := ⟨20, 0⟩, curCtl := c2, isQuadratic := true } :
            PathState ℚ) = ⟨2 * 20 - c2.x, 2 * 0 - c2.y⟩ := by
        unfold smoothQuadControl
        rw [if_pos ⟨length_cubic_run _ [PathCommand.CubicTo] n, getLast_cubic_run _ n, rfl⟩]
      rw [(smooth_quadratic_rule m).1, hc]
      simp [_processCommand, makeAbsolute]
    refine ⟨n, pre, c1, c2, e, ?_, by simpa using hlen⟩
    unfold svgPathToTvgPath
    rw [runLoop_succ_of_step m _ _ h1, runLoop_succ_of_step m _ _ h2,
      runLoop_succ_of_step m _ _ h3, runLoop_succ_of_step m _ _ h4,
      runLoop_succ_of_none m _ (by rfl)]
    simp
  · have h1 : loopStep m (initState "M0,0 A5,5 0 0 1 10,0 T20,0".toList)
        = some { out := { cmds := [PathCommand.MoveTo], pts := [⟨0, 0⟩], cur := ⟨0, 0⟩,
                          curCtl := ⟨0, 0⟩, isQuadratic := false }
                 numberArray := [0, 0, 0, 0, 0, 0, 0], numberCount := 2, cmd := 'M'
                 path := "A5,5 0 0 1 10,0 T20,0".toList } := by
      rw [loopStep_eq m _ (by decide) "A5,5 0 0 1 10,0 T20,0".toList 'M'
        [0, 0, 0, 0, 0, 0, 0] 2 (by decide!)]
      simp [_processCommand, makeAbsolute, emitCommand, argAt, initState]
    obtain ⟨n, pre, c1, c2, e, ha, hlen⟩ := processCommand_arc_chain m
      { cmds := [PathCommand.MoveTo], pts := [⟨0, 0⟩], cur := ⟨0, 0⟩, curCtl := ⟨0, 0⟩,
        isQuadratic := false }
      5 5 0 0 1 10 0 (Or.inl (by norm_num)) (by norm_num) (by norm_num)
    have h2 : loopStep m
        { out := { cmds := [PathCommand.MoveTo], pts := [⟨0, 0⟩], cur := ⟨0, 0⟩,
                   curCtl := ⟨0, 0⟩, isQuadratic := false }
          numberArray := [0, 0, 0, 0, 0, 0, 0], numberCount := 2, cmd := 'M'
          path := "A5,5 0 0 1 10,0 T20,0".toList }
        = some { out := { cmds := [PathCommand.MoveTo]
                            ++ List.replicate (n + 1) PathCommand.CubicTo
                          pts := pre ++ [c1, c2, e], cur := ⟨10, 0⟩, curCtl := c2
                          isQuadratic := false }
                 numberArray := [5, 5, 0, 0, 1, 10, 0], numberCount := 7, cmd := 'A'
                 path := "T20,0".toList } := by
      rw [loopStep_eq m _ (by decide) "T20,0".toList 'A' [5, 5, 0, 0, 1, 10, 0] 7
        (by decide!)]
      simp only [ha]
    have h3 : loopStep m
        { out := { cmds := [PathCommand.MoveTo] ++ List.replicate (n + 1) PathCommand.CubicTo
                   pts := pre ++ [c1, c2, e], cur := ⟨10, 0⟩, curCtl := c2
                   isQuadratic := false }
          numberArray := [5, 5, 0, 0, 1, 10, 0], numberCount := 7, cmd := 'A'
          path := "T20,0".toList }
        = some { out := { cmds := [PathCommand.MoveTo]
                            ++ List.replicate (n + 1) PathCommand.CubicTo
                            ++ [PathCommand.CubicTo]
                          pts := pre ++ [c1, c2, e] ++
                            [⟨(10 + 2 * 10) / 3, (0 + 2 * 0) / 3⟩,
                              ⟨(20 + 2 * 10) / 3, (0 + 2 * 0) / 3⟩, ⟨20, 0⟩]
                          cur := ⟨20, 0⟩, curCtl := ⟨10, 0⟩
                          isQuadratic := true }
                 numberArray := [20, 0, 0, 0, 1, 10, 0], numberCount := 2, cmd := 'T'
                 path := [] } := by
      have hp : "T20,0".toList ≠ [] := by decide
      have hn : _nextCommand (F := ℚ) "T20,0".toList 'A' [5, 5, 0, 0, 1, 10, 0] 7
          = some ([], 'T', [20, 0, 0, 0, 1, 10, 0], 2) := by decide!
      rw [loopStep_eq m _ hp [] 'T' [20, 0, 0, 0, 1, 10, 0] 2 hn]
      have hc : smoothQuadControl
          ({ cmds := [PathCommand.MoveTo] ++ List.replicate (n + 1) PathCommand.CubicTo
             pts := pre ++ [c1, c2, e], cur := ⟨10, 0⟩, curCtl := c2, isQuadratic := false } :
            PathState ℚ) = ⟨10, 0⟩ := by
        unfold smoothQuadControl
        rw [if_neg (fun h => Bool.noConfusion h.2.2)]
      rw [(smooth_quadratic_rule m).1, hc]
      simp [_processCommand, makeAbsolute]
    refine ⟨n, pre, c1, c2, e, ?_, by simpa using hlen⟩
    unfold svgPathToTvgPath
    rw [runLoop_succ_of_step m _ _ h1, runLoop_succ_of_step m _ _ h2,
      runLoop_succ_of_step m _ _ h3, runLoop_succ_of_none m _ (by rfl)]
    simp

end TvgSvgPath
